import Mathlib

/-! # packetd: dispatch, session table, SNI plugin and classify plugin

A shallow embedding of `services/dispatch/dispatch.go`, `services/dispatch/session.go`,
the packet callback of `services/kernel/kernel.go`, `plugins/sni/sni.go` and
`plugins/classify/classify.go`, followed by the properties proved about it.

Conventions of the embedding:

* Go's unsigned machine integers are natural numbers, reduced modulo `2 ^ w` wherever the
  source can wrap (`uint64` counters, `int` priorities).
* A Go `map` used as a table is a function from keys to optional values; a map that the code
  iterates or measures with `len` (the subscription sets, the session table of `session.go`)
  is an association list.
* `time.Now()` is a parameter `now`, in whole Unix seconds.
* Mutexes are not modelled: every callback is run to completion on its own.
* A Go panic is the result `Outcome.panic`; a loop of the source that has no bound of its own
  is run with fuel and reports `Outcome.outOfFuel` when the fuel is used up.
-/

set_option autoImplicit false

namespace Packetd

/-- Result of a piece of Go code: a value, a panic, or a loop that outlived its fuel. -/
inductive Outcome (α : Type) where
  | ok (a : α)
  | panic (msg : String)
  | outOfFuel

/-- Sequencing of Go statements: the first panic or exhaustion ends the run. -/
def Outcome.bind {α β : Type} (x : Outcome α) (f : α → Outcome β) : Outcome β :=
  match x with
  | .ok a => f a
  | .panic msg => .panic msg
  | .outOfFuel => .outOfFuel

instance : Monad Outcome where
  pure := Outcome.ok
  bind := Outcome.bind

/-- Two to the sixty-fourth: the modulus of `uint64` arithmetic. -/
def u64 : Nat := 2 ^ 64

namespace Dispatch

/-! ## Data model of `dispatch.go` -/

/-- Tuple of `dispatch.go`: addresses are byte sequences (`net.IP`). -/
structure Tuple where
  Protocol : Nat
  ClientAddr : List Nat
  ClientPort : Nat
  ServerAddr : List Nat
  ServerPort : Nat
  deriving DecidableEq, Repr

/-- The zero value of `Tuple`. -/
def Tuple.zero : Tuple := ⟨0, [], 0, [], 0⟩

/-- Leading twelve bytes of an IPv4 address written in sixteen bytes (Go `net` package). -/
def v4InV6Head : List Nat := [0, 0, 0, 0, 0, 0, 0, 0, 0, 0, 0xff, 0xff]

/-- Go `net.IP.Equal`: equal byte sequences, or an IPv4 address and its sixteen-byte form. -/
def ipEqual (ip x : List Nat) : Bool :=
  if ip.length = x.length then ip == x
  else if ip.length = 4 ∧ x.length = 16 then x.take 12 == v4InV6Head && ip == x.drop 12
  else if ip.length = 16 ∧ x.length = 4 then ip.take 12 == v4InV6Head && ip.drop 12 == x
  else false

/-- Method `Tuple.Equal` of `dispatch.go`. -/
def Tuple.Equal (t o : Tuple) : Bool :=
  if t.Protocol != o.Protocol ||
      !ipEqual t.ClientAddr o.ClientAddr ||
      !ipEqual t.ServerAddr o.ServerAddr ||
      t.ClientPort != o.ClientPort ||
      t.ServerPort != o.ServerPort then
    false
  else
    true

/-- Function `dupIP`: a fresh copy of the address bytes. -/
def dupIP (ip : List Nat) : List Nat := ip

/-- NfqueueResult of `dispatch.go`. -/
structure NfqueueResult where
  Owner : String
  PacketMark : Nat
  SessionRelease : Bool
  deriving DecidableEq, Repr

/-- The fields of `SessionEntry` other than the subscription map `Subs`; this is the view of
the session a handler receives through `TrafficMessage.Session`. The zero-valued
`SessionCertificate` field, which no code of the package touches, is left out. -/
structure SessionInfo where
  SessionID : Nat
  CreationTime : Int
  LastActivityTime : Int
  ClientSideTuple : Tuple
  ServerSideTuple : Tuple
  ConntrackConfirmed : Bool
  EventCount : Nat
  deriving DecidableEq, Repr

/-- The IPv4 layer of a decoded packet, as far as the dispatcher reads it. -/
structure IPv4Layer where
  Protocol : Nat
  SrcIP : List Nat
  DstIP : List Nat
  deriving DecidableEq, Repr

/-- A TCP or UDP layer of a decoded packet, as far as the dispatcher reads it. -/
structure TransportLayer where
  SrcPort : Nat
  DstPort : Nat
  deriving DecidableEq, Repr

/-- A `gopacket.Packet` seen through the four queries the dispatcher makes:
`Layer(LayerTypeIPv4)`, `Layer(LayerTypeTCP)`, `Layer(LayerTypeUDP)` and `ApplicationLayer()`
(here already reduced to its payload); `none` is Go's `nil`. -/
structure Packet where
  ipv4 : Option IPv4Layer
  tcp : Option TransportLayer
  udp : Option TransportLayer
  app : Option (List Nat)
  deriving DecidableEq, Repr

/-- TrafficMessage of `dispatch.go`. -/
structure TrafficMessage where
  Session : SessionInfo
  Tuple : Tuple
  Packet : Packet
  Length : Int
  IPlayer : Option IPv4Layer
  TCPlayer : Option TransportLayer
  UDPlayer : Option TransportLayer
  Payload : List Nat
  deriving DecidableEq, Repr

/-- SubscriptionHolder of `dispatch.go`. A conntrack or netlogger handler returns nothing, so
only the nfqueue handler is kept as a function; calls of the other two kinds are recorded by
owner name. -/
structure SubscriptionHolder where
  Owner : String
  Priority : Int
  NfqueueFunc : TrafficMessage → Nat → Bool → NfqueueResult

/-- A `map[string]SubscriptionHolder`; the order of the list is the order in which `range`
happens to visit the map. -/
abbrev SubMap := List (String × SubscriptionHolder)

/-- Go `m[key] = val` on a subscription map. -/
def SubMap.put (m : SubMap) (key : String) (val : SubscriptionHolder) : SubMap :=
  (key, val) :: m.filter (fun e => e.1 != key)

/-- Go `delete(m, key)` on a subscription map. -/
def SubMap.delete (m : SubMap) (key : String) : SubMap :=
  m.filter (fun e => e.1 != key)

/-- SessionEntry of `dispatch.go`. -/
structure SessionEntry extends SessionInfo where
  Subs : SubMap

/-- ConntrackEntry of `dispatch.go`. The pointer `Session` is `none` for `nil` and otherwise
holds the id of the session it points to (the code only tests it against `nil`). The three
rate fields hold the `uint64` quotient that the source converts to `float32`. -/
structure ConntrackEntry where
  ConntrackID : Nat
  Session : Option Nat
  SessionID : Nat
  CreationTime : Int
  LastActivityTime : Int
  ClientSideTuple : Tuple
  ServerSideTuple : Tuple
  EventCount : Nat
  C2Sbytes : Nat
  S2Cbytes : Nat
  TotalBytes : Nat
  C2Srate : Nat
  S2Crate : Nat
  TotalRate : Nat
  PurgeFlag : Bool
  deriving DecidableEq, Repr

/-- The package-level variables of `dispatch.go`. -/
structure State where
  nfqueueList : SubMap
  conntrackList : SubMap
  netloggerList : SubMap
  sessionTable : Nat → Option SessionEntry
  conntrackTable : Nat → Option ConntrackEntry
  sessionIndex : Nat

/-! ## Table operations -/

/-- Function `InsertNfqueueSubscription`. -/
def InsertNfqueueSubscription (st : State) (owner : String) (priority : Int)
    (function : TrafficMessage → Nat → Bool → NfqueueResult) : State :=
  let holder : SubscriptionHolder := ⟨owner, priority, function⟩
  { st with nfqueueList := st.nfqueueList.put owner holder }

/-- Function `AttachNfqueueSubscriptions`: the session gets a copy of the registry. -/
def AttachNfqueueSubscriptions (st : State) (session : SessionEntry) : SessionEntry :=
  { session with Subs := st.nfqueueList.foldl (fun subs e => subs.put e.1 e.2) [] }

/-- Function `nextSessionID`: the value handed out and the state with the counter advanced. -/
def nextSessionID (st : State) : Nat × State :=
  let value := st.sessionIndex
  let sessionIndex := (st.sessionIndex + 1) % u64
  let sessionIndex := if sessionIndex = 0 then (sessionIndex + 1) % u64 else sessionIndex
  (value, { st with sessionIndex := sessionIndex })

/-- Function `findSessionEntry`. -/
def findSessionEntry (st : State) (finder : Nat) : Option SessionEntry :=
  st.sessionTable finder

/-- Function `insertSessionEntry` of `dispatch.go`. -/
def insertSessionEntry (st : State) (finder : Nat) (entry : SessionEntry) : State :=
  { st with sessionTable := fun k => if k = finder then some entry else st.sessionTable k }

/-- Function `removeSessionEntry` of `dispatch.go`. -/
def removeSessionEntry (st : State) (finder : Nat) : State :=
  { st with sessionTable := fun k => if k = finder then none else st.sessionTable k }

/-- Function `findConntrackEntry`. -/
def findConntrackEntry (st : State) (finder : Nat) : Option ConntrackEntry :=
  st.conntrackTable finder

/-- Function `insertConntrackEntry`. -/
def insertConntrackEntry (st : State) (finder : Nat) (entry : ConntrackEntry) : State :=
  { st with conntrackTable := fun k => if k = finder then some entry else st.conntrackTable k }

/-- Function `removeConntrackEntry`. -/
def removeConntrackEntry (st : State) (finder : Nat) : State :=
  { st with conntrackTable := fun k => if k = finder then none else st.conntrackTable k }

/-! ## The nfqueue dispatcher -/

/-- Go `p++` on an `int`: 64-bit two's complement, wrapping. -/
def intInc (p : Int) : Int :=
  if p + 1 = 2 ^ 63 then -(2 ^ 63) else p + 1

/-- The variables of the wave loop of `nfqueueCallback`, together with the log `calls` of the
results received from the handlers so far (in the order of their invocation). -/
structure WaveState where
  Subs : SubMap
  pmark : Nat
  subcount : Nat
  priority : Int
  calls : List NfqueueResult

/-- The subscriptions a wave invokes: those of `Subs` at the current priority. -/
def waveHits (w : WaveState) : SubMap :=
  w.Subs.filter (fun e => e.2.Priority == w.priority)

/-- Applying one received result: `pmark |= result.PacketMark`, and on `SessionRelease`
`delete(session.Subs, result.Owner)`. -/
def applyResult (acc : SubMap × Nat) (result : NfqueueResult) : SubMap × Nat :=
  (if result.SessionRelease then acc.1.delete result.Owner else acc.1,
   acc.2 ||| result.PacketMark)

/-- One pass of the body of the wave loop of `nfqueueCallback`: every subscription at the
current priority is called, then `hitcount` results are read from the channel and applied,
then the priority is incremented. -/
def nfqueueWave (mess : TrafficMessage) (ctid : Nat) (newSession : Bool)
    (w : WaveState) : WaveState :=
  let hits := waveHits w
  let results := hits.map (fun e => e.2.NfqueueFunc mess ctid newSession)
  let acc := results.foldl applyResult (w.Subs, w.pmark)
  { Subs := acc.1
    pmark := acc.2
    subcount := w.subcount + hits.length
    priority := intInc w.priority
    calls := w.calls ++ results }

/-- The loop `for subcount != subtotal` of `nfqueueCallback`, with fuel. -/
def nfqueueWaves (mess : TrafficMessage) (ctid : Nat) (newSession : Bool) (subtotal : Nat) :
    Nat → WaveState → Option WaveState
  | 0, w => if w.subcount = subtotal then some w else none
  | fuel + 1, w =>
    if w.subcount = subtotal then some w
    else nfqueueWaves mess ctid newSession subtotal fuel (nfqueueWave mess ctid newSession w)

/-- The tuple `nfqueueCallback` builds from the IPv4 layer and the TCP and UDP layers. -/
def nfqueueTuple (ip : IPv4Layer) (packet : Packet) : Tuple :=
  let t : Tuple := ⟨ip.Protocol, dupIP ip.SrcIP, 0, dupIP ip.DstIP, 0⟩
  let t := match packet.tcp with
    | some tcp => { t with ClientPort := tcp.SrcPort, ServerPort := tcp.DstPort }
    | none => t
  match packet.udp with
  | some udp => { t with ClientPort := udp.SrcPort, ServerPort := udp.DstPort }
  | none => t

/-- The lookup at the head of `nfqueueCallback` (`if session, ok = findSessionEntry(ctid); ok`):
the state after it and the session the variable `session` points to (`none` for `nil`). -/
def nfqueueFind (now : Int) (st : State) (ctid : Nat) (tuple : Tuple) :
    Outcome (State × Option SessionEntry) :=
  match findSessionEntry st ctid with
  | some session =>
    let session : SessionEntry :=
      { session with LastActivityTime := now, EventCount := (session.EventCount + 1) % u64 }
    let st := insertSessionEntry st ctid session
    if !session.ClientSideTuple.Equal tuple then
      if session.ConntrackConfirmed then
        .panic "CONNTRACK ID RE-USE DETECTED"
      else
        .ok (removeSessionEntry st ctid, none)
    else
      .ok (st, some session)
  | none => .ok (st, none)

/-- The block `if session == nil` of `nfqueueCallback`: a new session is made and inserted. -/
def nfqueueCreate (now : Int) (st : State) (ctid : Nat) (tuple : Tuple) :
    State × SessionEntry :=
  let r := nextSessionID st
  let session : SessionEntry :=
    { SessionID := r.1
      CreationTime := now
      LastActivityTime := now
      ClientSideTuple := tuple
      ServerSideTuple := Tuple.zero
      ConntrackConfirmed := false
      EventCount := 1
      Subs := [] }
  let session := AttachNfqueueSubscriptions r.2 session
  (insertSessionEntry r.2 ctid session, session)

/-- The session resolution of `nfqueueCallback` (from the lookup to `insertSessionEntry`):
the state after it, the session the handlers will see, and the flag `newSession`. -/
def nfqueueResolve (now : Int) (st : State) (ctid : Nat) (tuple : Tuple) :
    Outcome (State × SessionEntry × Bool) :=
  match nfqueueFind now st ctid tuple with
  | .panic msg => .panic msg
  | .outOfFuel => .outOfFuel
  | .ok (st1, some session) => .ok (st1, session, false)
  | .ok (st1, none) =>
    .ok ((nfqueueCreate now st1 ctid tuple).1, (nfqueueCreate now st1 ctid tuple).2, true)

/-- What `nfqueueCallback` leaves behind: the mark it returns, the package state, and the log
of the handler results of this event. -/
structure NfqueueReturn where
  mark : Nat
  state : State
  calls : List NfqueueResult

/-- The message `nfqueueCallback` hands to every handler of the event. -/
def nfqueueMessage (session : SessionEntry) (tuple : Tuple) (packet : Packet)
    (packetLength : Int) : TrafficMessage :=
  { Session := session.toSessionInfo
    Tuple := tuple
    Packet := packet
    Length := packetLength
    IPlayer := packet.ipv4
    TCPlayer := packet.tcp
    UDPlayer := packet.udp
    Payload := packet.app.getD [] }

/-- Function `nfqueueCallback` of `dispatch.go`. The subscription map of the session is
written back into the table entry at the end, as the loop mutates it through the pointer. -/
def nfqueueCallback (fuel : Nat) (now : Int) (st : State) (ctid : Nat) (packet : Packet)
    (packetLength : Int) (pmark : Nat) : Outcome NfqueueReturn :=
  match packet.ipv4 with
  | none => .ok ⟨pmark, st, []⟩
  | some ip =>
    let tuple := nfqueueTuple ip packet
    match nfqueueResolve now st ctid tuple with
    | .panic msg => .panic msg
    | .outOfFuel => .outOfFuel
    | .ok (st1, session, newSession) =>
      let mess := nfqueueMessage session tuple packet packetLength
      match nfqueueWaves mess ctid newSession session.Subs.length fuel
          ⟨session.Subs, pmark, 0, 0, []⟩ with
      | none => .outOfFuel
      | some w =>
        .ok ⟨w.pmark, insertSessionEntry st1 ctid { session with Subs := w.Subs }, w.calls⟩

/-! ## The conntrack dispatcher -/

/-- The arguments of `conntrackCallback`. -/
structure ConntrackEvent where
  ctid : Nat
  eventType : Nat
  protocol : Nat
  client : List Nat
  server : List Nat
  clientPort : Nat
  serverPort : Nat
  clientNew : List Nat
  serverNew : List Nat
  clientPortNew : Nat
  serverPortNew : Nat
  c2sBytes : Nat
  s2cBytes : Nat
  deriving DecidableEq, Repr

/-- Event type NEW, the byte `'N'`. -/
def eventNew : Nat := 'N'.toNat

/-- Event type UPDATE, the byte `'U'`. -/
def eventUpdate : Nat := 'U'.toNat

/-- Event type DESTROY, the byte `'D'`. -/
def eventDestroy : Nat := 'D'.toNat

/-- The client-side tuple `conntrackCallback` records for an event. -/
def ConntrackEvent.clientSide (ev : ConntrackEvent) : Tuple :=
  ⟨ev.protocol, dupIP ev.client, ev.clientPort, dupIP ev.server, ev.serverPort⟩

/-- The server-side tuple `conntrackCallback` records for an event. -/
def ConntrackEvent.serverSide (ev : ConntrackEvent) : Tuple :=
  ⟨ev.protocol, dupIP ev.clientNew, ev.clientPortNew, dupIP ev.serverNew, ev.serverPortNew⟩

/-- The entry `conntrackCallback` makes for an event whose id is not in the table, before it
is matched against the session table: `new(ConntrackEntry)` with the fields the code sets.
`LastActivityTime` stands at 0 for the zero `time.Time`; the callback overwrites it with
`time.Now()` before anything reads it. -/
def conntrackNew (now : Int) (sessionID : Nat) (ev : ConntrackEvent) : ConntrackEntry :=
  { ConntrackID := ev.ctid
    Session := none
    SessionID := sessionID
    CreationTime := now
    LastActivityTime := 0
    ClientSideTuple := ev.clientSide
    ServerSideTuple := ev.serverSide
    EventCount := 1
    C2Sbytes := 0
    S2Cbytes := 0
    TotalBytes := 0
    C2Srate := 0
    S2Crate := 0
    TotalRate := 0
    PurgeFlag := false }

/-- The head of `conntrackCallback` (up to `insertConntrackEntry`): the entry for the event is
found, or made, matched against the session table and inserted. -/
def conntrackFind (now : Int) (st : State) (ev : ConntrackEvent) :
    Outcome (State × ConntrackEntry) :=
  match findConntrackEntry st ev.ctid with
  | some conntrackEntry =>
    let conntrackEntry : ConntrackEntry :=
      { conntrackEntry with EventCount := (conntrackEntry.EventCount + 1) % u64 }
    .ok (insertConntrackEntry st ev.ctid conntrackEntry, conntrackEntry)
  | none =>
    let r := nextSessionID st
    let st := r.2
    let conntrackEntry := conntrackNew now r.1 ev
    match findSessionEntry st ev.ctid with
    | some session =>
      if session.ClientSideTuple.Equal conntrackEntry.ClientSideTuple then
        let session : SessionEntry :=
          { session with ServerSideTuple := ev.serverSide, ConntrackConfirmed := true }
        let st := insertSessionEntry st ev.ctid session
        let conntrackEntry := { conntrackEntry with Session := some session.SessionID }
        .ok (insertConntrackEntry st ev.ctid conntrackEntry, conntrackEntry)
      else if session.ConntrackConfirmed then
        .panic "CONNTRACK ID RE-USE DETECTED"
      else
        .ok (insertConntrackEntry (removeSessionEntry st ev.ctid) ev.ctid conntrackEntry,
          conntrackEntry)
    | none => .ok (insertConntrackEntry st ev.ctid conntrackEntry, conntrackEntry)

/-- The DELETE step of `conntrackCallback` (`if eventType == 'D'` and its `else`). The entry
is mutated through the pointer, so the table entry changes with it while it is in the table. -/
def conntrackDestroy (st : State) (ev : ConntrackEvent) (conntrackEntry : ConntrackEntry) :
    State × ConntrackEntry :=
  if ev.eventType = eventDestroy then
    let conntrackEntry := { conntrackEntry with PurgeFlag := true }
    let st := insertConntrackEntry st ev.ctid conntrackEntry
    let st := if conntrackEntry.Session.isSome then removeSessionEntry st ev.ctid else st
    (removeConntrackEntry st ev.ctid, conntrackEntry)
  else
    let conntrackEntry := { conntrackEntry with PurgeFlag := false }
    (insertConntrackEntry st ev.ctid conntrackEntry, conntrackEntry)

/-- The UPDATE step of `conntrackCallback` on the entry: `none` when the step ends in the
`return` of its inner branch, otherwise the entry after the step. All the variables are
`uint64`, so the differences are taken modulo `2 ^ 64`. -/
def conntrackBytes (ev : ConntrackEvent) (conntrackEntry : ConntrackEntry) :
    Option ConntrackEntry :=
  let oldC2sBytes := conntrackEntry.C2Sbytes
  let oldS2cBytes := conntrackEntry.S2Cbytes
  let oldTotalBytes := conntrackEntry.TotalBytes
  let newC2sBytes := ev.c2sBytes
  let newS2cBytes := ev.s2cBytes
  let newTotalBytes := (newC2sBytes + newS2cBytes) % u64
  let diffC2sBytes := (newC2sBytes + u64 - oldC2sBytes) % u64
  let diffS2cBytes := (newS2cBytes + u64 - oldS2cBytes) % u64
  let diffTotalBytes := (newTotalBytes + u64 - oldTotalBytes) % u64
  if diffC2sBytes < 0 ∨ diffS2cBytes < 0 then
    none
  else
    some { conntrackEntry with
      C2Sbytes := newC2sBytes
      S2Cbytes := newS2cBytes
      TotalBytes := newTotalBytes
      C2Srate := diffC2sBytes / 60
      S2Crate := diffS2cBytes / 60
      TotalRate := diffTotalBytes / 60 }

/-- The loop `for subcount != subtotal` of `conntrackCallback`, with fuel: the owners of the
handlers called, in order. -/
def conntrackWaves (sublist : SubMap) (subtotal : Nat) :
    Nat → Nat → Int → List String → Option (List String)
  | 0, subcount, _, calls => if subcount = subtotal then some calls else none
  | fuel + 1, subcount, priority, calls =>
    if subcount = subtotal then some calls
    else
      let hits := sublist.filter (fun e => e.2.Priority == priority)
      conntrackWaves sublist subtotal fuel (subcount + hits.length) (intInc priority)
        (calls ++ hits.map (fun e => e.1))

/-- What `conntrackCallback` leaves behind: the package state, the entry the handlers were
given, and the owners of the conntrack handlers called. -/
structure ConntrackReturn where
  state : State
  entry : ConntrackEntry
  calls : List String

/-- Function `conntrackCallback` of `dispatch.go`. -/
def conntrackCallback (fuel : Nat) (now : Int) (st : State) (ev : ConntrackEvent) :
    Outcome ConntrackReturn :=
  match conntrackFind now st ev with
  | .panic msg => .panic msg
  | .outOfFuel => .outOfFuel
  | .ok (st1, entry1) =>
    let entry2 := { entry1 with LastActivityTime := now }
    let st2 := insertConntrackEntry st1 ev.ctid entry2
    let r := conntrackDestroy st2 ev entry2
    let fanOut (st3 : State) (entry3 : ConntrackEntry) : Outcome ConntrackReturn :=
      match conntrackWaves st3.conntrackList st3.conntrackList.length fuel 0 0 [] with
      | none => .outOfFuel
      | some calls => .ok ⟨st3, entry3, calls⟩
    if ev.eventType = eventUpdate then
      match conntrackBytes ev r.2 with
      | none => .ok ⟨r.1, r.2, []⟩
      | some entry3 => fanOut (insertConntrackEntry r.1 ev.ctid entry3) entry3
    else
      fanOut r.1 r.2

end Dispatch

namespace Sni

/-! ## `plugins/sni/sni.go` -/

/-- The constant `maxPacketCount` of `sni.go`. -/
def maxPacketCount : Nat := 5

/-- Go `buffer[i]` on a byte slice: a run-time panic when `i` is not below `len(buffer)`. -/
def readByte (buffer : List Nat) (i : Nat) : Outcome Nat :=
  match buffer[i]? with
  | some b => .ok b
  | none => .panic "index out of range"

/-- Go `buffer[low:high]` on a byte slice whose capacity is its length (as for the payload
slices the kernel glue cuts with a three-index slice expression): a run-time panic unless
`low <= high <= len(buffer)`. -/
def slice (buffer : List Nat) (low high : Nat) : Outcome (List Nat) :=
  if low ≤ high ∧ high ≤ buffer.length then
    .ok ((buffer.drop low).take (high - low))
  else
    .panic "slice bounds out of range"

/-- Go `(int(buffer[i]) << 8) + int(buffer[i+1])`. -/
def readPair (buffer : List Nat) (i : Nat) : Outcome Nat := do
  let hi ← readByte buffer i
  let lo ← readByte buffer (i + 1)
  pure ((hi <<< 8) + lo)

/-- The loop `for current < len(buffer)` of `extractSNIhostname`, run with fuel: the pair
`(true, hostname)` the function returns after the loop. -/
def extensionLoop (buffer : List Nat) : Nat → Nat → Outcome (Bool × List Nat)
  | 0, current =>
    if current < buffer.length then .outOfFuel else .ok (true, [])
  | fuel + 1, current =>
    if current < buffer.length then do
      let extensionType ← readPair buffer current
      let current := current + 2
      let extensionDataLength ← readPair buffer current
      let current := current + 2
      if extensionType != 0 then
        extensionLoop buffer fuel (current + extensionDataLength)
      else do
        let spot := current + 2
        let nameType ← readByte buffer spot
        let spot := spot + 1
        if nameType == 0 then do
          let nameLen ← readPair buffer spot
          let spot := spot + 2
          let hostname ← slice buffer spot (spot + nameLen)
          pure (true, hostname)
        else
          extensionLoop buffer fuel (current + extensionDataLength)
    else
      .ok (true, [])

/-- The part of `extractSNIhostname` after the header checks, from `current = 43` on. The
loop is given `len(buffer)` rounds of fuel. -/
def extractBody (buffer : List Nat) : Outcome (Bool × List Nat) := do
  let hostname : List Nat := []
  let maxlen := buffer.length
  let current := 43
  let sessionIDLength ← readByte buffer current
  let current := current + 1
  let current := current + sessionIDLength
  if current ≥ maxlen then pure (true, hostname) else do
  let cipherSuiteLength ← readPair buffer current
  let current := current + 2
  let current := current + cipherSuiteLength
  if current ≥ maxlen then pure (true, hostname) else do
  let compressionMethodLength ← readByte buffer current
  let current := current + 1
  let current := current + compressionMethodLength
  if current ≥ maxlen then pure (true, hostname) else do
  let extensionsLength ← readPair buffer current
  let current := current + 2
  if extensionsLength == 0 then pure (true, hostname) else
  extensionLoop buffer buffer.length current

/-- The header checks of `extractSNIhostname`, each guarding an early `return false`. -/
def headerChecks (buffer : List Nat) : Outcome Bool := do
  if buffer.length < 48 then pure false else do
  let b0 ← readByte buffer 0
  if b0 != 0x16 then pure false else do
  let b1 ← readByte buffer 1
  if b1 != 0x03 then pure false else do
  let b2 ← readByte buffer 2
  if b2 < 0x01 then pure false else do
  let b5 ← readByte buffer 5
  if b5 != 0x01 then pure false else
  pure true

/-- Function `extractSNIhostname` of `sni.go`: the release flag and the hostname bytes. -/
def extractSNIhostname (buffer : List Nat) : Outcome (Bool × List Nat) := do
  let passed ← headerChecks buffer
  if passed then extractBody buffer else pure (false, [])

/-- Modelled from the spec: the type `dispatch.Session` is not among the sources; the plugin
reads it through `GetSessionID` and `GetPacketCount`. -/
structure Session where
  SessionID : Nat
  PacketCount : Nat
  deriving DecidableEq, Repr

/-- Modelled from the spec: the type `dispatch.NfqueueMessage` is not among the sources; these
are the fields `PluginNfqueueHandler` reads. `TCPLayer` is `none` for `nil`. -/
structure NfqueueMessage where
  Session : Session
  MsgTuple : Dispatch.Tuple
  TCPLayer : Option Dispatch.TransportLayer
  Payload : List Nat
  deriving DecidableEq, Repr

/-- A call `dict.AddSessionEntry(ctid, key, value)` with a hostname value. -/
structure DictEntry where
  ctid : Nat
  key : String
  value : List Nat
  deriving DecidableEq, Repr

/-- The event `logEvent` of `sni.go` reports: the arguments of `reports.CreateEvent`, with the
session id as the column `session_id` and the hostname as the modified column `ssl_sni`. -/
structure SniEvent where
  name : String
  table : String
  sqlOp : Nat
  sessionID : Nat
  sslSni : List Nat
  deriving DecidableEq, Repr

/-- What `PluginNfqueueHandler` leaves behind: its result, the dictionary entries it wrote
and the events it reported. -/
structure HandlerReturn where
  result : Dispatch.NfqueueResult
  dict : List DictEntry
  events : List SniEvent
  deriving DecidableEq, Repr

/-- Function `PluginNfqueueHandler` of `sni.go`. -/
def PluginNfqueueHandler (mess : NfqueueMessage) (ctid : Nat) (_newSession : Bool) :
    Outcome HandlerReturn :=
  let result : Dispatch.NfqueueResult := ⟨"", 0, false⟩
  if mess.TCPLayer.isNone then
    .ok ⟨{ result with SessionRelease := true }, [], []⟩
  else if mess.MsgTuple.ServerPort != 443 && mess.MsgTuple.ClientPort != 443 then
    .ok ⟨{ result with SessionRelease := true }, [], []⟩
  else do
    let r ← extractSNIhostname mess.Payload
    let release := r.1
    let hostname := r.2
    if hostname != [] then
      pure ⟨{ result with SessionRelease := true }, [⟨ctid, "ssl_sni", hostname⟩],
        [⟨"session_sni", "sessions", 2, mess.Session.SessionID, hostname⟩]⟩
    else
      let release := if mess.Session.PacketCount ≥ maxPacketCount then true else release
      pure ⟨{ result with SessionRelease := release }, [], []⟩

end Sni

namespace Classify

/-! ## `plugins/classify/classify.go` -/

/-- The struct `applicationInfo` of `classify.go`. -/
structure applicationInfo where
  guid : String
  index : Int
  name : String
  description : String
  category : String
  productivity : Int
  risk : Int
  flags : Nat
  reference : String
  plugin : String
  deriving DecidableEq, Repr

/-- The package variable `applicationTable`, a `map[string]applicationInfo`. -/
abbrev AppTable := String → Option applicationInfo

/-- The constant `navlStateTerminated`. -/
def navlStateTerminated : Int := 0

/-- The constant `navlStateInspecting`. -/
def navlStateInspecting : Int := 1

/-- The constant `navlStateMonitoring`. -/
def navlStateMonitoring : Int := 2

/-- The constant `navlStateClassified`. -/
def navlStateClassified : Int := 3

/-- The constant `maxPacketCount` of `classify.go`. -/
def maxPacketCount : Nat := 64

/-- The constant `maxTrafficSize` of `classify.go`. -/
def maxTrafficSize : Nat := 0x10000

/-- A value stored in an `interface` slot of the attachment map: a Go `string`, a Go `uint64`,
or a value of some other dynamic type. -/
inductive Value where
  | str (s : String)
  | uint (n : Nat)
  | other (tag : Nat)
  deriving DecidableEq, Repr

/-- The attachment map of a session, a `map[string]interface`; `none` is the `nil` a lookup
gives for a name that is not attached. -/
abbrev Attachments := String → Option Value

/-- Go `attachments[name] = value`. -/
def Attachments.put (a : Attachments) (name : String) (value : Value) : Attachments :=
  fun k => if k = name then some value else a k

/-! ### The Go library functions `parseReply` calls -/

/-- Worker of `strings.Split` and `strings.SplitAfter` for a non-empty separator: `skip`
counts the characters of a separator just matched that are still to be passed over, `cur`
holds the current piece, reversed. -/
def splitGo (sep : List Char) (after : Bool) : List Char → Nat → List Char → List (List Char)
  | [], _, cur => [cur.reverse]
  | _ :: cs, skip + 1, cur => splitGo sep after cs skip cur
  | c :: cs, 0, cur =>
    if sep.isPrefixOf (c :: cs) then
      (if after then cur.reverse ++ sep else cur.reverse) ::
        splitGo sep after cs (sep.length - 1) []
    else
      splitGo sep after cs 0 (c :: cur)

/-- Go `strings.Split(s, sep)` for a non-empty separator. -/
def stringsSplit (s sep : String) : List String :=
  (splitGo sep.data false s.data 0 []).map String.mk

/-- Go `strings.SplitAfter(s, sep)` for a non-empty separator. -/
def stringsSplitAfter (s sep : String) : List String :=
  (splitGo sep.data true s.data 0 []).map String.mk

/-- Go `strings.Count(s, "/")`. -/
def countSlash (s : String) : Nat :=
  s.data.count '/'

/-- Go `len(s)` on a string: its length in bytes. -/
def goLen (s : String) : Nat :=
  s.utf8ByteSize

/-- The value of a string of decimal digits, `none` when a character is not a digit. -/
def decimalValue : List Char → Nat → Option Nat
  | [], acc => some acc
  | c :: cs, acc =>
    if '0' ≤ c ∧ c ≤ '9' then decimalValue cs (acc * 10 + (c.toNat - '0'.toNat)) else none

/-- Go `strconv.ParseUint(s, 10, 64)`: `none` stands for a returned error (empty input, a
character that is not a digit, or a value that does not fit 64 bits). -/
def parseUint (s : String) : Option Nat :=
  match s.data with
  | [] => none
  | cs =>
    match decimalValue cs 0 with
    | some n => if n < u64 then some n else none
    | none => none

/-- Go `strconv.Atoi(s)`: an optional sign and decimal digits within the range of `int`;
`none` stands for a returned error. -/
def atoi (s : String) : Option Int :=
  let digits (cs : List Char) : Option Nat :=
    match cs with
    | [] => none
    | cs => decimalValue cs 0
  match s.data with
  | '-' :: cs =>
    match digits cs with
    | some n => if n ≤ 2 ^ 63 then some (-(n : Int)) else none
    | none => none
  | '+' :: cs =>
    match digits cs with
    | some n => if n < 2 ^ 63 then some (n : Int) else none
    | none => none
  | cs =>
    match digits cs with
    | some n => if n < 2 ^ 63 then some (n : Int) else none
    | none => none

/-! ### Parsing and applying a reply -/

/-- The values `parseReply` returns. -/
structure Reply where
  appid : String
  name : String
  protochain : String
  detail : String
  confidence : Nat
  category : String
  state : Int
  deriving DecidableEq, Repr

/-- The body of the loop of `parseReply` for one line of the reply. -/
def parseLine (r : Reply) (line : String) : Reply :=
  if goLen line < 3 then r
  else
    match stringsSplitAfter line ": " with
    | [key, value] =>
      if key = "APPLICATION: " then { r with appid := value }
      else if key = "PROTOCHAIN: " then { r with protochain := value }
      else if key = "DETAIL: " then { r with detail := value }
      else if key = "CONFIDENCE: " then { r with confidence := (parseUint value).getD 0 }
      else if key = "STATE: " then { r with state := (atoi value).getD 0 }
      else r
    | _ => r

/-- Function `parseReply` of `classify.go`. -/
def parseReply (applicationTable : AppTable) (replyString : String) : Reply :=
  let rawinfo := stringsSplit replyString "\r\n"
  let r := rawinfo.foldl parseLine ⟨"", "", "", "", 0, "", 0⟩
  match applicationTable r.appid with
  | some appinfo => { r with name := appinfo.name, category := appinfo.category }
  | none => r

/-- A call `dict.AddSessionEntry(ctid, key, value)` of the classifier. -/
structure DictEntry where
  ctid : Nat
  key : String
  value : Value
  deriving DecidableEq, Repr

/-- What `updateClassifyDetail` leaves behind: the attachment map, the dictionary entries
written, and the boolean it returns. -/
structure Update where
  attachments : Attachments
  dict : List DictEntry
  changed : Bool

/-- The type switch at the head of `updateClassifyDetail`: true when `pairdata` is a string
and `len(v) > 0` fails, the case in which the function returns false at once. -/
def emptyDetail (pairdata : Value) : Bool :=
  match pairdata with
  | .str v => !(goLen v > 0)
  | _ => false

/-- Function `updateClassifyDetail` of `classify.go`. -/
def updateClassifyDetail (attachments : Attachments) (ctid : Nat) (pairname : String)
    (pairdata : Value) : Update :=
  if emptyDetail pairdata then ⟨attachments, [], false⟩
  else
    match attachments pairname with
    | none => ⟨attachments.put pairname pairdata, [⟨ctid, pairname, pairdata⟩], true⟩
    | some checkdata =>
      if checkdata = pairdata then ⟨attachments, [], false⟩
      else ⟨attachments.put pairname pairdata, [⟨ctid, pairname, pairdata⟩], true⟩

/-- The event `logEvent` of `classify.go` reports: the arguments of `reports.CreateEvent`,
with the session id as the column `session_id` and, for each changed name, the attachment
now stored as a modified column. -/
structure ClassifyEvent where
  name : String
  table : String
  sqlOp : Nat
  sessionID : Nat
  modifiedColumns : List (String × Option Value)
  deriving DecidableEq, Repr

/-- Function `logEvent` of `classify.go`: the events it reports. -/
def logEvent (sessionID : Nat) (attachments : Attachments) (changed : List String) :
    List ClassifyEvent :=
  if changed.length = 0 then []
  else
    [⟨"session_classify", "sessions", 2, sessionID, changed.map (fun v => (v, attachments v))⟩]

/-- What `processReply` leaves behind: the two values it returns, the attachment map of the
session, the dictionary entries written and the events reported. -/
structure Processed where
  state : Int
  confidence : Nat
  attachments : Attachments
  dict : List DictEntry
  events : List ClassifyEvent

/-- One of the six steps `if updateClassifyDetail(...) then changed = append(changed, name)`
of `processReply`, on the attachment map, the entries written and the list `changed`. -/
def updateStep (ctid : Nat) (acc : Attachments × List DictEntry × List String)
    (pair : String × Value) : Attachments × List DictEntry × List String :=
  let u := updateClassifyDetail acc.1 ctid pair.1 pair.2
  (u.attachments, acc.2.1 ++ u.dict, if u.changed then acc.2.2 ++ [pair.1] else acc.2.2)

/-- The six name and value pairs `processReply` passes to `updateClassifyDetail`, in order. -/
def replyPairs (r : Reply) : List (String × Value) :=
  [("application_id", .str r.appid),
   ("application_name", .str r.name),
   ("application_protochain", .str r.protochain),
   ("application_detail", .str r.detail),
   ("application_confidence", .uint r.confidence),
   ("application_category", .str r.category)]

/-- The part of `processReply` after the two checks: the six updates and the event. -/
def applyReply (r : Reply) (attachments : Attachments) (sessionID ctid : Nat) : Processed :=
  let acc := (replyPairs r).foldl (updateStep ctid) (attachments, [], [])
  let changed := acc.2.2
  let events := if changed.length > 0 then logEvent sessionID acc.1 changed else []
  ⟨r.state, r.confidence, acc.1, acc.2.1, events⟩

/-- Function `processReply` of `classify.go`, on the attachment map and the id of the session
of the message. A type assertion on an attachment of another dynamic type panics. -/
def processReply (applicationTable : AppTable) (reply : String) (attachments : Attachments)
    (sessionID ctid : Nat) : Outcome Processed :=
  let r := parseReply applicationTable reply
  let unchanged : Processed := ⟨r.state, r.confidence, attachments, [], []⟩
  let checkChain : Outcome Processed :=
    match attachments "application_protochain" with
    | some (.str current) =>
      if countSlash r.protochain < countSlash current then .ok unchanged
      else .ok (applyReply r attachments sessionID ctid)
    | some _ => .panic "interface conversion: interface is not string"
    | none => .ok (applyReply r attachments sessionID ctid)
  match attachments "application_confidence" with
  | some (.uint checkval) =>
    if r.confidence < checkval then .ok unchanged else checkChain
  | some _ => .panic "interface conversion: interface is not uint64"
  | none => checkChain

end Classify

namespace Dispatch

/-! ## The expiry sweep of `dispatch.go` -/

/-- Function `cleanSessionTable` of `dispatch.go`. A round of the `range` loop acts on its own
key only, so the sweep is taken key by key: an entry stays when
`nowtime.Unix() - val.LastActivityTime.Unix() < 600` and is removed otherwise. -/
def cleanSessionTable (now : Int) (st : State) : State :=
  { st with sessionTable := fun key =>
      match st.sessionTable key with
      | some val => if now - val.LastActivityTime < 600 then some val else none
      | none => none }

end Dispatch

namespace Kernel

/-! ## `services/kernel/kernel.go` -/

/-- Function `go_netfilter_callback` of `kernel.go`, from the decoding of the packet to the
test `(tcpLayer == nil) && (udpLayer == nil)`. What follows the test works on the session
table and the subscriptions of package `support`, which is not among the sources: it is the
parameter `rest`, run on the decoded tuple, the mark and the state `σ` of that package. -/
def go_netfilter_callback {σ : Type} (rest : Dispatch.Tuple → Nat → σ → Nat × σ)
    (packet : Dispatch.Packet) (pmark : Nat) (st : σ) : Nat × σ :=
  match packet.ipv4 with
  | none => (pmark, st)
  | some ip =>
    let t : Dispatch.Tuple := ⟨ip.Protocol, ip.SrcIP, 0, ip.DstIP, 0⟩
    let t := match packet.tcp with
      | some tcp => { t with ClientPort := tcp.SrcPort, ServerPort := tcp.DstPort }
      | none => t
    let t := match packet.udp with
      | some udp => { t with ClientPort := udp.SrcPort, ServerPort := udp.DstPort }
      | none => t
    if packet.tcp.isNone && packet.udp.isNone then (pmark, st)
    else rest t pmark st

end Kernel

namespace SessionTable

/-! ## `services/dispatch/session.go` -/

/-- SessionEntry of `session.go`; the two mutexes are left out. -/
structure SessionEntry where
  SessionID : Nat
  ConntrackID : Nat
  PacketCount : Nat
  ByteCount : Nat
  CreationTime : Int
  LastActivityTime : Int
  ClientSideTuple : Dispatch.Tuple
  ServerSideTuple : Dispatch.Tuple
  ConntrackConfirmed : Bool
  EventCount : Nat
  subscriptions : Dispatch.SubMap
  attachments : Classify.Attachments

/-- Modelled from the spec: package `dict` is not among the sources. The dictionary is a
per-session key and value store, an entry for each conntrack id and key. -/
abbrev Dict := Nat → String → Option Classify.Value

/-- Modelled from the spec: `dict.AddSessionEntry(ctid, key, value)`, which stores the value
under the conntrack id and key. -/
def AddSessionEntry (d : Dict) (ctid : Nat) (key : String) (value : Classify.Value) : Dict :=
  fun c k => if c = ctid ∧ k = key then some value else d c k

/-- Modelled from the spec: `dict.DeleteSession(ctid)`, which clears every entry of the
conntrack id. -/
def DeleteSession (d : Dict) (ctid : Nat) : Dict :=
  fun c k => if c = ctid then none else d c k

/-- The package variables of `session.go`, with the dictionary its functions write to. The
table is a `map[string]*SessionEntry`; it is an association list here because the sweep
ranges over it and acts on the dictionary entry by entry. -/
structure Store where
  sessionTable : List (String × SessionEntry)
  dict : Dict
  sessionIndex : Nat

/-- Go `sessionTable[finder]`. -/
def lookup (table : List (String × SessionEntry)) (finder : String) : Option SessionEntry :=
  match table with
  | [] => none
  | e :: es => if e.1 = finder then some e.2 else lookup es finder

/-- Function `nextSessionID` of `session.go`. -/
def nextSessionID (st : Store) : Nat × Store :=
  let value := st.sessionIndex
  let sessionIndex := (st.sessionIndex + 1) % u64
  let sessionIndex := if sessionIndex = 0 then (sessionIndex + 1) % u64 else sessionIndex
  (value, { st with sessionIndex := sessionIndex })

/-- Function `findSessionEntry` of `session.go`. -/
def findSessionEntry (st : Store) (finder : String) : Option SessionEntry :=
  lookup st.sessionTable finder

/-- Function `insertSessionEntry` of `session.go`. -/
def insertSessionEntry (st : Store) (finder : String) (entry : SessionEntry) : Store :=
  let table :=
    if (lookup st.sessionTable finder).isSome then
      st.sessionTable.filter (fun e => e.1 != finder)
    else st.sessionTable
  { st with
    sessionTable := (finder, entry) :: table.filter (fun e => e.1 != finder)
    dict := AddSessionEntry st.dict entry.ConntrackID "session_id" (.uint entry.SessionID) }

/-- Function `removeSessionEntry` of `session.go`. -/
def removeSessionEntry (st : Store) (finder : String) : Store :=
  let dict :=
    match lookup st.sessionTable finder with
    | some entry => DeleteSession st.dict entry.ConntrackID
    | none => st.dict
  { st with
    sessionTable := st.sessionTable.filter (fun e => e.1 != finder)
    dict := dict }

/-- Function `cleanSessionTable` of `session.go`: the `range` loop visits the entries of the
table and removes, by key, those for which
`nowtime.Unix() - val.LastActivityTime.Unix() < 600` fails. -/
def cleanSessionTable (now : Int) (st : Store) : Store :=
  st.sessionTable.foldl
    (fun acc e => if now - e.2.LastActivityTime < 600 then acc else removeSessionEntry acc e.1)
    st

end SessionTable

namespace Classify

/-! ### The nfqueue handler of the classifier -/

/-- Modelled from the spec: the type `dispatch.Session` is not among the sources; the handler
reads it through `GetSessionID`, `GetConntrackID`, `GetPacketCount`, `GetByteCount` and
`GetClientSideTuple`, and `processReply` works on its attachments. -/
structure Session where
  SessionID : Nat
  ConntrackID : Nat
  PacketCount : Nat
  ByteCount : Nat
  ClientSideTuple : Dispatch.Tuple
  attachments : Attachments

/-- Modelled from the spec: the type `dispatch.NfqueueMessage` is not among the sources; these
are the fields the classifier reads. `none` is `nil`, and `PacketData` is
`mess.Packet.Data()`. -/
structure NfqueueMessage where
  Session : Option Session
  IP4Layer : Option Dispatch.IPv4Layer
  IP6Layer : Option Unit
  PacketData : List Nat

/-- Function `classifyTraffic` of `classify.go`. The function `daemonClassifyPacket`, which
sends the command and the packet to the daemon and reads its reply, is not among the
sources: it is a parameter. -/
def classifyTraffic (daemonClassifyPacket : String → List Nat → String)
    (session : Session) (mess : NfqueueMessage) : String :=
  if mess.IP4Layer.isSome then
    daemonClassifyPacket
      ("PACKET|" ++ toString session.SessionID ++ "|" ++ "IP4" ++ "|" ++
        toString mess.PacketData.length ++ "\r\n") mess.PacketData
  else if mess.IP6Layer.isSome then
    daemonClassifyPacket
      ("PACKET|" ++ toString session.SessionID ++ "|" ++ "IP6" ++ "|" ++
        toString mess.PacketData.length ++ "\r\n") mess.PacketData
  else
    ""

/-- What `PluginNfqueueHandler` of the classifier leaves behind: its result, the attachments
of the session (`none` when the message has no session), the dictionary entries written and
the events reported. -/
structure HandlerReturn where
  result : Dispatch.NfqueueResult
  attachments : Option Attachments
  dict : List DictEntry
  events : List ClassifyEvent

/-- Function `PluginNfqueueHandler` of `classify.go`. -/
def PluginNfqueueHandler (applicationTable : AppTable)
    (daemonClassifyPacket : String → List Nat → String)
    (mess : NfqueueMessage) (ctid : Nat) (_newSession : Bool) : Outcome HandlerReturn :=
  match mess.Session with
  | none => .ok ⟨⟨"", 0, true⟩, none, [], []⟩
  | some session =>
    if session.SessionID = 0 then
      .ok ⟨⟨"", 0, true⟩, some session.attachments, [], []⟩
    else if mess.IP4Layer.isNone && mess.IP6Layer.isNone then
      .ok ⟨⟨"", 0, true⟩, some session.attachments, [], []⟩
    else
      let reply := classifyTraffic daemonClassifyPacket session mess
      if goLen reply = 0 then
        .ok ⟨⟨"", 0, true⟩, some session.attachments, [], []⟩
      else
        match processReply applicationTable reply session.attachments session.SessionID
            ctid with
        | .panic msg => .panic msg
        | .outOfFuel => .outOfFuel
        | .ok p =>
          if p.state = navlStateClassified ∨ p.state = navlStateTerminated ∨
              session.PacketCount > maxPacketCount ∨ session.ByteCount > maxTrafficSize then
            .ok ⟨⟨"", 0, true⟩, some p.attachments, p.dict, p.events⟩
          else
            .ok ⟨⟨"", 0, false⟩, some p.attachments, p.dict, p.events⟩

end Classify

namespace Dispatch

/-! ## Startup, the conntrack sweep and the netlogger dispatcher of `dispatch.go` -/

/-- Function `Startup` of `dispatch.go` at the time `now` (`time.Now().Unix()`, an `int64`):
the tables and the registries are made empty and the session counter is set to
`(uint64(now) & 0xFFFFFFFF) << 16`. The registration of the callbacks with the kernel glue
and the start of the cleaner task are left out. -/
def Startup (now : Int) : State :=
  { nfqueueList := []
    conntrackList := []
    netloggerList := []
    sessionTable := fun _ => none
    conntrackTable := fun _ => none
    sessionIndex := (((now % 2 ^ 64).toNat % 2 ^ 32) * 2 ^ 16) % u64 }

/-- Function `cleanConntrackTable` of `dispatch.go`. A round of the `range` loop acts on its
own key only, so the sweep is taken key by key: an entry stays when its `PurgeFlag` is false
or when `nowtime.Unix() - val.LastActivityTime.Unix() < 600`, and is removed otherwise. -/
def cleanConntrackTable (now : Int) (st : State) : State :=
  { st with conntrackTable := fun key =>
      match st.conntrackTable key with
      | some val =>
        if val.PurgeFlag = false then some val
        else if now - val.LastActivityTime < 600 then some val
        else none
      | none => none }

/-- NetloggerMessage of `dispatch.go`. -/
structure NetloggerMessage where
  Version : Nat
  Protocol : Nat
  IcmpType : Nat
  SrcIntf : Nat
  DstIntf : Nat
  SrcAddr : String
  DstAddr : String
  SrcPort : Nat
  DstPort : Nat
  Mark : Nat
  Prefix : String
  deriving DecidableEq, Repr

/-- The loop `for subcount != subtotal` of `netloggerCallback`, with fuel: the owners of the
handlers called, in order. -/
def netloggerWaves (sublist : SubMap) (subtotal : Nat) :
    Nat → Nat → Int → List String → Option (List String)
  | 0, subcount, _, calls => if subcount = subtotal then some calls else none
  | fuel + 1, subcount, priority, calls =>
    if subcount = subtotal then some calls
    else
      let hits := sublist.filter (fun e => e.2.Priority == priority)
      netloggerWaves sublist subtotal fuel (subcount + hits.length) (intInc priority)
        (calls ++ hits.map (fun e => e.1))

/-- What `netloggerCallback` leaves behind: the message the handlers were given and the
owners of the netlogger handlers called. -/
structure NetloggerReturn where
  message : NetloggerMessage
  calls : List String
  deriving DecidableEq, Repr

/-- Function `netloggerCallback` of `dispatch.go`; the last argument is the source's
`prefix`. -/
def netloggerCallback (fuel : Nat) (st : State) (version protocol icmpType srcIntf dstIntf : Nat)
    (srcAddr dstAddr : String) (srcPort dstPort mark : Nat) (logPrefix : String) :
    Outcome NetloggerReturn :=
  let netlogger : NetloggerMessage :=
    ⟨version, protocol, icmpType, srcIntf, dstIntf, srcAddr, dstAddr, srcPort, dstPort, mark,
      logPrefix⟩
  let sublist := st.netloggerList
  match netloggerWaves sublist sublist.length fuel 0 0 [] with
  | none => .outOfFuel
  | some calls => .ok ⟨netlogger, calls⟩

end Dispatch

/-! # Specification vocabulary and example inputs -/

namespace Dispatch

/-- An empty package state with the session counter at `idx`. -/
def emptyState (idx : Nat) : State :=
  ⟨[], [], [], fun _ => none, fun _ => none, idx⟩

/-- The initial mark combined by bitwise OR with the `PacketMark` of every logged result. -/
def orMarks (pmark : Nat) (calls : List NfqueueResult) : Nat :=
  calls.foldl (fun m r => m ||| r.PacketMark) pmark

/-- Example handler: marks bit 0 and keeps its subscription. -/
def markOne : TrafficMessage → Nat → Bool → NfqueueResult :=
  fun _ _ _ => ⟨"one", 1, false⟩

/-- Example handler: marks bit 2 and releases the session. -/
def markFour : TrafficMessage → Nat → Bool → NfqueueResult :=
  fun _ _ _ => ⟨"four", 4, true⟩

/-- Example state: two nfqueue subscriptions, at priorities 0 and 1, and empty tables. -/
def twoHandlers : State :=
  InsertNfqueueSubscription (InsertNfqueueSubscription (emptyState 65536) "one" 0 markOne)
    "four" 1 markFour

/-- Example packet: IPv4 TCP from 10.0.0.1:5000 to 1.2.3.4:443 without payload. -/
def tcpPacket : Packet :=
  { ipv4 := some ⟨6, [10, 0, 0, 1], [1, 2, 3, 4]⟩
    tcp := some ⟨5000, 443⟩
    udp := none
    app := none }

end Dispatch

namespace Dispatch

/-- Example session under a conntrack id: a UDP flow from 10.0.0.9:53 to 8.8.8.8:53. -/
def staleSession (confirmed : Bool) : SessionEntry :=
  { SessionID := 65530
    CreationTime := 0
    LastActivityTime := 0
    ClientSideTuple := ⟨17, [10, 0, 0, 9], 53, [8, 8, 8, 8], 53⟩
    ServerSideTuple := Tuple.zero
    ConntrackConfirmed := confirmed
    EventCount := 1
    Subs := [] }

/-- Example state: `twoHandlers` with `staleSession` stored under conntrack id 7. -/
def staleState (confirmed : Bool) : State :=
  insertSessionEntry twoHandlers 7 (staleSession confirmed)

/-- Example event: conntrack NEW for id 100, TCP 10.0.0.1:5000 to 1.2.3.4:443, the server
side rewritten to 192.168.1.4:8443. -/
def newEvent : ConntrackEvent :=
  { ctid := 100
    eventType := eventNew
    protocol := 6
    client := [10, 0, 0, 1]
    server := [1, 2, 3, 4]
    clientPort := 5000
    serverPort := 443
    clientNew := [10, 0, 0, 1]
    serverNew := [192, 168, 1, 4]
    clientPortNew := 5000
    serverPortNew := 8443
    c2sBytes := 0
    s2cBytes := 0 }

/-- Example session: the one `nfqueueCallback` makes for `tcpPacket` on `twoHandlers`. -/
def freshSession : SessionEntry :=
  (nfqueueCreate 0 twoHandlers 100 newEvent.clientSide).2

/-- Example state: `twoHandlers` after `nfqueueCallback` made `freshSession` for id 100. -/
def freshState : State :=
  (nfqueueCreate 0 twoHandlers 100 newEvent.clientSide).1

/-- Example conntrack entry for id 300 with stored counters 2000 / 100 and rates 33 / 1 / 35. -/
def storedEntry : ConntrackEntry :=
  { ConntrackID := 300
    Session := none
    SessionID := 65530
    CreationTime := 0
    LastActivityTime := 60
    ClientSideTuple := ⟨17, [10, 0, 0, 9], 53, [8, 8, 8, 8], 53⟩
    ServerSideTuple := ⟨17, [10, 0, 0, 9], 53, [8, 8, 8, 8], 53⟩
    EventCount := 2
    C2Sbytes := 2000
    S2Cbytes := 100
    TotalBytes := 2100
    C2Srate := 33
    S2Crate := 1
    TotalRate := 35
    PurgeFlag := false }

/-- Example state: empty but for `storedEntry` under conntrack id 300. -/
def storedState : State :=
  insertConntrackEntry (emptyState 65536) 300 storedEntry

/-- Example event: conntrack UPDATE for id 300 reporting 1000 / 500 bytes. -/
def updateEvent : ConntrackEvent :=
  { ctid := 300
    eventType := eventUpdate
    protocol := 17
    client := [10, 0, 0, 9]
    server := [8, 8, 8, 8]
    clientPort := 53
    serverPort := 53
    clientNew := [10, 0, 0, 9]
    serverNew := [8, 8, 8, 8]
    clientPortNew := 53
    serverPortNew := 53
    c2sBytes := 1000
    s2cBytes := 500 }

end Dispatch

namespace Sni

/-- The header condition of the ClientHello check: at least 48 bytes, byte 0 is `0x16`, byte 1
is `0x03`, byte 2 is at least `0x01` and byte 5 is `0x01`. -/
def validHeader (buffer : List Nat) : Prop :=
  48 ≤ buffer.length ∧ buffer[0]? = some 0x16 ∧ buffer[1]? = some 0x03 ∧
    (∃ b, buffer[2]? = some b ∧ 0x01 ≤ b) ∧ buffer[5]? = some 0x01

/-- Example payload of 48 bytes: a ClientHello header whose session-id length field is 3, so
that the cipher-suites length field would lie at offsets 47 and 48. -/
def truncatedHello : List Nat :=
  [0x16, 3, 1, 0, 0, 1] ++ List.replicate 37 0 ++ [3, 0, 0, 0, 0]

/-- Example payload: a ClientHello whose server-name entry announces a name of 200 bytes
while only 3 bytes follow. -/
def overlongName : List Nat :=
  [0x16, 3, 1, 0, 0, 1] ++ List.replicate 37 0 ++
    [0, 0, 2, 0xc0, 0x2f, 1, 0, 0, 12, 0, 0, 0, 8, 0, 6, 0, 0, 200, 97, 98, 99]

/-- Example payload: a ClientHello with one extension of type 10 and a server-name extension
for the host name `abc`. -/
def helloAbc : List Nat :=
  [0x16, 3, 1, 0, 0, 1] ++ List.replicate 37 0 ++
    [0, 0, 2, 0xc0, 0x2f, 1, 0, 0, 20, 0, 10, 0, 1, 7, 0, 0, 0, 8, 0, 6, 0, 0, 3, 97, 98, 99]

end Sni

namespace Sni

/-- The two bytes of a 16-bit length or type field, most significant first. -/
def be16 (n : Nat) : List Nat := [n / 256, n % 256]

/-- A TLS extension: its type and its data. -/
structure Extension where
  typ : Nat
  data : List Nat
  deriving DecidableEq, Repr

/-- The bytes of an extension: type, data length, data. -/
def Extension.encode (e : Extension) : List Nat :=
  be16 e.typ ++ (be16 e.data.length ++ e.data)

/-- The bytes of a sequence of extensions. -/
def encodeAll : List Extension → List Nat
  | [] => []
  | e :: es => e.encode ++ encodeAll es

/-- The bytes of a server-name extension (type 0) whose first entry has name-type 0 and the
host name `h`; `dataLen` and `listLen` are the values of its data-length and list-length
fields. -/
def serverName (dataLen listLen : Nat) (h : List Nat) : List Nat :=
  be16 0 ++ (be16 dataLen ++ (be16 listLen ++ (0 :: (be16 h.length ++ h))))

/-- The bytes of a ClientHello record: a 43-byte header, the session id, the cipher suites
and the compression methods, each behind its length, the extensions length `extLen`, the
extensions `exts`, a server-name extension for `h`, and whatever follows. -/
def clientHello (header sid cs cm : List Nat) (extLen : Nat) (exts : List Extension)
    (dataLen listLen : Nat) (h rest : List Nat) : List Nat :=
  header ++ (sid.length :: (sid ++ (be16 cs.length ++ (cs ++ (cm.length :: (cm ++
    (be16 extLen ++ (encodeAll exts ++ (serverName dataLen listLen h ++ rest)))))))))

end Sni

namespace Classify

/-- A sequence of `processReply` calls on one session, each on the attachments the call
before it left: the attachments after the last call. -/
def processReplies (applicationTable : AppTable) (sessionID ctid : Nat) :
    List String → Attachments → Outcome Attachments
  | [], attachments => .ok attachments
  | reply :: replies, attachments =>
    match processReply applicationTable reply attachments sessionID ctid with
    | .ok p => processReplies applicationTable sessionID ctid replies p.attachments
    | .panic msg => .panic msg
    | .outOfFuel => .outOfFuel

/-- The attachment `application_protochain` is absent or a string. -/
def chainTyped (attachments : Attachments) : Prop :=
  attachments "application_protochain" = none ∨
    ∃ s, attachments "application_protochain" = some (.str s)

/-- Example application table: no application is known. -/
def noApplications : AppTable := fun _ => none

/-- Example attachments: nothing attached. -/
def noAttachments : Attachments := fun _ => none

/-- Example attachments: only `application_confidence`, at 80. -/
def confidence80 : Attachments :=
  noAttachments.put "application_confidence" (.uint 80)

end Classify

namespace Dispatch

/-- Every subscription of the map has a priority from 0 up to, and not including, `bound`. -/
def priorityBelow (subs : SubMap) (bound : Nat) : Prop :=
  ∀ e ∈ subs, 0 ≤ e.2.Priority ∧ e.2.Priority < (bound : Int)

/-- Every handler of the map, when it sets `SessionRelease` on this message, names the key of
its own subscription as `Owner`. -/
def releasesOnlySelf (mess : TrafficMessage) (ctid : Nat) (newSession : Bool)
    (subs : SubMap) : Prop :=
  ∀ e ∈ subs, (e.2.NfqueueFunc mess ctid newSession).SessionRelease = true →
    (e.2.NfqueueFunc mess ctid newSession).Owner = e.1

/-- No handler of the map, when it sets `SessionRelease` on this message, names as `Owner` the
key of a subscription of a priority above its own. -/
def releasesNoLater (mess : TrafficMessage) (ctid : Nat) (newSession : Bool)
    (subs : SubMap) : Prop :=
  ∀ e ∈ subs, (e.2.NfqueueFunc mess ctid newSession).SessionRelease = true →
    ∀ e' ∈ subs, e'.1 = (e.2.NfqueueFunc mess ctid newSession).Owner →
      e'.2.Priority ≤ e.2.Priority

/-- The loop invariant of the wave loop before the wave of priority `k`, for a session that
entered the loop with the subscription map `subs0`: nothing of priority `k` or more has been
removed, and `subcount` counts the subscriptions of lower priority. -/
def waveInv (subs0 : SubMap) (k : Nat) (w : WaveState) : Prop :=
  w.priority = (k : Int) ∧ w.Subs.Sublist subs0 ∧
  w.Subs.filter (fun e => decide ((k : Int) ≤ e.2.Priority)) =
    subs0.filter (fun e => decide ((k : Int) ≤ e.2.Priority)) ∧
  w.subcount = (subs0.filter (fun e => decide (e.2.Priority < (k : Int)))).length

end Dispatch

namespace Dispatch

/-- Example session for the sweep, last active at second `last`. -/
def idleSession (last : Int) : SessionEntry :=
  { SessionID := 65530
    CreationTime := 0
    LastActivityTime := last
    ClientSideTuple := ⟨17, [10, 0, 0, 9], 53, [8, 8, 8, 8], 53⟩
    ServerSideTuple := Tuple.zero
    ConntrackConfirmed := false
    EventCount := 1
    Subs := [] }

/-- Example state for the sweep: a session under id 1 last active at second 399 and one under
id 2 last active at second 990. -/
def sweepState : State :=
  insertSessionEntry (insertSessionEntry (emptyState 65536) 1 (idleSession 399)) 2
    (idleSession 990)

end Dispatch

namespace SessionTable

/-- Example session of `session.go` for conntrack id `ctid`, last active at second `last`. -/
def idleSession (ctid : Nat) (last : Int) : SessionEntry :=
  { SessionID := 65530 + ctid
    ConntrackID := ctid
    PacketCount := 1
    ByteCount := 60
    CreationTime := 0
    LastActivityTime := last
    ClientSideTuple := ⟨17, [10, 0, 0, 9], 53, [8, 8, 8, 8], 53⟩
    ServerSideTuple := Dispatch.Tuple.zero
    ConntrackConfirmed := false
    EventCount := 1
    subscriptions := []
    attachments := fun _ => none }

/-- Example store: nothing in the table, nothing in the dictionary. -/
def emptyStore : Store :=
  ⟨[], fun _ _ => none, 65536⟩

/-- Example store for the sweep: a session under `1` last active at second 399 and one under
`2` last active at second 990. -/
def sweepStore : Store :=
  insertSessionEntry (insertSessionEntry emptyStore "1" (idleSession 1 399)) "2"
    (idleSession 2 990)

end SessionTable

namespace SessionTable

/-- Example store: a session under `7` last active at second 10, and the dictionary entry
`ssl_sni` written for conntrack id 7. -/
def occupiedStore : Store :=
  let st := insertSessionEntry emptyStore "7" (idleSession 7 10)
  { st with dict := AddSessionEntry st.dict 7 "ssl_sni" (.str "example.com") }

end SessionTable

namespace Dispatch

/-- Example packet: an IPv4 ICMP packet from 10.0.0.1 to 1.2.3.4, with neither a TCP nor a
UDP layer. -/
def icmpPacket : Packet :=
  { ipv4 := some ⟨1, [10, 0, 0, 1], [1, 2, 3, 4]⟩
    tcp := none
    udp := none
    app := none }

end Dispatch

namespace Classify

/-- The attachment `application_confidence` is absent or a `uint64`. -/
def confidenceTyped (attachments : Attachments) : Prop :=
  attachments "application_confidence" = none ∨
    ∃ c, attachments "application_confidence" = some (.uint c)

/-- Example session of the classifier: id 65536, one packet of 60 bytes so far, nothing
attached. -/
def firstPacket : Session :=
  { SessionID := 65536
    ConntrackID := 100
    PacketCount := 1
    ByteCount := 60
    ClientSideTuple := ⟨6, [10, 0, 0, 1], 5000, [1, 2, 3, 4], 443⟩
    attachments := fun _ => none }

/-- Example message of the classifier: an IPv4 packet of `firstPacket`. -/
def firstMessage : NfqueueMessage :=
  { Session := some firstPacket
    IP4Layer := some ⟨6, [10, 0, 0, 1], [1, 2, 3, 4]⟩
    IP6Layer := none
    PacketData := [0x45, 0, 0, 60] }

end Classify

namespace Classify

/-- Example application table: one application, `/FOO`, named `Foo` in category `Web`. -/
def fooApplications : AppTable :=
  fun guid =>
    if guid = "/FOO" then some ⟨"/FOO", 1, "Foo", "The Foo protocol", "Web", 3, 2, 0, "", "classd"⟩
    else none

/-- The classifier reply of the end-to-end scenario. -/
def fooReply : String :=
  "APPLICATION: /FOO\r\nPROTOCHAIN: /IP/TCP/FOO\r\nCONFIDENCE: 80\r\nSTATE: 3\r\n"

/-- None of the six `application_*` attachments is present. -/
def noApplicationAttachments (a : Attachments) : Prop :=
  a "application_id" = none ∧ a "application_name" = none ∧
  a "application_protochain" = none ∧ a "application_detail" = none ∧
  a "application_confidence" = none ∧ a "application_category" = none

/-- The name and the category `parseReply` takes from the application table for a guid. -/
def tableName (applicationTable : AppTable) (guid : String) : String × String :=
  match applicationTable guid with
  | some appinfo => (appinfo.name, appinfo.category)
  | none => ("", "")

end Classify

namespace Dispatch

/-- Example state: the handler `markFour`, whose results name the owner `four`, registered
under the name `one` at priority 0, and empty tables. -/
def misnamedRelease : State :=
  InsertNfqueueSubscription (emptyState 65536) "one" 0 markFour

end Dispatch

namespace Dispatch

/-- The subscriptions invoked by the first `n` waves of the wave loop started in `w`, in the
order of the waves. -/
def invoked (mess : TrafficMessage) (ctid : Nat) (newSession : Bool) :
    Nat → WaveState → SubMap
  | 0, _ => []
  | n + 1, w => waveHits w ++ invoked mess ctid newSession n (nfqueueWave mess ctid newSession w)

/-- Example handler: marks bit 1 and releases the subscription named `second`. -/
def releaseSecond : TrafficMessage → Nat → Bool → NfqueueResult :=
  fun _ _ _ => ⟨"second", 2, true⟩

/-- Example state: `releaseSecond` registered as `first` at priority 0, `markOne` registered
as `second` at priority 1, and empty tables. -/
def firstReleasesSecond : State :=
  InsertNfqueueSubscription (InsertNfqueueSubscription (emptyState 65536) "first" 0
    releaseSecond) "second" 1 markOne

end Dispatch

namespace Classify

/-- The text before and the text after the first occurrence of the two characters `a b` in
a text; `none` when they do not occur in it. -/
def cut (a b : Char) : List Char → Option (List Char × List Char)
  | [] => none
  | c :: cs =>
    if [a, b].isPrefixOf (c :: cs) then some ([], cs.tail)
    else (cut a b cs).map (fun p => (c :: p.1, p.2))

/-- A reply made of the given lines, each terminated by CRLF. -/
def replyOf : List String → String
  | [] => ""
  | l :: ls => l ++ "\r\n" ++ replyOf ls

/-- No CRLF occurs inside the line. -/
abbrev noCRLF (line : String) : Prop :=
  cut '\r' '\n' line.data = none

/-- The value of a line with the key `key`, in the words of the claim: the line starts with
the key and a colon-space, and the value is the text after that colon-space. -/
def claimedValue (key line : String) : Option String :=
  match cut ':' ' ' line.data with
  | some (pre, rest) => if pre = key.data then some ⟨rest⟩ else none
  | none => none

/-- The value of a line of the form `key: value` in which colon-space occurs once: the line
is the key, a colon-space, and a value in which no colon-space occurs. -/
def lineValue (key line : String) : Option String :=
  match cut ':' ' ' line.data with
  | some (pre, rest) =>
    if pre = key.data ∧ cut ':' ' ' rest = none then some ⟨rest⟩ else none
  | none => none

/-- The value of the last of the lines that `value` gives a value, if there is one. -/
def lastValue (value : String → Option String) (lines : List String) : Option String :=
  (lines.filterMap value).getLast?

/-- The line is none of the five recognised lines `KEY: value`. -/
abbrev unrecognised (line : String) : Prop :=
  lineValue "APPLICATION" line = none ∧ lineValue "PROTOCHAIN" line = none ∧
  lineValue "DETAIL" line = none ∧ lineValue "CONFIDENCE" line = none ∧
  lineValue "STATE" line = none

end Classify

namespace Dispatch

/-- Example conntrack entry, last active at second `last`, with the given `PurgeFlag`. -/
def purgedEntry (last : Int) (purge : Bool) : ConntrackEntry :=
  { storedEntry with LastActivityTime := last, PurgeFlag := purge }

/-- Example state for the conntrack sweep: under id 1 an entry flagged for purge and last
active at second 399, under id 2 an entry not flagged and last active at second 0, under id 3
an entry flagged for purge and last active at second 990. -/
def purgeState : State :=
  insertConntrackEntry
    (insertConntrackEntry (insertConntrackEntry (emptyState 65536) 1 (purgedEntry 399 true)) 2
      (purgedEntry 0 false)) 3 (purgedEntry 990 true)

end Dispatch

namespace Dispatch

/-- Example event: conntrack DESTROY for id 100, with the addresses of `newEvent`. -/
def destroyEvent : ConntrackEvent :=
  { newEvent with eventType := eventDestroy }

end Dispatch

namespace Dispatch

/-- The sixteen-byte form of an address: a four-byte IPv4 address is written after the twelve
leading bytes `v4InV6Head`, any other byte sequence stands for itself. -/
def ipCanon (ip : List Nat) : List Nat :=
  if ip.length = 4 then v4InV6Head ++ ip else ip

/-- Example tuple: TCP from 10.0.0.1:5000 to 1.2.3.4:443, addresses in four bytes. -/
def shortTuple : Tuple :=
  ⟨6, [10, 0, 0, 1], 5000, [1, 2, 3, 4], 443⟩

/-- Example tuple: `shortTuple` with the client address in its sixteen-byte form. -/
def longTuple : Tuple :=
  ⟨6, [0, 0, 0, 0, 0, 0, 0, 0, 0, 0, 0xff, 0xff, 10, 0, 0, 1], 5000, [1, 2, 3, 4], 443⟩

end Dispatch

namespace Dispatch

/-- The identifiers handed out by `n` successive calls of `nextSessionID` from a state. -/
def sessionIDs : Nat → State → List Nat
  | 0, _ => []
  | n + 1, st => (nextSessionID st).1 :: sessionIDs n (nextSessionID st).2

end Dispatch

namespace Classify

/-- No line of the reply is `STATE: ` followed by a text that `strconv.Atoi` accepts: a
line either has no value for the key `STATE` or has one that is not an integer. -/
abbrev noStateLine (reply : String) : Prop :=
  ∀ line ∈ stringsSplit reply "\r\n", (claimedValue "STATE" line).bind atoi = none

end Classify

namespace Dispatch

/-- A sequence of `conntrackCallback` calls, each at its own time and on the state the call
before it left: the state after the last call. A panic or an exhausted fuel ends the run. -/
def conntrackRun (fuel : Nat) : State → List (Int × ConntrackEvent) → Outcome State
  | st, [] => .ok st
  | st, call :: rest =>
    match conntrackCallback fuel call.1 st call.2 with
    | .ok r => conntrackRun fuel r.state rest
    | .panic msg => .panic msg
    | .outOfFuel => .outOfFuel

/-- Every entry of the conntrack table has `PurgeFlag = false`. -/
def noPurgeFlag (st : State) : Prop :=
  ∀ key e, st.conntrackTable key = some e → e.PurgeFlag = false

/-- Example event: conntrack NEW for id 200, with the addresses of `newEvent`. -/
def secondEvent : ConntrackEvent :=
  { newEvent with ctid := 200 }

end Dispatch

namespace Dispatch

/-- The number of waves a subscription set with non-negative priorities needs: its highest
priority plus one, and 0 for the empty set. -/
def waveCount : SubMap → Nat
  | [] => 0
  | e :: es => max (e.2.Priority.toNat + 1) (waveCount es)

/-- The subscriptions of the priorities `k`, `k + 1`, ..., `k + n - 1`, in order of priority:
what `n` waves counting upward from the priority `k` find in an unchanging set. -/
def byPriority (subs : SubMap) : Nat → Nat → SubMap
  | _, 0 => []
  | k, n + 1 => subs.filter (fun e => e.2.Priority == (k : Int)) ++ byPriority subs (k + 1) n

/-- Example state: conntrack and netlogger subscriptions `a` at priority 2 and `b` at
priority 0, and empty tables. -/
def fanOutState : State :=
  { emptyState 65536 with
    conntrackList := [("a", ⟨"a", 2, markOne⟩), ("b", ⟨"b", 0, markOne⟩)]
    netloggerList := [("a", ⟨"a", 2, markOne⟩), ("b", ⟨"b", 0, markOne⟩)] }

end Dispatch

/-! # Properties -/

namespace Dispatch

/-! ## Session identifiers -/

theorem insertSessionEntry_same (st : State) (ctid : Nat) (e : SessionEntry) :
    (insertSessionEntry st ctid e).sessionTable ctid = some e :=
  if_pos rfl

theorem nextSessionID_fst (st : State) : (nextSessionID st).1 = st.sessionIndex := rfl

theorem nextSessionID_index_of_lt (st : State) (h : st.sessionIndex < 2 ^ 64 - 1) :
    (nextSessionID st).2.sessionIndex = st.sessionIndex + 1 := by
  simp only [nextSessionID, u64]
  have h1 : (st.sessionIndex + 1) % 2 ^ 64 = st.sessionIndex + 1 :=
    Nat.mod_eq_of_lt (by omega)
  rw [h1]
  simp

/-- C4, as stated, fails: with the counter at `2 ^ 64 - 1` the first call returns
`2 ^ 64 - 1` and the second call returns `1`, which is not greater. -/
theorem nextSessionID_wrap_not_increasing :
    (nextSessionID (emptyState (2 ^ 64 - 1))).1 = 2 ^ 64 - 1 ∧
    (nextSessionID (nextSessionID (emptyState (2 ^ 64 - 1))).2).1 = 1 ∧
    ¬ ((nextSessionID (emptyState (2 ^ 64 - 1))).1 <
        (nextSessionID (nextSessionID (emptyState (2 ^ 64 - 1))).2).1) := by
  decide

/-- C4, amended: for every state whose counter is below `2 ^ 64 - 1`, the identifier returned
by the second of two successive calls of `nextSessionID` is the first one plus one, hence
strictly greater. -/
theorem nextSessionID_successive_increasing (st : State)
    (h : st.sessionIndex < 2 ^ 64 - 1) :
    (nextSessionID (nextSessionID st).2).1 = (nextSessionID st).1 + 1 ∧
    (nextSessionID st).1 < (nextSessionID (nextSessionID st).2).1 := by
  rw [nextSessionID_fst, nextSessionID_fst, nextSessionID_index_of_lt st h]
  exact ⟨rfl, Nat.lt_succ_self _⟩

theorem nextSessionID_successive_increasing_witness :
    (emptyState 5).sessionIndex < 2 ^ 64 - 1 ∧
    (nextSessionID (emptyState 5)).1 = 5 ∧
    (nextSessionID (nextSessionID (emptyState 5)).2).1 = 6 ∧
    (nextSessionID (emptyState 5)).1 < (nextSessionID (nextSessionID (emptyState 5)).2).1 :=
  ⟨by decide, rfl, rfl,
    (nextSessionID_successive_increasing (emptyState 5) (by decide)).2⟩

/-! ## The mark returned by `nfqueueCallback` -/

theorem applyResult_foldl_snd (results : List NfqueueResult) (acc : SubMap × Nat) :
    (results.foldl applyResult acc).2 = orMarks acc.2 results := by
  induction results generalizing acc with
  | nil => rfl
  | cons r rs ih => simp only [List.foldl_cons, ih, applyResult, orMarks]

theorem orMarks_append (p : Nat) (xs ys : List NfqueueResult) :
    orMarks p (xs ++ ys) = orMarks (orMarks p xs) ys := by
  simp [orMarks, List.foldl_append]

/-- One wave keeps the mark equal to the OR of the initial mark and the logged results. -/
theorem nfqueueWave_mark (mess : TrafficMessage) (ctid : Nat) (newSession : Bool) (p0 : Nat)
    (w : WaveState) (h : w.pmark = orMarks p0 w.calls) :
    (nfqueueWave mess ctid newSession w).pmark =
      orMarks p0 (nfqueueWave mess ctid newSession w).calls := by
  simp only [nfqueueWave, applyResult_foldl_snd, orMarks_append, h]

theorem nfqueueWaves_mark (mess : TrafficMessage) (ctid : Nat) (newSession : Bool)
    (subtotal p0 : Nat) (fuel : Nat) (w w' : WaveState)
    (h : w.pmark = orMarks p0 w.calls)
    (hrun : nfqueueWaves mess ctid newSession subtotal fuel w = some w') :
    w'.pmark = orMarks p0 w'.calls := by
  induction fuel generalizing w with
  | zero =>
    simp only [nfqueueWaves] at hrun
    split at hrun
    · cases hrun; exact h
    · cases hrun
  | succ n ih =>
    simp only [nfqueueWaves] at hrun
    split at hrun
    · cases hrun; exact h
    · exact ih _ (nfqueueWave_mark mess ctid newSession p0 w h) hrun

theorem nfqueueCallback_no_ipv4 (fuel : Nat) (now : Int) (st : State) (ctid : Nat)
    (packet : Packet) (packetLength : Int) (pmark : Nat) (hip : packet.ipv4 = none) :
    nfqueueCallback fuel now st ctid packet packetLength pmark = .ok ⟨pmark, st, []⟩ := by
  unfold nfqueueCallback
  rw [hip]

/-- A returning `nfqueueCallback` on a packet with an IPv4 layer went through the session
resolution and a terminating run of the wave loop. -/
theorem nfqueueCallback_ok_inv (fuel : Nat) (now : Int) (st : State) (ctid : Nat)
    (packet : Packet) (packetLength : Int) (pmark : Nat) (ip : IPv4Layer) (r : NfqueueReturn)
    (hip : packet.ipv4 = some ip)
    (h : nfqueueCallback fuel now st ctid packet packetLength pmark = .ok r) :
    ∃ st1 session newSession w,
      nfqueueResolve now st ctid (nfqueueTuple ip packet) = .ok (st1, session, newSession) ∧
      nfqueueWaves (nfqueueMessage session (nfqueueTuple ip packet) packet packetLength) ctid
        newSession session.Subs.length fuel ⟨session.Subs, pmark, 0, 0, []⟩ = some w ∧
      r = ⟨w.pmark, insertSessionEntry st1 ctid { session with Subs := w.Subs }, w.calls⟩ := by
  unfold nfqueueCallback at h
  rw [hip] at h
  dsimp only at h
  generalize hres : nfqueueResolve now st ctid (nfqueueTuple ip packet) = res at h
  cases res with
  | panic msg => cases h
  | outOfFuel => cases h
  | ok a =>
    obtain ⟨st1, session, newSession⟩ := a
    dsimp only at h
    generalize hw : nfqueueWaves (nfqueueMessage session (nfqueueTuple ip packet) packet
      packetLength) ctid newSession session.Subs.length fuel ⟨session.Subs, pmark, 0, 0, []⟩
      = ow at h
    cases ow with
    | none => cases h
    | some w =>
      cases h
      exact ⟨st1, session, newSession, w, rfl, hw, rfl⟩

/-- Within a wave the order in which the results are received does not matter: applying two
results in either order gives the same subscription map and the same mark. -/
theorem applyResult_comm (acc : SubMap × Nat) (x y : NfqueueResult) :
    applyResult (applyResult acc x) y = applyResult (applyResult acc y) x := by
  have hf : ∀ (m : SubMap) (a b : String), (m.delete a).delete b = (m.delete b).delete a := by
    intro m a b
    simp only [SubMap.delete, List.filter_filter]
    congr 1
    funext e
    exact Bool.and_comm _ _
  have hm : acc.2 ||| x.PacketMark ||| y.PacketMark = acc.2 ||| y.PacketMark ||| x.PacketMark :=
    by rw [Nat.lor_assoc, Nat.lor_comm x.PacketMark, ← Nat.lor_assoc]
  cases hx : x.SessionRelease <;> cases hy : y.SessionRelease <;>
    simp [applyResult, hx, hy, hm, hf]

/-- The results of a wave, received in any order, leave the same subscription map and mark. -/
theorem applyResult_perm (acc : SubMap × Nat) (xs ys : List NfqueueResult)
    (h : xs.Perm ys) : xs.foldl applyResult acc = ys.foldl applyResult acc :=
  h.foldl_eq' (fun x _ y _ z => applyResult_comm z x y) acc

/-- After any number of waves, finished or not, the mark is the OR of the initial mark and
the results logged so far. -/
theorem nfqueueWave_iterate_mark (mess : TrafficMessage) (ctid : Nat) (newSession : Bool)
    (p0 : Nat) (w : WaveState) (h : w.pmark = orMarks p0 w.calls) (n : Nat) :
    ((nfqueueWave mess ctid newSession)^[n] w).pmark =
      orMarks p0 ((nfqueueWave mess ctid newSession)^[n] w).calls := by
  induction n generalizing w with
  | zero => exact h
  | succ n ih =>
    rw [Function.iterate_succ_apply]
    exact ih _ (nfqueueWave_mark mess ctid newSession p0 w h)

/-! ## Termination of the wave loop -/

theorem delete_filter_of_not (m : SubMap) (key : String)
    (q : String × SubscriptionHolder → Bool) (h : ∀ e ∈ m, e.1 = key → q e = false) :
    (m.delete key).filter q = m.filter q := by
  simp only [SubMap.delete, List.filter_filter]
  apply List.filter_congr
  intro e he
  by_cases hk : e.1 = key
  · simp [h e he hk, hk]
  · simp [hk]

/-- Results whose released owners hold no subscription satisfying `q` leave the
subscriptions satisfying `q` as they were. -/
theorem foldl_applyResult_filter (q : String × SubscriptionHolder → Bool)
    (results : List NfqueueResult) (m : SubMap) (p : Nat)
    (h : ∀ r ∈ results, r.SessionRelease = true → ∀ e ∈ m, e.1 = r.Owner → q e = false) :
    (results.foldl applyResult (m, p)).1.filter q = m.filter q ∧
    (results.foldl applyResult (m, p)).1.Sublist m := by
  induction results generalizing m p with
  | nil => exact ⟨rfl, List.Sublist.refl _⟩
  | cons r rs ih =>
    rw [List.foldl_cons]
    have hsub : (applyResult (m, p) r).1.Sublist m := by
      unfold applyResult
      split_ifs
      · exact List.filter_sublist _
      · exact List.Sublist.refl _
    have hfil : (applyResult (m, p) r).1.filter q = m.filter q := by
      unfold applyResult
      split_ifs with hr
      · exact delete_filter_of_not m r.Owner q (h r (List.mem_cons_self _ _) hr)
      · rfl
    obtain ⟨h1, h2⟩ := ih (applyResult (m, p) r).1 (applyResult (m, p) r).2
      (fun r' hr' hrel e he => h r' (List.mem_cons_of_mem _ hr') hrel e (hsub.subset he))
    exact ⟨h1.trans hfil, h2.trans hsub⟩

theorem filter_priority_split (l : SubMap) (t : Int) :
    (l.filter (fun e => decide (e.2.Priority < t + 1))).length =
      (l.filter (fun e => decide (e.2.Priority < t))).length +
      (l.filter (fun e => e.2.Priority == t)).length := by
  induction l with
  | nil => rfl
  | cons e es ih =>
    have key : ∀ q : String × SubscriptionHolder → Bool,
        ((e :: es).filter q).length = (if q e = true then 1 else 0) + (es.filter q).length := by
      intro q
      rw [List.filter_cons]
      split_ifs
      · rw [List.length_cons]; omega
      · omega
    rw [key, key, key, ih]
    have h1 : (if decide (e.2.Priority < t + 1) = true then 1 else 0) =
        (if decide (e.2.Priority < t) = true then 1 else 0) +
          (if (e.2.Priority == t) = true then 1 else 0) := by
      simp only [decide_eq_true_eq, beq_iff_eq]
      split_ifs <;> omega
    omega

theorem filter_priority_mono (l : SubMap) (t : Int) :
    l.filter (fun e => decide (t + 1 ≤ e.2.Priority)) =
      (l.filter (fun e => decide (t ≤ e.2.Priority))).filter
        (fun e => decide (t + 1 ≤ e.2.Priority)) := by
  rw [List.filter_filter]
  apply List.filter_congr
  intro e _
  by_cases he : t + 1 ≤ e.2.Priority
  · have : t ≤ e.2.Priority := by omega
    simp [he, this]
  · simp [he]

theorem filter_priority_eq (l : SubMap) (t : Int) :
    l.filter (fun e => e.2.Priority == t) =
      (l.filter (fun e => decide (t ≤ e.2.Priority))).filter (fun e => e.2.Priority == t) := by
  rw [List.filter_filter]
  apply List.filter_congr
  intro e _
  by_cases he : e.2.Priority = t
  · simp [he]
  · simp [he]

/-- Handlers that release only themselves, under distinct keys, release nothing of a later
priority. -/
theorem releasesNoLater_of_onlySelf (mess : TrafficMessage) (ctid : Nat) (newSession : Bool)
    (subs : SubMap) (hnd : (subs.map Prod.fst).Nodup)
    (hself : releasesOnlySelf mess ctid newSession subs) :
    releasesNoLater mess ctid newSession subs := by
  intro e he hrel e' he' hkey
  have : e' = e := List.inj_on_of_nodup_map hnd he' he (hkey.trans (hself e he hrel))
  rw [this]

/-- One wave keeps the loop invariant, when no handler releases a subscription of a later
priority. -/
theorem nfqueueWave_inv (mess : TrafficMessage) (ctid : Nat) (newSession : Bool)
    (subs0 : SubMap) (hlater : releasesNoLater mess ctid newSession subs0)
    (k : Nat) (hk : k + 1 < 2 ^ 63) (w : WaveState) (h : waveInv subs0 k w) :
    waveInv subs0 (k + 1) (nfqueueWave mess ctid newSession w) := by
  obtain ⟨hp, hsub, hfil, hcnt⟩ := h
  have hhits : waveHits w = subs0.filter (fun e => e.2.Priority == (k : Int)) := by
    unfold waveHits
    rw [hp, filter_priority_eq w.Subs, hfil, ← filter_priority_eq subs0]
  have hrel : ∀ r ∈ (waveHits w).map (fun e => e.2.NfqueueFunc mess ctid newSession),
      r.SessionRelease = true → ∀ e ∈ w.Subs, e.1 = r.Owner →
        decide ((k : Int) + 1 ≤ e.2.Priority) = false := by
    intro r hr hrelease e he hkey
    obtain ⟨e0, he0, rfl⟩ := List.mem_map.mp hr
    have he0' : e0 ∈ w.Subs ∧ (e0.2.Priority == w.priority) = true := by
      simpa [waveHits] using he0
    have hle := hlater e0 (hsub.subset he0'.1) hrelease e (hsub.subset he) hkey
    have hprio : e0.2.Priority = (k : Int) := by
      have := he0'.2
      rw [hp] at this
      simpa using this
    rw [hprio] at hle
    simp only [decide_eq_false_iff_not, not_le]
    omega
  obtain ⟨f1, f2⟩ := foldl_applyResult_filter
    (fun e => decide ((k : Int) + 1 ≤ e.2.Priority))
    ((waveHits w).map (fun e => e.2.NfqueueFunc mess ctid newSession)) w.Subs w.pmark hrel
  have hinc : intInc w.priority = (k : Int) + 1 := by
    rw [hp]
    unfold intInc
    have : ¬ ((k : Int) + 1 = 2 ^ 63) := by
      have : ((k + 1 : Nat) : Int) < 2 ^ 63 := by exact_mod_cast hk
      push_cast at this
      omega
    rw [if_neg this]
  unfold waveInv
  simp only [Nat.cast_add, Nat.cast_one]
  refine ⟨hinc, f2.trans hsub, ?_, ?_⟩
  · show (List.foldl applyResult (w.Subs, w.pmark) _).1.filter _ = _
    rw [f1, filter_priority_mono w.Subs, hfil, ← filter_priority_mono subs0]
  · show w.subcount + (waveHits w).length = _
    rw [hcnt, hhits, filter_priority_split]

/-- The wave loop comes to its end within `bound` waves when the priorities lie from 0 up to
`bound` and no handler releases a subscription of a later priority. -/
theorem nfqueueWaves_terminates (mess : TrafficMessage) (ctid : Nat) (newSession : Bool)
    (subs0 : SubMap) (bound : Nat)
    (hprio : priorityBelow subs0 bound) (hb : bound < 2 ^ 63)
    (hlater : releasesNoLater mess ctid newSession subs0) :
    ∀ fuel k w, bound ≤ k + fuel → k ≤ bound → waveInv subs0 k w →
      ∃ w', nfqueueWaves mess ctid newSession subs0.length fuel w = some w' := by
  have hall : ∀ w, waveInv subs0 bound w → w.subcount = subs0.length := by
    intro w hw
    rw [hw.2.2.2]
    congr 1
    rw [List.filter_eq_self]
    intro e he
    simpa using (hprio e he).2
  intro fuel
  induction fuel with
  | zero =>
    intro k w hk hkb hw
    have : k = bound := by omega
    subst this
    exact ⟨w, by simp [nfqueueWaves, hall w hw]⟩
  | succ fuel ih =>
    intro k w hk hkb hw
    rw [nfqueueWaves]
    split_ifs with hdone
    · exact ⟨w, rfl⟩
    · have hlt : k < bound := by
        rcases Nat.lt_or_ge k bound with h | h
        · exact h
        · have : k = bound := by omega
          subst this
          exact absurd (hall w hw) hdone
      exact ih (k + 1) _ (by omega) (by omega)
        (nfqueueWave_inv mess ctid newSession subs0 hlater k (by omega) w hw)

theorem waveInv_init (subs0 : SubMap) (pmark : Nat) (hprio0 : ∀ e ∈ subs0, 0 ≤ e.2.Priority) :
    waveInv subs0 0 ⟨subs0, pmark, 0, 0, []⟩ := by
  refine ⟨rfl, List.Sublist.refl _, rfl, ?_⟩
  show 0 = _
  symm
  rw [List.length_eq_zero, List.filter_eq_nil_iff]
  intro e he
  have := hprio0 e he
  simp
  omega

/-- With `bound` rounds of fuel `nfqueueCallback` returns, when the resolution does not
panic, the priorities of the session's subscriptions lie from 0 up to `bound`, and no handler
releases a subscription of a later priority. -/
theorem nfqueueCallback_returns (bound : Nat) (now : Int) (st : State) (ctid : Nat)
    (packet : Packet) (packetLength : Int) (pmark : Nat) (ip : IPv4Layer) (st1 : State)
    (session : SessionEntry) (newSession : Bool)
    (hip : packet.ipv4 = some ip)
    (hres : nfqueueResolve now st ctid (nfqueueTuple ip packet) = .ok (st1, session, newSession))
    (hprio : priorityBelow session.Subs bound) (hb : bound < 2 ^ 63)
    (hlater : releasesNoLater
      (nfqueueMessage session (nfqueueTuple ip packet) packet packetLength) ctid newSession
      session.Subs) :
    ∃ w : WaveState, nfqueueCallback bound now st ctid packet packetLength pmark =
      .ok ⟨w.pmark, insertSessionEntry st1 ctid { session with Subs := w.Subs }, w.calls⟩ := by
  obtain ⟨w, hw⟩ := nfqueueWaves_terminates _ ctid newSession session.Subs bound hprio hb
    hlater bound 0 ⟨session.Subs, pmark, 0, 0, []⟩ (by omega) (by omega)
    (waveInv_init session.Subs pmark fun e he => (hprio e he).1)
  refine ⟨w, ?_⟩
  unfold nfqueueCallback
  rw [hip]
  simp only [hres, hw]

/-- C1: whenever `nfqueueCallback` returns, the mark it returns is the initial mark `pmark`
combined by bitwise OR with the `PacketMark` of every handler result of that event, and
nothing else; the same relation holds in the wave loop after any number of waves; and the
callback does return, within `bound` waves, when the session resolution does not panic, the
priorities of the session's subscriptions lie from 0 up to `bound`, and no handler releases
a subscription of a later priority. -/
theorem nfqueueCallback_mark_is_or (fuel : Nat) (now : Int) (st : State) (ctid : Nat)
    (packet : Packet) (packetLength : Int) (pmark : Nat) :
    (∀ r, nfqueueCallback fuel now st ctid packet packetLength pmark = .ok r →
      r.mark = orMarks pmark r.calls) ∧
    (∀ mess newSession Subs n,
      ((nfqueueWave mess ctid newSession)^[n] ⟨Subs, pmark, 0, 0, []⟩).pmark =
        orMarks pmark ((nfqueueWave mess ctid newSession)^[n] ⟨Subs, pmark, 0, 0, []⟩).calls) ∧
    (∀ ip st1 session newSession bound, packet.ipv4 = some ip →
      nfqueueResolve now st ctid (nfqueueTuple ip packet) = .ok (st1, session, newSession) →
      priorityBelow session.Subs bound → bound < 2 ^ 63 →
      releasesNoLater (nfqueueMessage session (nfqueueTuple ip packet) packet packetLength)
        ctid newSession session.Subs →
      ∃ r, nfqueueCallback bound now st ctid packet packetLength pmark = .ok r ∧
        r.mark = orMarks pmark r.calls) := by
  have key : ∀ fuel r, nfqueueCallback fuel now st ctid packet packetLength pmark = .ok r →
      r.mark = orMarks pmark r.calls := by
    intro fuel r h
    cases hip : packet.ipv4 with
    | none =>
      rw [nfqueueCallback_no_ipv4 fuel now st ctid packet packetLength pmark hip] at h
      cases h
      rfl
    | some ip =>
      obtain ⟨st1, session, newSession, w, -, hw, rfl⟩ :=
        nfqueueCallback_ok_inv fuel now st ctid packet packetLength pmark ip r hip h
      exact nfqueueWaves_mark _ _ _ _ pmark fuel _ w rfl hw
  refine ⟨key fuel, fun mess newSession Subs n =>
    nfqueueWave_iterate_mark mess ctid newSession pmark _ rfl n, ?_⟩
  intro ip st1 session newSession bound hip hres hprio hb hlater
  obtain ⟨w, hw⟩ := nfqueueCallback_returns bound now st ctid packet packetLength pmark ip st1
    session newSession hip hres hprio hb hlater
  exact ⟨_, hw, key bound _ hw⟩

theorem twoHandlers_subs :
    (nfqueueCreate 0 twoHandlers 7
        (nfqueueTuple ⟨6, [10, 0, 0, 1], [1, 2, 3, 4]⟩ tcpPacket)).2.Subs =
      [("one", ⟨"one", 0, markOne⟩), ("four", ⟨"four", 1, markFour⟩)] := rfl

theorem nfqueueCallback_mark_is_or_witness :
    (∃ r, nfqueueCallback 2 0 twoHandlers 7 tcpPacket 60 2 = .ok r ∧
      r.calls = [⟨"one", 1, false⟩, ⟨"four", 4, true⟩] ∧ r.mark = 7 ∧
      r.mark = orMarks 2 r.calls) ∧
    (∃ r, nfqueueCallback 2 0 twoHandlers 7 tcpPacket 60 2 = .ok r ∧
      r.mark = orMarks 2 r.calls) :=
  ⟨⟨_, rfl, rfl, rfl, (nfqueueCallback_mark_is_or 2 0 twoHandlers 7 tcpPacket 60 2).1 _ rfl⟩,
   (nfqueueCallback_mark_is_or 2 0 twoHandlers 7 tcpPacket 60 2).2.2
    ⟨6, [10, 0, 0, 1], [1, 2, 3, 4]⟩ _ _ _ 2 rfl rfl
    (by
      rw [twoHandlers_subs]
      intro e he
      simp only [List.mem_cons, List.mem_singleton, List.not_mem_nil, or_false] at he
      rcases he with rfl | rfl <;> decide)
    (by decide)
    (by
      rw [twoHandlers_subs]
      intro e he hrel e' he' hkey
      simp only [List.mem_cons, List.mem_singleton, List.not_mem_nil, or_false] at he he'
      rcases he with rfl | rfl <;> rcases he' with rfl | rfl <;>
        first | decide | exact absurd hrel (by decide))⟩

/-! ## Conntrack-id re-use in `nfqueueCallback` -/

theorem nfqueueResolve_absent (now : Int) (st : State) (ctid : Nat) (tuple : Tuple)
    (h : st.sessionTable ctid = none) :
    nfqueueResolve now st ctid tuple =
      .ok ((nfqueueCreate now st ctid tuple).1, (nfqueueCreate now st ctid tuple).2, true) := by
  simp [nfqueueResolve, nfqueueFind, findSessionEntry, h]

theorem nfqueueResolve_match (now : Int) (st : State) (ctid : Nat) (tuple : Tuple)
    (s : SessionEntry) (h : st.sessionTable ctid = some s)
    (heq : s.ClientSideTuple.Equal tuple = true) :
    nfqueueResolve now st ctid tuple =
      .ok (insertSessionEntry st ctid
            { s with LastActivityTime := now, EventCount := (s.EventCount + 1) % u64 },
          { s with LastActivityTime := now, EventCount := (s.EventCount + 1) % u64 }, false) := by
  simp [nfqueueResolve, nfqueueFind, findSessionEntry, h, heq]

theorem nfqueueResolve_confirmed_mismatch (now : Int) (st : State) (ctid : Nat) (tuple : Tuple)
    (s : SessionEntry) (h : st.sessionTable ctid = some s)
    (heq : s.ClientSideTuple.Equal tuple = false) (hc : s.ConntrackConfirmed = true) :
    nfqueueResolve now st ctid tuple = .panic "CONNTRACK ID RE-USE DETECTED" := by
  simp [nfqueueResolve, nfqueueFind, findSessionEntry, h, heq, hc]

theorem nfqueueResolve_stale (now : Int) (st : State) (ctid : Nat) (tuple : Tuple)
    (s : SessionEntry) (h : st.sessionTable ctid = some s)
    (heq : s.ClientSideTuple.Equal tuple = false) (hc : s.ConntrackConfirmed = false) :
    nfqueueResolve now st ctid tuple =
      .ok ((nfqueueCreate now (removeSessionEntry (insertSessionEntry st ctid
              { s with LastActivityTime := now, EventCount := (s.EventCount + 1) % u64 }) ctid)
              ctid tuple).1,
           (nfqueueCreate now (removeSessionEntry (insertSessionEntry st ctid
              { s with LastActivityTime := now, EventCount := (s.EventCount + 1) % u64 }) ctid)
              ctid tuple).2, true) := by
  simp [nfqueueResolve, nfqueueFind, findSessionEntry, h, heq, hc]

theorem nfqueueResolve_panic_iff (now : Int) (st : State) (ctid : Nat) (tuple : Tuple) :
    (∃ msg, nfqueueResolve now st ctid tuple = .panic msg) ↔
      ∃ s, st.sessionTable ctid = some s ∧ s.ClientSideTuple.Equal tuple = false ∧
        s.ConntrackConfirmed = true := by
  constructor
  · rintro ⟨msg, hmsg⟩
    cases hs : st.sessionTable ctid with
    | none => rw [nfqueueResolve_absent now st ctid tuple hs] at hmsg; cases hmsg
    | some s =>
      refine ⟨s, rfl, ?_⟩
      cases heq : s.ClientSideTuple.Equal tuple with
      | true => rw [nfqueueResolve_match now st ctid tuple s hs heq] at hmsg; cases hmsg
      | false =>
        cases hc : s.ConntrackConfirmed with
        | true => exact ⟨rfl, rfl⟩
        | false => rw [nfqueueResolve_stale now st ctid tuple s hs heq hc] at hmsg; cases hmsg
  · rintro ⟨s, hs, heq, hc⟩
    exact ⟨_, nfqueueResolve_confirmed_mismatch now st ctid tuple s hs heq hc⟩

/-- The wave loop cannot panic: `nfqueueCallback` panics exactly when the resolution does. -/
theorem nfqueueCallback_panic_iff_resolve (fuel : Nat) (now : Int) (st : State) (ctid : Nat)
    (packet : Packet) (packetLength : Int) (pmark : Nat) (ip : IPv4Layer)
    (hip : packet.ipv4 = some ip) (msg : String) :
    nfqueueCallback fuel now st ctid packet packetLength pmark = .panic msg ↔
      nfqueueResolve now st ctid (nfqueueTuple ip packet) = .panic msg := by
  unfold nfqueueCallback
  rw [hip]
  dsimp only
  generalize nfqueueResolve now st ctid (nfqueueTuple ip packet) = res
  cases res with
  | panic m => simp
  | outOfFuel => simp
  | ok a =>
    obtain ⟨st1, session, newSession⟩ := a
    dsimp only
    generalize nfqueueWaves (nfqueueMessage session (nfqueueTuple ip packet) packet
      packetLength) ctid newSession session.Subs.length fuel ⟨session.Subs, pmark, 0, 0, []⟩
      = ow
    cases ow <;> simp

theorem nfqueueCreate_table (now : Int) (st : State) (ctid : Nat) (tuple : Tuple) :
    (nfqueueCreate now st ctid tuple).1.sessionTable ctid =
      some (nfqueueCreate now st ctid tuple).2 := by
  simp [nfqueueCreate, insertSessionEntry]

theorem nfqueueCreate_fields (now : Int) (st : State) (ctid : Nat) (tuple : Tuple) :
    (nfqueueCreate now st ctid tuple).2.SessionID = st.sessionIndex ∧
    (nfqueueCreate now st ctid tuple).2.EventCount = 1 ∧
    (nfqueueCreate now st ctid tuple).2.ConntrackConfirmed = false ∧
    (nfqueueCreate now st ctid tuple).2.ClientSideTuple = tuple ∧
    (nfqueueCreate now st ctid tuple).2.ServerSideTuple = Tuple.zero :=
  ⟨rfl, rfl, rfl, rfl, rfl⟩

/-- C3: on a packet with an IPv4 layer `nfqueueCallback` panics if and only if the session
table holds a session for `ctid` whose `ClientSideTuple` is not `Equal` to the packet's tuple
and whose `ConntrackConfirmed` is true. When the tuples differ and the session is
unconfirmed there is no panic, the resolution step puts a newly created session under `ctid`
(`SessionID` taken from the counter, `EventCount = 1`, `ConntrackConfirmed = false`), and
that is the session found under `ctid` whenever the callback returns. -/
theorem nfqueueCallback_panic_iff_confirmed_mismatch (fuel : Nat) (now : Int) (st : State)
    (ctid : Nat) (packet : Packet) (packetLength : Int) (pmark : Nat) (ip : IPv4Layer)
    (hip : packet.ipv4 = some ip) :
    ((∃ msg, nfqueueCallback fuel now st ctid packet packetLength pmark = .panic msg) ↔
      ∃ s, st.sessionTable ctid = some s ∧
        s.ClientSideTuple.Equal (nfqueueTuple ip packet) = false ∧
        s.ConntrackConfirmed = true) ∧
    (∀ s, st.sessionTable ctid = some s →
      s.ClientSideTuple.Equal (nfqueueTuple ip packet) = false →
      s.ConntrackConfirmed = false →
      (∀ msg, nfqueueCallback fuel now st ctid packet packetLength pmark ≠ .panic msg) ∧
      (∃ st1 s1, nfqueueResolve now st ctid (nfqueueTuple ip packet) = .ok (st1, s1, true) ∧
        st1.sessionTable ctid = some s1 ∧ s1.SessionID = (nextSessionID st).1 ∧
        s1.EventCount = 1 ∧ s1.ConntrackConfirmed = false ∧
        s1.ClientSideTuple = nfqueueTuple ip packet) ∧
      (∀ r, nfqueueCallback fuel now st ctid packet packetLength pmark = .ok r →
        ∃ s2, r.state.sessionTable ctid = some s2 ∧ s2.SessionID = (nextSessionID st).1 ∧
          s2.EventCount = 1 ∧ s2.ConntrackConfirmed = false ∧
          s2.ClientSideTuple = nfqueueTuple ip packet)) := by
  refine ⟨?_, ?_⟩
  · rw [← nfqueueResolve_panic_iff]
    exact exists_congr fun msg =>
      nfqueueCallback_panic_iff_resolve fuel now st ctid packet packetLength pmark ip hip msg
  · intro s hs heq hc
    have hres := nfqueueResolve_stale now st ctid (nfqueueTuple ip packet) s hs heq hc
    refine ⟨?_, ?_, ?_⟩
    · intro msg hmsg
      rw [nfqueueCallback_panic_iff_resolve fuel now st ctid packet packetLength pmark ip hip,
        hres] at hmsg
      cases hmsg
    · exact ⟨_, _, hres, nfqueueCreate_table _ _ _ _, rfl, rfl, rfl, rfl⟩
    · intro r hr
      obtain ⟨st1, session, newSession, w, hres2, -, rfl⟩ :=
        nfqueueCallback_ok_inv fuel now st ctid packet packetLength pmark ip r hip hr
      rw [hres] at hres2
      cases hres2
      exact ⟨_, insertSessionEntry_same _ _ _, rfl, rfl, rfl, rfl⟩

theorem nfqueueCallback_panic_iff_confirmed_mismatch_witness :
    tcpPacket.ipv4 = some ⟨6, [10, 0, 0, 1], [1, 2, 3, 4]⟩ ∧
    (∃ msg, nfqueueCallback 2 5 (staleState true) 7 tcpPacket 60 2 = .panic msg) ∧
    (∃ r, nfqueueCallback 2 5 (staleState false) 7 tcpPacket 60 2 = .ok r ∧
      ∃ s2, r.state.sessionTable 7 = some s2 ∧ s2.SessionID = 65536 ∧ s2.EventCount = 1 ∧
        s2.ConntrackConfirmed = false ∧ s2.ClientSideTuple = ⟨6, [10, 0, 0, 1], 5000, [1, 2, 3, 4], 443⟩) :=
  ⟨rfl,
   (nfqueueCallback_panic_iff_confirmed_mismatch 2 5 (staleState true) 7 tcpPacket 60 2
      ⟨6, [10, 0, 0, 1], [1, 2, 3, 4]⟩ rfl).1.2 ⟨staleSession true, rfl, rfl, rfl⟩,
   ⟨_, rfl,
    ((nfqueueCallback_panic_iff_confirmed_mismatch 2 5 (staleState false) 7 tcpPacket 60 2
      ⟨6, [10, 0, 0, 1], [1, 2, 3, 4]⟩ rfl).2 (staleSession false) rfl rfl rfl).2.2 _ rfl⟩⟩

/-! ## Conntrack confirmation of a session -/

/-- C2, as stated, fails: a NEW event for conntrack id 100 delivered to empty tables,
followed by an nfqueue packet for id 100 with the event's client-side tuple, leaves under id
100 a session with `ConntrackConfirmed = false` and a zero `ServerSideTuple`. -/
theorem conntrack_new_before_packet_unconfirmed :
    ∃ r1 r2 s ip,
      conntrackCallback 0 0 twoHandlers newEvent = .ok r1 ∧
      tcpPacket.ipv4 = some ip ∧ nfqueueTuple ip tcpPacket = newEvent.clientSide ∧
      nfqueueCallback 2 1 r1.state 100 tcpPacket 60 0 = .ok r2 ∧
      r2.state.sessionTable 100 = some s ∧
      s.ConntrackConfirmed = false ∧ s.ServerSideTuple = Tuple.zero :=
  ⟨_, _, _, _, rfl, rfl, rfl, rfl, rfl, rfl, rfl⟩

/-- The first conntrack event for an id whose session exists with a matching client-side
tuple confirms that session and records the server-side tuple. -/
theorem conntrackFind_confirms (now : Int) (st : State) (ev : ConntrackEvent)
    (s : SessionEntry) (hct : st.conntrackTable ev.ctid = none)
    (hs : st.sessionTable ev.ctid = some s)
    (heq : s.ClientSideTuple.Equal ev.clientSide = true) :
    conntrackFind now st ev =
      .ok (insertConntrackEntry
            (insertSessionEntry (nextSessionID st).2 ev.ctid
              { s with ServerSideTuple := ev.serverSide, ConntrackConfirmed := true })
            ev.ctid
            { conntrackNew now (nextSessionID st).1 ev with Session := some s.SessionID },
          { conntrackNew now (nextSessionID st).1 ev with Session := some s.SessionID }) := by
  have hs2 : findSessionEntry (nextSessionID st).2 ev.ctid = some s := hs
  have heq2 : s.ClientSideTuple.Equal (conntrackNew now (nextSessionID st).1 ev).ClientSideTuple
      = true := heq
  unfold conntrackFind
  simp only [findConntrackEntry, hct, hs2, heq2, if_true]

theorem conntrackDestroy_sessionTable (st : State) (ev : ConntrackEvent) (e : ConntrackEntry)
    (h : ev.eventType ≠ eventDestroy) :
    (conntrackDestroy st ev e).1.sessionTable = st.sessionTable := by
  simp [conntrackDestroy, h, insertConntrackEntry]

/-- A returning `conntrackCallback` on an event that is neither DESTROY nor UPDATE leaves the
session table as the head of the callback made it. -/
theorem conntrackCallback_ok_sessionTable (fuel : Nat) (now : Int) (st : State)
    (ev : ConntrackEvent) (r : ConntrackReturn)
    (hd : ev.eventType ≠ eventDestroy) (hu : ev.eventType ≠ eventUpdate)
    (h : conntrackCallback fuel now st ev = .ok r) :
    ∃ st1 e1, conntrackFind now st ev = .ok (st1, e1) ∧
      r.state.sessionTable = st1.sessionTable := by
  unfold conntrackCallback at h
  generalize hres : conntrackFind now st ev = res at h
  cases res with
  | panic msg => cases h
  | outOfFuel => cases h
  | ok a =>
    obtain ⟨st1, e1⟩ := a
    refine ⟨st1, e1, rfl, ?_⟩
    simp only [hu, if_false] at h
    split at h
    · cases h
    · cases h
      rw [conntrackDestroy_sessionTable _ _ _ hd]
      rfl

/-! ### Termination of the conntrack fan-out -/

/-- The `return` inside the UPDATE step is never reached: the differences are `uint64`
values, and no such value is below zero. -/
theorem conntrackBytes_isSome (ev : ConntrackEvent) (e : ConntrackEntry) :
    conntrackBytes ev e =
      some { e with
        C2Sbytes := ev.c2sBytes
        S2Cbytes := ev.s2cBytes
        TotalBytes := (ev.c2sBytes + ev.s2cBytes) % u64
        C2Srate := (ev.c2sBytes + u64 - e.C2Sbytes) % u64 / 60
        S2Crate := (ev.s2cBytes + u64 - e.S2Cbytes) % u64 / 60
        TotalRate := ((ev.c2sBytes + ev.s2cBytes) % u64 + u64 - e.TotalBytes) % u64 / 60 } := by
  simp [conntrackBytes]

theorem conntrackWaves_terminates (sublist : SubMap) (bound : Nat)
    (hprio : priorityBelow sublist bound) (hb : bound < 2 ^ 63) :
    ∀ fuel k subcount calls, bound ≤ k + fuel → k ≤ bound →
      subcount = (sublist.filter (fun e => decide (e.2.Priority < (k : Int)))).length →
      ∃ c, conntrackWaves sublist sublist.length fuel subcount (k : Int) calls = some c := by
  have hall : (sublist.filter (fun e => decide (e.2.Priority < (bound : Int)))).length =
      sublist.length := by
    congr 1
    rw [List.filter_eq_self]
    intro e he
    simpa using (hprio e he).2
  intro fuel
  induction fuel with
  | zero =>
    intro k subcount calls hk hkb hcnt
    have : k = bound := by omega
    subst this
    exact ⟨calls, by simp [conntrackWaves, hcnt, hall]⟩
  | succ fuel ih =>
    intro k subcount calls hk hkb hcnt
    rw [conntrackWaves]
    split_ifs with hdone
    · exact ⟨calls, rfl⟩
    · have hlt : k < bound := by
        rcases Nat.lt_or_ge k bound with h | h
        · exact h
        · have : k = bound := by omega
          subst this
          exact absurd (hcnt.trans hall) hdone
      have hinc : intInc (k : Int) = ((k + 1 : Nat) : Int) := by
        unfold intInc
        have : ¬ ((k : Int) + 1 = 2 ^ 63) := by
          have : ((k + 1 : Nat) : Int) < 2 ^ 63 := by exact_mod_cast (by omega : k + 1 < 2 ^ 63)
          push_cast at this
          omega
        rw [if_neg this]
        push_cast
        rfl
      dsimp only
      rw [hinc]
      apply ih (k + 1) _ _ (by omega) (by omega)
      rw [hcnt]
      push_cast
      rw [filter_priority_split]

theorem conntrackFind_conntrackList (now : Int) (st : State) (ev : ConntrackEvent)
    (st1 : State) (e1 : ConntrackEntry) (h : conntrackFind now st ev = .ok (st1, e1)) :
    st1.conntrackList = st.conntrackList := by
  unfold conntrackFind at h
  cases hf : findConntrackEntry st ev.ctid with
  | some e =>
    rw [hf] at h
    cases h
    rfl
  | none =>
    rw [hf] at h
    dsimp only at h
    cases hs : findSessionEntry (nextSessionID st).2 ev.ctid with
    | none =>
      rw [hs] at h
      cases h
      rfl
    | some s =>
      rw [hs] at h
      dsimp only at h
      split_ifs at h
      · cases h; rfl
      · cases h; rfl

theorem conntrackDestroy_conntrackList (st : State) (ev : ConntrackEvent)
    (e : ConntrackEntry) : (conntrackDestroy st ev e).1.conntrackList = st.conntrackList := by
  unfold conntrackDestroy
  by_cases hd : ev.eventType = eventDestroy
  · rw [if_pos hd]
    dsimp only
    cases e.Session <;> rfl
  · rw [if_neg hd]
    rfl

/-- With `bound` rounds of fuel `conntrackCallback` returns, when its head does not panic and
the priorities of the conntrack subscriptions lie from 0 up to `bound`. -/
theorem conntrackCallback_returns (bound : Nat) (now : Int) (st : State)
    (ev : ConntrackEvent) (st1 : State) (e1 : ConntrackEntry)
    (hfind : conntrackFind now st ev = .ok (st1, e1))
    (hprio : priorityBelow st.conntrackList bound) (hb : bound < 2 ^ 63) :
    ∃ r, conntrackCallback bound now st ev = .ok r := by
  have hl := conntrackFind_conntrackList now st ev st1 e1 hfind
  have hterm : ∀ st3 : State, st3.conntrackList = st.conntrackList →
      ∃ c, conntrackWaves st3.conntrackList st3.conntrackList.length bound 0 0 [] = some c := by
    intro st3 h3
    rw [h3]
    exact conntrackWaves_terminates st.conntrackList bound hprio hb bound 0 0 [] (by omega)
      (by omega) (by
        symm
        rw [List.length_eq_zero, List.filter_eq_nil_iff]
        intro e he
        have := (hprio e he).1
        simp only [Nat.cast_zero, decide_eq_true_eq, not_lt]
        exact this)
  unfold conntrackCallback
  rw [hfind]
  dsimp only
  split_ifs
  · rw [conntrackBytes_isSome]
    dsimp only
    obtain ⟨c, hc⟩ := hterm (insertConntrackEntry (conntrackDestroy
      (insertConntrackEntry st1 ev.ctid { e1 with LastActivityTime := now }) ev
      { e1 with LastActivityTime := now }).1 ev.ctid _)
      ((conntrackDestroy_conntrackList _ _ _).trans hl)
    rw [hc]
    exact ⟨_, rfl⟩
  · obtain ⟨c, hc⟩ := hterm (conntrackDestroy
      (insertConntrackEntry st1 ev.ctid { e1 with LastActivityTime := now }) ev
      { e1 with LastActivityTime := now }).1 ((conntrackDestroy_conntrackList _ _ _).trans hl)
    rw [hc]
    exact ⟨_, rfl⟩

/-- C2, amended: when the session for `ctid` already exists (an nfqueue packet came first)
with a `ClientSideTuple` that is `Equal` to the client-side tuple of the first conntrack
event for `ctid`, a NEW event, then after `conntrackCallback` the session stored under `ctid`
has `ConntrackConfirmed = true` and its `ServerSideTuple` is the event's server-side tuple;
and the same holds after a following `nfqueueCallback` for `ctid` whose packet tuple is the
event's client-side tuple, so the `ServerSideTuple` is not the zero tuple whenever the
event's server-side tuple is not. Both callbacks do return, within `bound` waves, when the
priorities of the subscriptions lie from 0 up to `bound` and no nfqueue handler releases a
subscription of a later priority. -/
theorem conntrack_new_confirms_existing_session (fuel1 fuel2 : Nat) (now1 now2 : Int)
    (st : State) (ev : ConntrackEvent) (s : SessionEntry) (packet : Packet)
    (packetLength : Int) (pmark : Nat) (ip : IPv4Layer)
    (hnew : ev.eventType = eventNew)
    (hct : st.conntrackTable ev.ctid = none)
    (hs : st.sessionTable ev.ctid = some s)
    (heq : s.ClientSideTuple.Equal ev.clientSide = true)
    (hip : packet.ipv4 = some ip)
    (htuple : nfqueueTuple ip packet = ev.clientSide) :
    (∀ r1, conntrackCallback fuel1 now1 st ev = .ok r1 →
      (∃ s1, r1.state.sessionTable ev.ctid = some s1 ∧ s1.ConntrackConfirmed = true ∧
        s1.ServerSideTuple = ev.serverSide) ∧
      (∀ r2, nfqueueCallback fuel2 now2 r1.state ev.ctid packet packetLength pmark = .ok r2 →
        ∃ s2, r2.state.sessionTable ev.ctid = some s2 ∧ s2.ConntrackConfirmed = true ∧
          s2.ServerSideTuple = ev.serverSide ∧
          (ev.serverSide ≠ Tuple.zero → s2.ServerSideTuple ≠ Tuple.zero))) ∧
    (∀ bound, priorityBelow st.conntrackList bound → priorityBelow s.Subs bound →
      bound < 2 ^ 63 → (∀ mess, releasesNoLater mess ev.ctid false s.Subs) →
      ∃ r1 r2, conntrackCallback bound now1 st ev = .ok r1 ∧
        nfqueueCallback bound now2 r1.state ev.ctid packet packetLength pmark = .ok r2) := by
  have hd : ev.eventType ≠ eventDestroy := by rw [hnew]; decide
  have hu : ev.eventType ≠ eventUpdate := by rw [hnew]; decide
  have hfind := conntrackFind_confirms now1 st ev s hct hs heq
  have hstate : ∀ fuel r1, conntrackCallback fuel now1 st ev = .ok r1 →
      r1.state.sessionTable ev.ctid =
        some { s with ServerSideTuple := ev.serverSide, ConntrackConfirmed := true } := by
    intro fuel r1 h1
    obtain ⟨st1, e1, hfind1, htab⟩ :=
      conntrackCallback_ok_sessionTable fuel now1 st ev r1 hd hu h1
    rw [hfind] at hfind1
    cases hfind1
    rw [htab]
    exact insertSessionEntry_same _ _ _
  have hmatch : ∀ fuel r1, conntrackCallback fuel now1 st ev = .ok r1 →
      nfqueueResolve now2 r1.state ev.ctid (nfqueueTuple ip packet) = _ :=
    fun fuel r1 h1 => nfqueueResolve_match now2 r1.state ev.ctid _ _ (hstate fuel r1 h1)
      (by rw [htuple]; exact heq)
  refine ⟨?_, ?_⟩
  · intro r1 h1
    refine ⟨⟨_, hstate fuel1 r1 h1, rfl, rfl⟩, ?_⟩
    intro r2 h2
    obtain ⟨st2, session, newSession, w, hres, -, rfl⟩ :=
      nfqueueCallback_ok_inv fuel2 now2 r1.state ev.ctid packet packetLength pmark ip r2 hip h2
    rw [hmatch fuel1 r1 h1] at hres
    cases hres
    exact ⟨_, insertSessionEntry_same _ _ _, rfl, rfl, fun h => h⟩
  · intro bound hp1 hp2 hb hlater
    obtain ⟨r1, h1⟩ := conntrackCallback_returns bound now1 st ev _ _ hfind hp1 hb
    obtain ⟨w, h2⟩ := nfqueueCallback_returns bound now2 r1.state ev.ctid packet packetLength
      pmark ip _ _ false hip (hmatch bound r1 h1) hp2 hb (hlater _)
    exact ⟨r1, _, h1, h2⟩

theorem conntrack_new_confirms_existing_session_witness :
    newEvent.eventType = eventNew ∧ freshState.conntrackTable newEvent.ctid = none ∧
    freshState.sessionTable newEvent.ctid = some freshSession ∧
    freshSession.ConntrackConfirmed = false ∧
    ∃ r1 r2, conntrackCallback 0 1 freshState newEvent = .ok r1 ∧
      nfqueueCallback 2 2 r1.state newEvent.ctid tcpPacket 60 0 = .ok r2 ∧
      ∃ s2, r2.state.sessionTable newEvent.ctid = some s2 ∧ s2.ConntrackConfirmed = true ∧
        s2.ServerSideTuple = ⟨6, [10, 0, 0, 1], 5000, [192, 168, 1, 4], 8443⟩ :=
  ⟨rfl, rfl, rfl, rfl, _, _, rfl, rfl,
    ((((conntrack_new_confirms_existing_session 0 2 1 2 freshState newEvent freshSession
      tcpPacket 60 0 ⟨6, [10, 0, 0, 1], [1, 2, 3, 4]⟩ rfl rfl rfl rfl rfl rfl).1 _ rfl).2
        _ rfl)).imp
      fun _ h => ⟨h.1, h.2.1, h.2.2.1⟩⟩

/-! ## Byte counters on conntrack UPDATE -/

/-- C10 fails on the code: for the UPDATE event reporting 1000 / 500 bytes against the stored
2000 / 100, `conntrackCallback` stores the reported counters and also computes new rates from
the wrapped-around differences, replacing the stored rates 33 / 1 / 35. -/
theorem conntrackCallback_update_below_stored :
    storedState.conntrackTable 300 = some storedEntry ∧
    storedEntry.C2Sbytes = 2000 ∧ storedEntry.S2Cbytes = 100 ∧
    storedEntry.C2Srate = 33 ∧ storedEntry.S2Crate = 1 ∧ storedEntry.TotalRate = 35 ∧
    ∃ r e, conntrackCallback 0 120 storedState updateEvent = .ok r ∧
      r.state.conntrackTable 300 = some e ∧
      e.C2Sbytes = 1000 ∧ e.S2Cbytes = 500 ∧
      e.C2Srate = 307445734561825843 ∧ e.S2Crate = 6 ∧ e.TotalRate = 307445734561825850 :=
  ⟨rfl, rfl, rfl, rfl, rfl, rfl, _, _, rfl, rfl, rfl, rfl, by decide, by decide, by decide⟩

end Dispatch

namespace Sni

/-! ## Bounds of the reads of `extractSNIhostname` -/

/-- C5 fails on the code: on the 48-byte payload `truncatedHello` the function reads
`buffer[48]` and panics, and on `overlongName`, whose name length points past the end, the
slice expression panics; neither returns an empty hostname. -/
theorem extractSNIhostname_reads_past_end :
    truncatedHello.length = 48 ∧
    extractSNIhostname truncatedHello = .panic "index out of range" ∧
    extractSNIhostname overlongName = .panic "slice bounds out of range" :=
  ⟨rfl, rfl, rfl⟩

/-! ## The header checks -/

theorem bind_ok {α β : Type} (a : α) (f : α → Outcome β) :
    (Outcome.ok a >>= f) = f a := rfl

theorem bind_panic {α β : Type} (msg : String) (f : α → Outcome β) :
    ((Outcome.panic msg : Outcome α) >>= f) = .panic msg := rfl

theorem bind_outOfFuel {α β : Type} (f : α → Outcome β) :
    ((Outcome.outOfFuel : Outcome α) >>= f) = .outOfFuel := rfl

theorem pure_eq_ok {α : Type} (a : α) : (pure a : Outcome α) = .ok a := rfl

theorem headerChecks_short (buffer : List Nat) (h : buffer.length < 48) :
    headerChecks buffer = .ok false := by
  simp only [headerChecks, h, if_true]
  rfl

theorem headerChecks_cons (a0 a1 a2 a3 a4 a5 : Nat) (rest : List Nat)
    (h : 48 ≤ (a0 :: a1 :: a2 :: a3 :: a4 :: a5 :: rest).length) :
    headerChecks (a0 :: a1 :: a2 :: a3 :: a4 :: a5 :: rest) =
      .ok (decide (a0 = 0x16 ∧ a1 = 0x03 ∧ 0x01 ≤ a2 ∧ a5 = 0x01)) := by
  have h' : ¬ (a0 :: a1 :: a2 :: a3 :: a4 :: a5 :: rest).length < 48 := by omega
  simp only [headerChecks, h', if_false, readByte]
  simp only [List.getElem?_cons_zero, List.getElem?_cons_succ, bind_ok, pure_eq_ok]
  split_ifs <;> simp_all
  all_goals omega

/-- The header checks never panic, and they pass exactly on a valid header. -/
theorem headerChecks_spec (buffer : List Nat) :
    (headerChecks buffer = .ok true ∧ validHeader buffer) ∨
    (headerChecks buffer = .ok false ∧ ¬ validHeader buffer) := by
  by_cases hlen : buffer.length < 48
  · exact Or.inr ⟨headerChecks_short buffer hlen, fun hv => absurd hv.1 (by omega)⟩
  · match buffer, hlen with
    | a0 :: a1 :: a2 :: a3 :: a4 :: a5 :: rest, hlen =>
      have h48 : 48 ≤ (a0 :: a1 :: a2 :: a3 :: a4 :: a5 :: rest).length := by omega
      rw [headerChecks_cons a0 a1 a2 a3 a4 a5 rest h48]
      by_cases hc : a0 = 0x16 ∧ a1 = 0x03 ∧ 0x01 ≤ a2 ∧ a5 = 0x01
      · refine Or.inl ⟨by simp [hc], h48, ?_⟩
        obtain ⟨h0, h1, h2, h5⟩ := hc
        simp [h0, h1, h2, h5]
      · refine Or.inr ⟨by simp [hc], fun hv => hc ?_⟩
        obtain ⟨-, h0, h1, ⟨b, hb, hb1⟩, h5⟩ := hv
        simp at h0 h1 hb h5
        subst hb
        exact ⟨h0, h1, hb1, h5⟩
    | [], hlen => exact absurd (by simp) hlen
    | [_], hlen => exact absurd (by simp) hlen
    | [_, _], hlen => exact absurd (by simp) hlen
    | [_, _, _], hlen => exact absurd (by simp) hlen
    | [_, _, _, _], hlen => exact absurd (by simp) hlen
    | [_, _, _, _, _], hlen => exact absurd (by simp) hlen

theorem extractSNIhostname_invalid (buffer : List Nat) (h : ¬ validHeader buffer) :
    extractSNIhostname buffer = .ok (false, []) := by
  rcases headerChecks_spec buffer with ⟨_, hv⟩ | ⟨hc, _⟩
  · exact absurd hv h
  · simp only [extractSNIhostname, hc, bind_ok]
    rfl

theorem extractSNIhostname_valid (buffer : List Nat) (h : validHeader buffer) :
    extractSNIhostname buffer = extractBody buffer := by
  rcases headerChecks_spec buffer with ⟨hc, _⟩ | ⟨_, hv⟩
  · simp only [extractSNIhostname, hc, bind_ok]
    rfl
  · exact absurd h hv

/-- C6: if `extractSNIhostname` returns a non-empty hostname, the payload is at least 48
bytes long with byte 0 equal to `0x16`, byte 1 equal to `0x03`, byte 2 at least `0x01` and
byte 5 equal to `0x01`; if any of these checks fails the result is `(false, "")`; and
`PluginNfqueueHandler` writes a dictionary entry only as `ssl_sni` with such a non-empty
hostname extracted from the payload. -/
theorem sni_hostname_requires_header (buffer : List Nat) :
    (∀ release hostname, extractSNIhostname buffer = .ok (release, hostname) →
      hostname ≠ [] → validHeader buffer) ∧
    (¬ validHeader buffer → extractSNIhostname buffer = .ok (false, [])) ∧
    (∀ mess ctid newSession r, mess.Payload = buffer →
      PluginNfqueueHandler mess ctid newSession = .ok r → r.dict ≠ [] →
      validHeader buffer ∧ ∃ release hostname,
        extractSNIhostname buffer = .ok (release, hostname) ∧ hostname ≠ [] ∧
        r.dict = [⟨ctid, "ssl_sni", hostname⟩]) := by
  have key : ∀ release hostname, extractSNIhostname buffer = .ok (release, hostname) →
      hostname ≠ [] → validHeader buffer := by
    intro release hostname hres hne
    by_contra hv
    rw [extractSNIhostname_invalid buffer hv] at hres
    cases hres
    exact hne rfl
  refine ⟨key, extractSNIhostname_invalid buffer, ?_⟩
  intro mess ctid newSession r hpay hres hdict
  unfold PluginNfqueueHandler at hres
  rw [hpay] at hres
  dsimp only at hres
  by_cases h1 : mess.TCPLayer.isNone = true
  · rw [if_pos h1] at hres; cases hres; exact absurd rfl hdict
  · rw [if_neg h1] at hres
    by_cases h2 : (mess.MsgTuple.ServerPort != 443 && mess.MsgTuple.ClientPort != 443) = true
    · rw [if_pos h2] at hres; cases hres; exact absurd rfl hdict
    · rw [if_neg h2] at hres
      generalize hex : extractSNIhostname buffer = ex at hres
      cases ex with
      | panic msg => cases hres
      | outOfFuel => cases hres
      | ok a =>
        obtain ⟨release, hostname⟩ := a
        simp only [bind_ok] at hres
        by_cases h3 : (hostname != []) = true
        · rw [if_pos h3] at hres
          cases hres
          have hne : hostname ≠ [] := by simpa using h3
          exact ⟨key release hostname hex hne, release, hostname, rfl, hne, rfl⟩
        · rw [if_neg h3] at hres
          cases hres
          exact absurd rfl hdict

theorem sni_hostname_requires_header_witness :
    extractSNIhostname helloAbc = .ok (true, [97, 98, 99]) ∧ validHeader helloAbc :=
  ⟨rfl, (sni_hostname_requires_header helloAbc).1 true [97, 98, 99] rfl (by decide)⟩

/-! ## The fuel of the extension loop -/

theorem readPair_cases (buffer : List Nat) (i : Nat) :
    (∃ n, readPair buffer i = .ok n) ∨ (∃ msg, readPair buffer i = .panic msg) := by
  unfold readPair readByte
  cases buffer[i]? with
  | none => exact Or.inr ⟨_, rfl⟩
  | some hi =>
    cases buffer[i + 1]? with
    | none => exact Or.inr ⟨_, rfl⟩
    | some lo => exact Or.inl ⟨_, rfl⟩

theorem readByte_cases (buffer : List Nat) (i : Nat) :
    (∃ n, readByte buffer i = .ok n) ∨ (∃ msg, readByte buffer i = .panic msg) := by
  unfold readByte
  cases buffer[i]? with
  | none => exact Or.inr ⟨_, rfl⟩
  | some b => exact Or.inl ⟨_, rfl⟩

theorem slice_cases (buffer : List Nat) (low high : Nat) :
    (∃ xs, slice buffer low high = .ok xs) ∨ (∃ msg, slice buffer low high = .panic msg) := by
  unfold slice
  split_ifs
  · exact Or.inl ⟨_, rfl⟩
  · exact Or.inr ⟨_, rfl⟩

/-- Every round of the loop that goes on advances `current` by at least 4, so fuel for a
quarter of the bytes still ahead is never used up. -/
theorem extensionLoop_ne_outOfFuel (buffer : List Nat) :
    ∀ fuel current, buffer.length ≤ current + 4 * fuel →
      extensionLoop buffer fuel current ≠ .outOfFuel := by
  intro fuel
  induction fuel with
  | zero =>
    intro current h
    rw [extensionLoop, if_neg (by omega)]
    exact fun h => Outcome.noConfusion h
  | succ fuel ih =>
    intro current h
    rw [extensionLoop]
    split_ifs with hlt
    · rcases readPair_cases buffer current with ⟨t, ht⟩ | ⟨msg, ht⟩
      · rcases readPair_cases buffer (current + 2) with ⟨l, hl⟩ | ⟨msg, hl⟩
        · simp only [ht, hl, bind_ok]
          split_ifs with htyp
          · exact ih _ (by omega)
          · rcases readByte_cases buffer (current + 2 + 2 + 2) with ⟨nt, hnt⟩ | ⟨msg, hnt⟩
            · simp only [hnt, bind_ok]
              split_ifs with hname
              · rcases readPair_cases buffer (current + 2 + 2 + 2 + 1) with
                  ⟨nl, hnl⟩ | ⟨msg, hnl⟩
                · simp only [hnl, bind_ok]
                  rcases slice_cases buffer (current + 2 + 2 + 2 + 1 + 2)
                    (current + 2 + 2 + 2 + 1 + 2 + nl) with ⟨xs, hxs⟩ | ⟨msg, hxs⟩
                  · simp only [hxs, bind_ok]
                    exact fun h => Outcome.noConfusion h
                  · simp only [hxs, bind_panic]
                    exact fun h => Outcome.noConfusion h
                · simp only [hnl, bind_panic]
                  exact fun h => Outcome.noConfusion h
              · exact ih _ (by omega)
            · simp only [hnt, bind_panic]
              exact fun h => Outcome.noConfusion h
        · simp only [ht, hl, bind_ok, bind_panic]
          exact fun h => Outcome.noConfusion h
      · simp only [ht, bind_panic]
        exact fun h => Outcome.noConfusion h
    · exact fun h => Outcome.noConfusion h

theorem extractBody_ne_outOfFuel (buffer : List Nat) : extractBody buffer ≠ .outOfFuel := by
  unfold extractBody
  rcases readByte_cases buffer 43 with ⟨sl, hsl⟩ | ⟨msg, hsl⟩
  · simp only [hsl, bind_ok]
    split_ifs
    · exact fun h => Outcome.noConfusion h
    · rcases readPair_cases buffer (43 + 1 + sl) with ⟨cl, hcl⟩ | ⟨msg, hcl⟩
      · simp only [hcl, bind_ok]
        split_ifs
        · exact fun h => Outcome.noConfusion h
        · rcases readByte_cases buffer (43 + 1 + sl + 2 + cl) with ⟨ml, hml⟩ | ⟨msg, hml⟩
          · simp only [hml, bind_ok]
            split_ifs
            · exact fun h => Outcome.noConfusion h
            · rcases readPair_cases buffer (43 + 1 + sl + 2 + cl + 1 + ml) with
                ⟨el, hel⟩ | ⟨msg, hel⟩
              · simp only [hel, bind_ok]
                split_ifs
                · exact fun h => Outcome.noConfusion h
                · exact extensionLoop_ne_outOfFuel buffer _ _ (by omega)
              · simp only [hel, bind_panic]
                exact fun h => Outcome.noConfusion h
          · simp only [hml, bind_panic]
            exact fun h => Outcome.noConfusion h
      · simp only [hcl, bind_panic]
        exact fun h => Outcome.noConfusion h
  · simp only [hsl, bind_panic]
    exact fun h => Outcome.noConfusion h

/-- The fuel given to the extension loop is never used up: `extractSNIhostname` returns a
pair or panics. -/
theorem extractSNIhostname_ne_outOfFuel (buffer : List Nat) :
    extractSNIhostname buffer ≠ .outOfFuel := by
  by_cases hv : validHeader buffer
  · rw [extractSNIhostname_valid buffer hv]
    exact extractBody_ne_outOfFuel buffer
  · rw [extractSNIhostname_invalid buffer hv]
    exact fun h => Outcome.noConfusion h

/-! ## A well-formed ClientHello -/

theorem readByte_of_drop (buffer : List Nat) (i b : Nat) (rest : List Nat)
    (h : buffer.drop i = b :: rest) : readByte buffer i = .ok b := by
  have h0 : (buffer.drop i)[0]? = some b := by rw [h]; simp
  rw [List.getElem?_drop] at h0
  simp only [Nat.add_zero] at h0
  simp only [readByte, h0]

theorem drop_append_length (buffer : List Nat) (i : Nat) (xs rest : List Nat)
    (h : buffer.drop i = xs ++ rest) : buffer.drop (i + xs.length) = rest := by
  rw [← List.drop_drop, h, List.drop_left]

theorem drop_cons_succ (buffer : List Nat) (i b : Nat) (rest : List Nat)
    (h : buffer.drop i = b :: rest) : buffer.drop (i + 1) = rest :=
  drop_append_length buffer i [b] rest h

theorem lt_length_of_drop (buffer : List Nat) (i b : Nat) (rest : List Nat)
    (h : buffer.drop i = b :: rest) : i < buffer.length := by
  by_contra hge
  rw [List.drop_eq_nil_iff.mpr (by omega)] at h
  cases h

theorem readPair_of_drop (buffer : List Nat) (i n : Nat) (rest : List Nat)
    (h : buffer.drop i = be16 n ++ rest) : readPair buffer i = .ok n := by
  have h1 : buffer.drop i = (n / 256) :: (n % 256) :: rest := h
  have h2 := drop_cons_succ buffer i _ _ h1
  simp only [readPair, readByte_of_drop buffer i _ _ h1, readByte_of_drop buffer (i + 1) _ _ h2,
    bind_ok, pure_eq_ok, Nat.shiftLeft_eq]
  congr 1
  omega

theorem drop_be16 (buffer : List Nat) (i n : Nat) (rest : List Nat)
    (h : buffer.drop i = be16 n ++ rest) : buffer.drop (i + 2) = rest :=
  drop_append_length buffer i (be16 n) rest h

theorem slice_of_drop (buffer : List Nat) (i : Nat) (xs rest : List Nat)
    (hi : i ≤ buffer.length) (h : buffer.drop i = xs ++ rest) :
    slice buffer i (i + xs.length) = .ok xs := by
  have hlen : i + xs.length ≤ buffer.length := by
    have := congrArg List.length h
    simp only [List.length_drop, List.length_append] at this
    omega
  have hle : i ≤ i + xs.length := Nat.le_add_right _ _
  simp only [slice, hle, hlen, and_self, if_true, h, Nat.add_sub_cancel_left, List.take_left]

theorem extensionLoop_skip (buffer : List Nat) (fuel current : Nat) (e : Extension)
    (rest : List Nat) (hdrop : buffer.drop current = e.encode ++ rest) (ht : e.typ ≠ 0) :
    extensionLoop buffer (fuel + 1) current =
      extensionLoop buffer fuel (current + 2 + 2 + e.data.length) := by
  have h1 : buffer.drop current = be16 e.typ ++ (be16 e.data.length ++ (e.data ++ rest)) := by
    rw [hdrop]; simp [Extension.encode]
  have hlt : current < buffer.length := lt_length_of_drop buffer current _ _ h1
  have h2 := drop_be16 buffer current _ _ h1
  rw [extensionLoop]
  simp only [hlt, if_true, readPair_of_drop buffer current _ _ h1,
    readPair_of_drop buffer (current + 2) _ _ h2, bind_ok]
  simp [ht]

theorem extensionLoop_serverName (buffer : List Nat) (fuel current dataLen listLen : Nat)
    (h rest : List Nat)
    (hdrop : buffer.drop current = serverName dataLen listLen h ++ rest) :
    extensionLoop buffer (fuel + 1) current = .ok (true, h) := by
  have h1 : buffer.drop current =
      be16 0 ++ (be16 dataLen ++ (be16 listLen ++ (0 :: (be16 h.length ++ (h ++ rest))))) := by
    rw [hdrop]; simp [serverName]
  have hlt : current < buffer.length := lt_length_of_drop buffer current _ _ h1
  have h2 := drop_be16 buffer current _ _ h1
  have h3 := drop_be16 buffer (current + 2) _ _ h2
  have h4 := drop_be16 buffer (current + 2 + 2) _ _ h3
  have h5 := drop_cons_succ buffer (current + 2 + 2 + 2) _ _ h4
  have h6 := drop_be16 buffer (current + 2 + 2 + 2 + 1) _ _ h5
  have hle : current + 2 + 2 + 2 + 1 + 2 ≤ buffer.length := by
    have := lt_length_of_drop buffer (current + 2 + 2 + 2 + 1) _ _ h5
    have h5' := drop_cons_succ buffer (current + 2 + 2 + 2 + 1) _ _ h5
    have := lt_length_of_drop buffer (current + 2 + 2 + 2 + 1 + 1) _ _ h5'
    omega
  rw [extensionLoop]
  simp only [hlt, if_true, readPair_of_drop buffer current _ _ h1,
    readPair_of_drop buffer (current + 2) _ _ h2, bind_ok,
    readByte_of_drop buffer (current + 2 + 2 + 2) _ _ h4,
    readPair_of_drop buffer (current + 2 + 2 + 2 + 1) _ _ h5,
    slice_of_drop buffer (current + 2 + 2 + 2 + 1 + 2) h rest hle h6]
  rfl

theorem extensionLoop_encodeAll (buffer : List Nat) (exts : List Extension)
    (dataLen listLen : Nat) (h rest : List Nat) (hexts : ∀ e ∈ exts, e.typ ≠ 0) :
    ∀ fuel current, exts.length < fuel →
      buffer.drop current = encodeAll exts ++ (serverName dataLen listLen h ++ rest) →
      extensionLoop buffer fuel current = .ok (true, h) := by
  induction exts with
  | nil =>
    intro fuel current hfuel hdrop
    obtain ⟨f, rfl⟩ : ∃ f, fuel = f + 1 := ⟨fuel - 1, by simp at hfuel; omega⟩
    exact extensionLoop_serverName buffer f current dataLen listLen h rest hdrop
  | cons e es ih =>
    intro fuel current hfuel hdrop
    obtain ⟨f, rfl⟩ : ∃ f, fuel = f + 1 := ⟨fuel - 1, by simp at hfuel; omega⟩
    have hd : buffer.drop current =
        e.encode ++ (encodeAll es ++ (serverName dataLen listLen h ++ rest)) := by
      rw [hdrop]; simp [encodeAll]
    rw [extensionLoop_skip buffer f current e _ hd (hexts e (List.mem_cons_self _ _))]
    apply ih (fun e' he' => hexts e' (List.mem_cons_of_mem _ he')) f
    · simp at hfuel; omega
    · have := drop_append_length buffer current _ _ hd
      rw [← this]
      congr 1
      simp [Extension.encode, be16]
      omega

theorem extractBody_clientHello (header sid cs cm : List Nat) (extLen : Nat)
    (exts : List Extension) (dataLen listLen : Nat) (h rest : List Nat)
    (hlen : header.length = 43) (hext : extLen ≠ 0) (hexts : ∀ e ∈ exts, e.typ ≠ 0) :
    extractBody (clientHello header sid cs cm extLen exts dataLen listLen h rest) =
      .ok (true, h) := by
  generalize hB : clientHello header sid cs cm extLen exts dataLen listLen h rest = B
  have d0 : B.drop 43 = sid.length :: (sid ++ (be16 cs.length ++ (cs ++ (cm.length :: (cm ++
      (be16 extLen ++ (encodeAll exts ++ (serverName dataLen listLen h ++ rest)))))))) := by
    rw [← hB]; exact List.drop_left' hlen
  have r1 := readByte_of_drop B 43 _ _ d0
  have d1 := drop_append_length B (43 + 1) _ _ (drop_cons_succ B 43 _ _ d0)
  have l1 := lt_length_of_drop B _ _ _ d1
  have r2 := readPair_of_drop B _ _ _ d1
  have d2 := drop_append_length B _ _ _ (drop_be16 B _ _ _ d1)
  have l2 := lt_length_of_drop B _ _ _ d2
  have r3 := readByte_of_drop B _ _ _ d2
  have d3 := drop_append_length B _ _ _ (drop_cons_succ B _ _ _ d2)
  have l3 := lt_length_of_drop B _ _ _ d3
  have r4 := readPair_of_drop B _ _ _ d3
  have d4 := drop_be16 B _ _ _ d3
  have hfuel : exts.length < B.length := by
    have := congrArg List.length d4
    simp only [List.length_drop, List.length_append] at this
    have : (encodeAll exts).length ≥ exts.length := by
      clear * -
      induction exts with
      | nil => simp [encodeAll]
      | cons e es ih => simp [encodeAll, Extension.encode, be16]; omega
    have := lt_length_of_drop B _ _ _ d3
    omega
  have loop := extensionLoop_encodeAll B exts dataLen listLen h rest hexts B.length _ hfuel d4
  unfold extractBody
  simp only [r1, bind_ok, ge_iff_le, if_neg (Nat.not_le.mpr l1), r2,
    if_neg (Nat.not_le.mpr l2), r3, if_neg (Nat.not_le.mpr l3), r4, loop]
  simp [hext]

/-- C7: on every well-formed ClientHello buffer (a 43-byte header passing the header checks,
a length-prefixed session id, cipher-suite block and compression block, a non-zero
extensions length, any sequence of length-prefixed extensions of non-zero type, then a
server-name extension whose first entry has name-type 0 and the length-prefixed host name
`h`) `extractSNIhostname` returns `(true, h)`. -/
theorem extractSNIhostname_clientHello (header sid cs cm : List Nat) (extLen : Nat)
    (exts : List Extension) (dataLen listLen : Nat) (h rest : List Nat)
    (hlen : header.length = 43) (h0 : header[0]? = some 0x16) (h1 : header[1]? = some 0x03)
    (h2 : ∃ b, header[2]? = some b ∧ 0x01 ≤ b) (h5 : header[5]? = some 0x01)
    (hext : extLen ≠ 0) (hexts : ∀ e ∈ exts, e.typ ≠ 0) :
    extractSNIhostname (clientHello header sid cs cm extLen exts dataLen listLen h rest) =
      .ok (true, h) := by
  have hv : validHeader (clientHello header sid cs cm extLen exts dataLen listLen h rest) := by
    have hget : ∀ i, i < 43 →
        (clientHello header sid cs cm extLen exts dataLen listLen h rest)[i]? = header[i]? :=
      fun i hi => List.getElem?_append_left (by omega)
    refine ⟨?_, ?_, ?_, ?_, ?_⟩
    · simp [clientHello, serverName, be16, hlen]
      omega
    · rw [hget 0 (by omega)]; exact h0
    · rw [hget 1 (by omega)]; exact h1
    · rw [hget 2 (by omega)]; exact h2
    · rw [hget 5 (by omega)]; exact h5
  rw [extractSNIhostname_valid _ hv]
  exact extractBody_clientHello header sid cs cm extLen exts dataLen listLen h rest hlen hext
    hexts

theorem extractSNIhostname_clientHello_witness :
    clientHello ([0x16, 3, 1, 0, 0, 1] ++ List.replicate 37 0) [] [0xc0, 0x2f] [0] 20
        [⟨10, [7]⟩] 8 6 [97, 98, 99] [] = helloAbc ∧
    extractSNIhostname (clientHello ([0x16, 3, 1, 0, 0, 1] ++ List.replicate 37 0) []
        [0xc0, 0x2f] [0] 20 [⟨10, [7]⟩] 8 6 [97, 98, 99] []) = .ok (true, [97, 98, 99]) :=
  ⟨rfl, extractSNIhostname_clientHello ([0x16, 3, 1, 0, 0, 1] ++ List.replicate 37 0) []
    [0xc0, 0x2f] [0] 20 [⟨10, [7]⟩] 8 6 [97, 98, 99] [] rfl rfl rfl ⟨1, rfl, by decide⟩ rfl
    (by decide) (by decide)⟩

end Sni

namespace Classify

/-! ## Single updates of the attachments -/

theorem updateClassifyDetail_empty (a : Attachments) (ctid : Nat) (k : String) (v : Value)
    (h : emptyDetail v = true) : updateClassifyDetail a ctid k v = ⟨a, [], false⟩ := by
  simp [updateClassifyDetail, h]

theorem updateClassifyDetail_same (a : Attachments) (ctid : Nat) (k : String) (v : Value)
    (h : a k = some v) : updateClassifyDetail a ctid k v = ⟨a, [], false⟩ := by
  unfold updateClassifyDetail
  split_ifs
  · rfl
  · simp [h]

theorem updateClassifyDetail_other (a : Attachments) (ctid : Nat) (k : String) (v : Value)
    (k' : String) (h : k' ≠ k) : (updateClassifyDetail a ctid k v).attachments k' = a k' := by
  unfold updateClassifyDetail
  split_ifs
  · rfl
  · cases hk : a k with
    | none => simp [Attachments.put, h]
    | some c =>
      dsimp only
      split_ifs
      · rfl
      · simp [Attachments.put, h]

theorem updateClassifyDetail_stored (a : Attachments) (ctid : Nat) (k : String) (v : Value)
    (h : emptyDetail v = false) : (updateClassifyDetail a ctid k v).attachments k = some v := by
  unfold updateClassifyDetail
  rw [if_neg (by simp [h])]
  cases hk : a k with
  | none => simp [Attachments.put]
  | some c =>
    dsimp only
    split_ifs with hc
    · show a k = some v
      rw [hk, hc]
    · simp [Attachments.put]

/-! ## The six updates of `processReply` -/

theorem updateStep_noop (ctid : Nat) (acc : Attachments × List DictEntry × List String)
    (pair : String × Value)
    (h : emptyDetail pair.2 = true ∨ acc.1 pair.1 = some pair.2) :
    updateStep ctid acc pair = acc := by
  have hu : updateClassifyDetail acc.1 ctid pair.1 pair.2 = ⟨acc.1, [], false⟩ := by
    rcases h with h | h
    · exact updateClassifyDetail_empty _ _ _ _ h
    · exact updateClassifyDetail_same _ _ _ _ h
  simp [updateStep, hu]

/-- Updates that find their value stored already, or carry an empty string, change nothing. -/
theorem foldl_updateStep_noop (ctid : Nat) (pairs : List (String × Value))
    (acc : Attachments × List DictEntry × List String)
    (h : ∀ p ∈ pairs, emptyDetail p.2 = true ∨ acc.1 p.1 = some p.2) :
    pairs.foldl (updateStep ctid) acc = acc := by
  induction pairs with
  | nil => rfl
  | cons p ps ih =>
    rw [List.foldl_cons, updateStep_noop ctid acc p (h p (List.mem_cons_self _ _))]
    exact ih fun q hq => h q (List.mem_cons_of_mem _ hq)

/-- A name is left alone by updates that are for other names or carry an empty string. -/
theorem foldl_updateStep_other (ctid : Nat) (pairs : List (String × Value)) (k : String)
    (acc : Attachments × List DictEntry × List String)
    (h : ∀ p ∈ pairs, p.1 = k → emptyDetail p.2 = true) :
    (pairs.foldl (updateStep ctid) acc).1 k = acc.1 k := by
  induction pairs generalizing acc with
  | nil => rfl
  | cons p ps ih =>
    rw [List.foldl_cons, ih _ fun q hq => h q (List.mem_cons_of_mem _ hq)]
    by_cases hk : p.1 = k
    · rw [updateStep_noop ctid acc p (Or.inl (h p (List.mem_cons_self _ _) hk))]
    · exact updateClassifyDetail_other _ _ _ _ _ (Ne.symm hk)

/-- After the updates for distinct names, every non-empty value is the one stored. -/
theorem foldl_updateStep_stored (ctid : Nat) (pairs : List (String × Value))
    (hnd : (pairs.map Prod.fst).Nodup)
    (acc : Attachments × List DictEntry × List String) :
    ∀ p ∈ pairs, emptyDetail p.2 = true ∨
      (pairs.foldl (updateStep ctid) acc).1 p.1 = some p.2 := by
  induction pairs generalizing acc with
  | nil => intro p hp; cases hp
  | cons q qs ih =>
    intro p hp
    rw [List.map_cons, List.nodup_cons] at hnd
    rw [List.foldl_cons]
    rcases List.mem_cons.mp hp with rfl | hp
    · cases he : emptyDetail p.2 with
      | true => exact Or.inl rfl
      | false =>
        right
        rw [foldl_updateStep_other ctid qs p.1 _ fun r hr hrk =>
          absurd (hrk ▸ List.mem_map_of_mem Prod.fst hr) hnd.1]
        exact updateClassifyDetail_stored _ _ _ _ he
    · exact ih hnd.2 _ p hp

theorem replyPairs_nodup (r : Reply) : ((replyPairs r).map Prod.fst).Nodup := by
  simp [replyPairs]

theorem applyReply_stored (r : Reply) (a : Attachments) (sessionID ctid : Nat) :
    ∀ p ∈ replyPairs r, emptyDetail p.2 = true ∨
      (applyReply r a sessionID ctid).attachments p.1 = some p.2 :=
  foldl_updateStep_stored ctid (replyPairs r) (replyPairs_nodup r) (a, [], [])

theorem applyReply_confidence (r : Reply) (a : Attachments) (sessionID ctid : Nat) :
    (applyReply r a sessionID ctid).attachments "application_confidence" =
      some (.uint r.confidence) := by
  rcases applyReply_stored r a sessionID ctid ("application_confidence", .uint r.confidence)
    (by simp [replyPairs]) with h | h
  · cases h
  · exact h

theorem applyReply_chainTyped (r : Reply) (a : Attachments) (sessionID ctid : Nat)
    (h : chainTyped a) : chainTyped (applyReply r a sessionID ctid).attachments := by
  cases he : emptyDetail (.str r.protochain) with
  | true =>
    have : (applyReply r a sessionID ctid).attachments "application_protochain" =
        a "application_protochain" := by
      apply foldl_updateStep_other ctid (replyPairs r) "application_protochain" (a, [], [])
      intro p hp hk
      simp only [replyPairs, List.mem_cons, List.mem_singleton, List.not_mem_nil, or_false]
        at hp
      rcases hp with rfl | rfl | rfl | rfl | rfl | rfl
      · exact absurd (show "application_id" = "application_protochain" from hk) (by decide)
      · exact absurd (show "application_name" = "application_protochain" from hk) (by decide)
      · exact he
      · exact absurd (show "application_detail" = "application_protochain" from hk) (by decide)
      · exact absurd (show "application_confidence" = "application_protochain" from hk)
          (by decide)
      · exact absurd (show "application_category" = "application_protochain" from hk)
          (by decide)
    unfold chainTyped
    rw [this]
    exact h
  | false =>
    rcases applyReply_stored r a sessionID ctid ("application_protochain", .str r.protochain)
      (by simp [replyPairs]) with h' | h'
    · rw [he] at h'; cases h'
    · exact Or.inr ⟨_, h'⟩

theorem applyReply_noop (r : Reply) (a : Attachments) (sessionID ctid : Nat)
    (h : ∀ p ∈ replyPairs r, emptyDetail p.2 = true ∨ a p.1 = some p.2) :
    applyReply r a sessionID ctid = ⟨r.state, r.confidence, a, [], []⟩ := by
  unfold applyReply
  rw [foldl_updateStep_noop ctid (replyPairs r) (a, [], []) h]
  rfl

/-! ## `processReply` -/

/-- With `application_confidence` stored as a `uint64` and `application_protochain` absent or
a string, `processReply` returns: either the attachments untouched, or the six updates. -/
theorem processReply_typed (applicationTable : AppTable) (reply : String) (a : Attachments)
    (sessionID ctid c : Nat) (hc : a "application_confidence" = some (.uint c))
    (hchain : chainTyped a) :
    processReply applicationTable reply a sessionID ctid =
        .ok ⟨(parseReply applicationTable reply).state,
          (parseReply applicationTable reply).confidence, a, [], []⟩ ∨
    (c ≤ (parseReply applicationTable reply).confidence ∧
      processReply applicationTable reply a sessionID ctid =
        .ok (applyReply (parseReply applicationTable reply) a sessionID ctid)) := by
  unfold processReply
  simp only [hc]
  by_cases hlt : (parseReply applicationTable reply).confidence < c
  · exact Or.inl (by simp [hlt])
  · simp only [hlt, if_false]
    rcases hchain with hn | ⟨cur, hs⟩
    · exact Or.inr ⟨by omega, by simp [hn]⟩
    · simp only [hs]
      by_cases hcount : countSlash (parseReply applicationTable reply).protochain <
          countSlash cur
      · exact Or.inl (by simp [hcount])
      · exact Or.inr ⟨by omega, by simp [hcount]⟩

/-- A reply whose six values are stored already (or empty), on attachments holding the
reply's own confidence, changes nothing, writes nothing and reports nothing. -/
theorem processReply_settled (applicationTable : AppTable) (reply : String) (a : Attachments)
    (sessionID ctid : Nat)
    (hc : a "application_confidence" =
      some (.uint (parseReply applicationTable reply).confidence))
    (hchain : chainTyped a)
    (h : ∀ p ∈ replyPairs (parseReply applicationTable reply),
      emptyDetail p.2 = true ∨ a p.1 = some p.2) :
    processReply applicationTable reply a sessionID ctid =
      .ok ⟨(parseReply applicationTable reply).state,
        (parseReply applicationTable reply).confidence, a, [], []⟩ := by
  rcases processReply_typed applicationTable reply a sessionID ctid _ hc hchain with h1 | h1
  · exact h1
  · rw [h1.2, applyReply_noop _ a sessionID ctid h]

/-- A returning `processReply` left the attachments untouched or made the six updates; in
the second case `application_protochain` was absent or a string and the confidence of the
reply was not below a stored one. -/
theorem processReply_ok_inv (applicationTable : AppTable) (reply : String) (a : Attachments)
    (sessionID ctid : Nat) (p : Processed)
    (h : processReply applicationTable reply a sessionID ctid = .ok p) :
    (p = ⟨(parseReply applicationTable reply).state,
        (parseReply applicationTable reply).confidence, a, [], []⟩ ∨
      (chainTyped a ∧
        (∀ c, a "application_confidence" = some (.uint c) →
          c ≤ (parseReply applicationTable reply).confidence) ∧
        p = applyReply (parseReply applicationTable reply) a sessionID ctid)) := by
  unfold processReply at h
  have hchain : ∀ q : Outcome Processed,
      (match a "application_protochain" with
        | some (.str current) =>
          if countSlash (parseReply applicationTable reply).protochain < countSlash current
          then .ok ⟨(parseReply applicationTable reply).state,
            (parseReply applicationTable reply).confidence, a, [], []⟩
          else .ok (applyReply (parseReply applicationTable reply) a sessionID ctid)
        | some _ => .panic "interface conversion: interface is not string"
        | none => .ok (applyReply (parseReply applicationTable reply) a sessionID ctid)) = q →
      q = .ok p →
      (∀ c, a "application_confidence" = some (.uint c) →
          c ≤ (parseReply applicationTable reply).confidence) →
      (p = ⟨(parseReply applicationTable reply).state,
          (parseReply applicationTable reply).confidence, a, [], []⟩ ∨
        (chainTyped a ∧
          (∀ c, a "application_confidence" = some (.uint c) →
            c ≤ (parseReply applicationTable reply).confidence) ∧
          p = applyReply (parseReply applicationTable reply) a sessionID ctid)) := by
    intro q hq hqp hle
    subst hqp
    cases hch : a "application_protochain" with
    | none =>
      rw [hch] at hq
      cases hq
      exact Or.inr ⟨Or.inl hch, hle, rfl⟩
    | some v =>
      rw [hch] at hq
      cases v with
      | str cur =>
        dsimp only at hq
        split_ifs at hq
        · cases hq; exact Or.inl rfl
        · cases hq; exact Or.inr ⟨Or.inr ⟨cur, hch⟩, hle, rfl⟩
      | uint n => cases hq
      | other t => cases hq
  obtain hcf | ⟨v, hcf⟩ : a "application_confidence" = none ∨
      ∃ v, a "application_confidence" = some v := by
    cases a "application_confidence" <;> simp
  · rw [hcf] at h
    exact hchain _ rfl h (fun c hc => by rw [hcf] at hc; cases hc)
  · rw [hcf] at h
    cases v with
    | uint c =>
      dsimp only at h
      split_ifs at h with hlt
      · cases h; exact Or.inl rfl
      · exact hchain _ rfl h (fun c' hc' => by rw [hcf] at hc'; cases hc'; omega)
    | str t => cases h
    | other t => cases h

/-- A returning `processReply` never lowers a stored `application_confidence`. -/
theorem processReply_confidence_mono (applicationTable : AppTable) (reply : String)
    (a : Attachments) (sessionID ctid c : Nat) (p : Processed)
    (hc : a "application_confidence" = some (.uint c))
    (h : processReply applicationTable reply a sessionID ctid = .ok p) :
    ∃ c', p.attachments "application_confidence" = some (.uint c') ∧ c ≤ c' := by
  rcases processReply_ok_inv applicationTable reply a sessionID ctid p h with rfl | ⟨-, hle, rfl⟩
  · exact ⟨c, hc, Nat.le_refl c⟩
  · exact ⟨_, applyReply_confidence _ a sessionID ctid, hle c hc⟩

/-! ## Confidence never decreases -/

/-- C8: when `application_confidence` holds a stored value `c`, a reply whose parsed
confidence is strictly less than `c` makes `processReply` change no attachment, write no
dictionary entry and report no event; so across any sequence of `processReply` calls the
stored `application_confidence` never decreases, and the sequence runs to its end whenever
`application_protochain` is absent or a string. -/
theorem processReply_keeps_higher_confidence (applicationTable : AppTable)
    (sessionID ctid : Nat) (a : Attachments) (c : Nat)
    (hc : a "application_confidence" = some (.uint c)) :
    (∀ reply, (parseReply applicationTable reply).confidence < c →
      processReply applicationTable reply a sessionID ctid =
        .ok ⟨(parseReply applicationTable reply).state,
          (parseReply applicationTable reply).confidence, a, [], []⟩) ∧
    (∀ replies a', processReplies applicationTable sessionID ctid replies a = .ok a' →
      ∃ c', a' "application_confidence" = some (.uint c') ∧ c ≤ c') ∧
    (chainTyped a → ∀ replies,
      ∃ a', processReplies applicationTable sessionID ctid replies a = .ok a') := by
  refine ⟨?_, ?_, ?_⟩
  · intro reply hlt
    unfold processReply
    simp [hc, hlt]
  · intro replies
    induction replies generalizing a c with
    | nil =>
      intro a' h
      cases h
      exact ⟨c, hc, Nat.le_refl c⟩
    | cons reply replies ih =>
      intro a' h
      rw [processReplies] at h
      generalize hres : processReply applicationTable reply a sessionID ctid = res at h
      cases res with
      | panic msg => cases h
      | outOfFuel => cases h
      | ok p =>
        obtain ⟨c1, hc1, hle1⟩ :=
          processReply_confidence_mono applicationTable reply a sessionID ctid c p hc hres
        obtain ⟨c2, hc2, hle2⟩ := ih p.attachments c1 hc1 a' h
        exact ⟨c2, hc2, Nat.le_trans hle1 hle2⟩
  · intro hchain replies
    induction replies generalizing a c with
    | nil => exact ⟨a, rfl⟩
    | cons reply replies ih =>
      rw [processReplies]
      rcases processReply_typed applicationTable reply a sessionID ctid c hc hchain with
        h1 | ⟨-, h1⟩
      · rw [h1]
        exact ih a c hc hchain
      · rw [h1]
        exact ih _ _ (applyReply_confidence _ a sessionID ctid)
          (applyReply_chainTyped _ a sessionID ctid hchain)

theorem processReply_keeps_higher_confidence_witness :
    confidence80 "application_confidence" = some (.uint 80) ∧
    (parseReply noApplications "CONFIDENCE: 20\r\nSTATE: 3\r\n").confidence = 20 ∧
    processReply noApplications "CONFIDENCE: 20\r\nSTATE: 3\r\n" confidence80 65536 100 =
      .ok ⟨3, 20, confidence80, [], []⟩ :=
  ⟨rfl, by decide,
    (processReply_keeps_higher_confidence noApplications 65536 100 confidence80 80 rfl).1
      "CONFIDENCE: 20\r\nSTATE: 3\r\n" (by decide)⟩

/-! ## Re-delivering a reply -/

/-- C9: processing a reply with `processReply` a second time, on the attachments the first
call left, leaves every attachment unchanged, writes no dictionary entry and reports no
event. -/
theorem processReply_idempotent (applicationTable : AppTable) (reply : String)
    (a : Attachments) (sessionID ctid : Nat) (p : Processed)
    (h : processReply applicationTable reply a sessionID ctid = .ok p) :
    processReply applicationTable reply p.attachments sessionID ctid =
      .ok ⟨p.state, p.confidence, p.attachments, [], []⟩ := by
  rcases processReply_ok_inv applicationTable reply a sessionID ctid p h with
    rfl | ⟨hchain, -, rfl⟩
  · exact h
  · exact processReply_settled applicationTable reply _ sessionID ctid
      (applyReply_confidence _ a sessionID ctid)
      (applyReply_chainTyped _ a sessionID ctid hchain)
      (applyReply_stored _ a sessionID ctid)

theorem processReply_idempotent_witness :
    ∃ p, processReply noApplications
        "APPLICATION: /FOO\r\nPROTOCHAIN: /IP/TCP/FOO\r\nCONFIDENCE: 80\r\nSTATE: 3\r\n"
        noAttachments 65536 100 = .ok p ∧
      p.dict.length = 3 ∧ p.events.length = 1 ∧
      processReply noApplications
        "APPLICATION: /FOO\r\nPROTOCHAIN: /IP/TCP/FOO\r\nCONFIDENCE: 80\r\nSTATE: 3\r\n"
        p.attachments 65536 100 = .ok ⟨p.state, p.confidence, p.attachments, [], []⟩ :=
  ⟨_, rfl, rfl, rfl,
    processReply_idempotent noApplications
      "APPLICATION: /FOO\r\nPROTOCHAIN: /IP/TCP/FOO\r\nCONFIDENCE: 80\r\nSTATE: 3\r\n"
      noAttachments 65536 100 _ rfl⟩

end Classify

namespace SessionTable

/-! ## The expiry sweep -/

theorem removeSessionEntry_table (st : Store) (finder : String) :
    (removeSessionEntry st finder).sessionTable =
      st.sessionTable.filter (fun e => e.1 != finder) := rfl

/-- The sweep of `session.go` over the entries `l`: what is left was there before, and
nothing is left under the key of an entry of `l` that was not fresh. -/
theorem sweep_foldl (now : Int) (l : List (String × SessionEntry)) (acc : Store) :
    (∀ e ∈ (l.foldl (fun acc e =>
        if now - e.2.LastActivityTime < 600 then acc else removeSessionEntry acc e.1)
        acc).sessionTable, e ∈ acc.sessionTable) ∧
    (∀ x ∈ l, ¬ now - x.2.LastActivityTime < 600 →
      ∀ e ∈ (l.foldl (fun acc e =>
        if now - e.2.LastActivityTime < 600 then acc else removeSessionEntry acc e.1)
        acc).sessionTable, e.1 ≠ x.1) := by
  induction l generalizing acc with
  | nil => exact ⟨fun e he => he, fun x hx => absurd hx (List.not_mem_nil x)⟩
  | cons y ys ih =>
    rw [List.foldl_cons]
    by_cases hy : now - y.2.LastActivityTime < 600
    · rw [if_pos hy]
      refine ⟨(ih acc).1, ?_⟩
      intro x hx hstale
      rcases List.mem_cons.mp hx with rfl | hx
      · exact absurd hy hstale
      · exact (ih acc).2 x hx hstale
    · rw [if_neg hy]
      have hsub : ∀ e ∈ (removeSessionEntry acc y.1).sessionTable,
          e ∈ acc.sessionTable ∧ e.1 ≠ y.1 := by
        intro e he
        rw [removeSessionEntry_table, List.mem_filter] at he
        exact ⟨he.1, by simpa using he.2⟩
      refine ⟨fun e he => (hsub e ((ih _).1 e he)).1, ?_⟩
      intro x hx hstale
      rcases List.mem_cons.mp hx with rfl | hx
      · exact fun e he => (hsub e ((ih _).1 e he)).2
      · exact (ih _).2 x hx hstale

/-- Every entry the sweep of `session.go` leaves was in the table and is fresh. -/
theorem cleanSessionTable_fresh (now : Int) (st : Store) :
    ∀ e ∈ (cleanSessionTable now st).sessionTable,
      e ∈ st.sessionTable ∧ now - e.2.LastActivityTime < 600 := by
  intro e he
  have h := sweep_foldl now st.sessionTable st
  have hin := h.1 e he
  refine ⟨hin, ?_⟩
  by_contra hstale
  exact h.2 e hin hstale e he rfl

end SessionTable

namespace Dispatch

/-! ## The expiry sweep -/

theorem cleanSessionTable_some (now : Int) (st : State) (key : Nat) (s : SessionEntry)
    (h : (cleanSessionTable now st).sessionTable key = some s) :
    st.sessionTable key = some s ∧ now - s.LastActivityTime < 600 := by
  unfold cleanSessionTable at h
  dsimp only at h
  cases hs : st.sessionTable key with
  | none => rw [hs] at h; cases h
  | some val =>
    rw [hs] at h
    dsimp only at h
    split_ifs at h with hf
    cases h
    exact ⟨rfl, hf⟩

/-- C13: immediately after `cleanSessionTable` runs at time `now`, every session remaining in
the session table satisfies `now - LastActivityTime <= 600`, and every session idle for more
than 600 seconds has been removed; this holds for the sweep of `dispatch.go` and for the
sweep of `session.go`. -/
theorem cleanSessionTable_idle_bound (now : Int) :
    (∀ (st : State) key s, (cleanSessionTable now st).sessionTable key = some s →
      now - s.LastActivityTime ≤ 600) ∧
    (∀ (st : State) key s, st.sessionTable key = some s → now - s.LastActivityTime > 600 →
      (cleanSessionTable now st).sessionTable key = none) ∧
    (∀ (st : SessionTable.Store), ∀ e ∈ (SessionTable.cleanSessionTable now st).sessionTable,
      now - e.2.LastActivityTime ≤ 600) ∧
    (∀ (st : SessionTable.Store), ∀ e ∈ st.sessionTable, now - e.2.LastActivityTime > 600 →
      e ∉ (SessionTable.cleanSessionTable now st).sessionTable) := by
  refine ⟨?_, ?_, ?_, ?_⟩
  · intro st key s h
    have := (cleanSessionTable_some now st key s h).2
    omega
  · intro st key s hs hidle
    cases hc : (cleanSessionTable now st).sessionTable key with
    | none => rfl
    | some s' =>
      obtain ⟨h1, h2⟩ := cleanSessionTable_some now st key s' hc
      rw [hs] at h1
      cases h1
      omega
  · intro st e he
    have := (SessionTable.cleanSessionTable_fresh now st e he).2
    omega
  · intro st e _ hidle he
    have := (SessionTable.cleanSessionTable_fresh now st e he).2
    omega

theorem cleanSessionTable_idle_bound_witness :
    sweepState.sessionTable 1 = some (idleSession 399) ∧
    (1000 : Int) - (idleSession 399).LastActivityTime > 600 ∧
    (cleanSessionTable 1000 sweepState).sessionTable 1 = none ∧
    (cleanSessionTable 1000 sweepState).sessionTable 2 = some (idleSession 990) ∧
    (1000 : Int) - (idleSession 990).LastActivityTime ≤ 600 ∧
    (SessionTable.cleanSessionTable 1000 SessionTable.sweepStore).sessionTable.map Prod.fst =
      ["2"] :=
  ⟨rfl, by decide,
    (cleanSessionTable_idle_bound 1000).2.1 sweepState 1 (idleSession 399) rfl (by decide),
    rfl,
    (cleanSessionTable_idle_bound 1000).1 sweepState 2 (idleSession 990) rfl,
    rfl⟩

end Dispatch

namespace SessionTable

/-! ## Inserting and removing a session -/

theorem lookup_cons_self (finder : String) (entry : SessionEntry)
    (table : List (String × SessionEntry)) :
    lookup ((finder, entry) :: table) finder = some entry := by
  simp [lookup]

theorem filter_absent (table : List (String × SessionEntry)) (finder : String)
    (h : ∀ e ∈ table, e.1 ≠ finder) : table.filter (fun e => e.1 != finder) = table := by
  rw [List.filter_eq_self]
  intro e he
  simpa using h e he

/-- C14, as stated, fails: with a session already stored under the key and `ssl_sni` already
in the dictionary for conntrack id 7, inserting a session under the key and removing it
leaves the table without the key and the dictionary without `ssl_sni`; and in `dispatch.go`
the session that was stored under conntrack id 7 is gone. -/
theorem insert_remove_loses_prior_entry :
    occupiedStore.sessionTable.map Prod.fst = ["7"] ∧
    occupiedStore.dict 7 "ssl_sni" = some (.str "example.com") ∧
    (removeSessionEntry (insertSessionEntry occupiedStore "7" (idleSession 7 20))
      "7").sessionTable.map Prod.fst = [] ∧
    (removeSessionEntry (insertSessionEntry occupiedStore "7" (idleSession 7 20))
      "7").dict 7 "ssl_sni" = none ∧
    (Dispatch.staleState false).sessionTable 7 = some (Dispatch.staleSession false) ∧
    (Dispatch.removeSessionEntry
      (Dispatch.insertSessionEntry (Dispatch.staleState false) 7 (Dispatch.idleSession 5))
      7).sessionTable 7 = none :=
  ⟨rfl, rfl, rfl, rfl, rfl, rfl⟩

/-- C14, amended: when the session table holds no session under the key and the dictionary
holds no entry for the conntrack id of the new entry, `insertSessionEntry` followed by
`removeSessionEntry` for the same key leaves the session table and the dictionary equal to
what they were before the insert; in `dispatch.go`, where only the table is touched, the
whole state is what it was when the table held no session for the conntrack id. -/
theorem insert_remove_restores (st : Store) (finder : String) (entry : SessionEntry)
    (dst : Dispatch.State) (ctid : Nat) (dentry : Dispatch.SessionEntry)
    (habsent : ∀ e ∈ st.sessionTable, e.1 ≠ finder)
    (hdict : ∀ key, st.dict entry.ConntrackID key = none)
    (hd : dst.sessionTable ctid = none) :
    (removeSessionEntry (insertSessionEntry st finder entry) finder).sessionTable =
        st.sessionTable ∧
    (removeSessionEntry (insertSessionEntry st finder entry) finder).dict = st.dict ∧
    Dispatch.removeSessionEntry (Dispatch.insertSessionEntry dst ctid dentry) ctid = dst := by
  have hlook : lookup st.sessionTable finder = none := by
    have : ∀ table : List (String × SessionEntry), (∀ e ∈ table, e.1 ≠ finder) →
        lookup table finder = none := by
      intro table
      induction table with
      | nil => intro _; rfl
      | cons e es ih =>
        intro h
        rw [lookup, if_neg (h e (List.mem_cons_self _ _))]
        exact ih fun x hx => h x (List.mem_cons_of_mem _ hx)
    exact this _ habsent
  have htab : (insertSessionEntry st finder entry).sessionTable =
      (finder, entry) :: st.sessionTable := by
    simp only [insertSessionEntry, hlook, Option.isSome_none, Bool.false_eq_true, if_false,
      filter_absent st.sessionTable finder habsent]
  refine ⟨?_, ?_, ?_⟩
  · rw [removeSessionEntry_table, htab, List.filter_cons]
    simp only [bne_self_eq_false, Bool.false_eq_true, if_false]
    exact filter_absent st.sessionTable finder habsent
  · have hl : lookup (insertSessionEntry st finder entry).sessionTable finder = some entry := by
      rw [htab]; exact lookup_cons_self _ _ _
    simp only [removeSessionEntry, hl]
    funext c k
    simp only [DeleteSession, insertSessionEntry, AddSessionEntry]
    by_cases hc : c = entry.ConntrackID
    · rw [if_pos hc, hc, hdict]
    · rw [if_neg hc, if_neg (fun h => hc h.1)]
  · cases dst with
    | mk nl cl ll table ct idx =>
      simp only [Dispatch.removeSessionEntry, Dispatch.insertSessionEntry]
      congr 1
      funext k
      by_cases hk : k = ctid
      · rw [if_pos hk, hk]; exact hd.symm
      · rw [if_neg hk, if_neg hk]

theorem insert_remove_restores_witness :
    (removeSessionEntry (insertSessionEntry emptyStore "7" (idleSession 7 10))
      "7").sessionTable.map Prod.fst = [] ∧
    (removeSessionEntry (insertSessionEntry emptyStore "7" (idleSession 7 10)) "7").dict =
      emptyStore.dict ∧
    Dispatch.removeSessionEntry
      (Dispatch.insertSessionEntry (Dispatch.emptyState 5) 7 (Dispatch.idleSession 5)) 7 =
      Dispatch.emptyState 5 :=
  ⟨rfl,
   (insert_remove_restores emptyStore "7" (idleSession 7 10) (Dispatch.emptyState 5) 7
      (Dispatch.idleSession 5) (fun _ he => absurd he (List.not_mem_nil _)) (fun _ => rfl)
      rfl).2.1,
   (insert_remove_restores emptyStore "7" (idleSession 7 10) (Dispatch.emptyState 5) 7
      (Dispatch.idleSession 5) (fun _ he => absurd he (List.not_mem_nil _)) (fun _ => rfl)
      rfl).2.2⟩

end SessionTable

namespace Dispatch

/-! ## The subscription snapshot of a session -/

theorem foldl_put_reverse (l acc : SubMap) (hnd : (l.map Prod.fst).Nodup)
    (hdis : ∀ e ∈ l, ∀ a ∈ acc, a.1 ≠ e.1) :
    l.foldl (fun subs e => subs.put e.1 e.2) acc = l.reverse ++ acc := by
  induction l generalizing acc with
  | nil => rfl
  | cons e es ih =>
    rw [List.map_cons, List.nodup_cons] at hnd
    have hput : acc.put e.1 e.2 = e :: acc := by
      unfold SubMap.put
      congr 1
      rw [List.filter_eq_self]
      intro a ha
      simpa using hdis e (List.mem_cons_self _ _) a ha
    rw [List.foldl_cons, hput, ih (e :: acc) hnd.2, List.reverse_cons, List.append_assoc]
    · rfl
    · intro x hx a ha
      rcases List.mem_cons.mp ha with rfl | ha
      · intro heq
        exact hnd.1 (heq ▸ List.mem_map_of_mem Prod.fst hx)
      · exact hdis x (List.mem_cons_of_mem _ hx) a ha

theorem foldl_applyResult_sublist (results : List NfqueueResult) (acc : SubMap × Nat) :
    (results.foldl applyResult acc).1.Sublist acc.1 := by
  induction results generalizing acc with
  | nil => exact List.Sublist.refl _
  | cons r rs ih =>
    rw [List.foldl_cons]
    refine (ih _).trans ?_
    unfold applyResult
    split_ifs
    · exact List.filter_sublist _
    · exact List.Sublist.refl _

theorem nfqueueWave_sublist (mess : TrafficMessage) (ctid : Nat) (newSession : Bool)
    (w : WaveState) : (nfqueueWave mess ctid newSession w).Subs.Sublist w.Subs :=
  foldl_applyResult_sublist _ (w.Subs, w.pmark)

theorem nfqueueWave_iterate_sublist (mess : TrafficMessage) (ctid : Nat) (newSession : Bool)
    (w : WaveState) (n : Nat) :
    ((nfqueueWave mess ctid newSession)^[n] w).Subs.Sublist w.Subs := by
  induction n generalizing w with
  | zero => exact List.Sublist.refl _
  | succ n ih =>
    rw [Function.iterate_succ_apply]
    exact (ih _).trans (nfqueueWave_sublist mess ctid newSession w)

theorem nfqueueWaves_sublist (mess : TrafficMessage) (ctid : Nat) (newSession : Bool)
    (subtotal fuel : Nat) (w w' : WaveState)
    (h : nfqueueWaves mess ctid newSession subtotal fuel w = some w') :
    w'.Subs.Sublist w.Subs := by
  induction fuel generalizing w with
  | zero =>
    simp only [nfqueueWaves] at h
    split at h
    · cases h; exact List.Sublist.refl _
    · cases h
  | succ n ih =>
    simp only [nfqueueWaves] at h
    split at h
    · cases h; exact List.Sublist.refl _
    · exact (ih _ h).trans (nfqueueWave_sublist mess ctid newSession w)

theorem insertSessionEntry_other (st : State) (ctid key : Nat) (e : SessionEntry)
    (h : key ≠ ctid) : (insertSessionEntry st ctid e).sessionTable key = st.sessionTable key :=
  if_neg h

/-- C15: `AttachNfqueueSubscriptions` gives the session the entries of the global nfqueue
registry as they stand (for a registry with distinct owner names, in reverse order of
visit); a later `InsertNfqueueSubscription` leaves the session table, and so the
subscription set of every existing session, unchanged; and a returning `nfqueueCallback` on
an existing session (one stored under `ctid` whose tuple is `Equal` to the packet's) leaves
under `ctid` that session with a subscription set that is a sublist of what it was, and
leaves every other session as it was. -/
theorem session_subscriptions_snapshot :
    (∀ (st : State) (session : SessionEntry), (st.nfqueueList.map Prod.fst).Nodup →
      (AttachNfqueueSubscriptions st session).Subs = st.nfqueueList.reverse ∧
      (AttachNfqueueSubscriptions st session).Subs.Perm st.nfqueueList) ∧
    (∀ (st : State) owner priority function,
      (InsertNfqueueSubscription st owner priority function).sessionTable =
        st.sessionTable) ∧
    (∀ fuel now (st : State) ctid packet packetLength pmark s ip r,
      st.sessionTable ctid = some s → packet.ipv4 = some ip →
      s.ClientSideTuple.Equal (nfqueueTuple ip packet) = true →
      nfqueueCallback fuel now st ctid packet packetLength pmark = .ok r →
      (∃ s', r.state.sessionTable ctid = some s' ∧ s'.Subs.Sublist s.Subs ∧
        s'.SessionID = s.SessionID) ∧
      ∀ key, key ≠ ctid → r.state.sessionTable key = st.sessionTable key) := by
  refine ⟨?_, fun _ _ _ _ => rfl, ?_⟩
  · intro st session hnd
    have h : (AttachNfqueueSubscriptions st session).Subs = st.nfqueueList.reverse := by
      unfold AttachNfqueueSubscriptions
      dsimp only
      rw [foldl_put_reverse st.nfqueueList [] hnd (fun _ _ a ha => absurd ha (List.not_mem_nil a)),
        List.append_nil]
    exact ⟨h, h ▸ List.reverse_perm _⟩
  · intro fuel now st ctid packet packetLength pmark s ip r hs hip heq hr
    obtain ⟨st1, session, newSession, w, hres, hw, rfl⟩ :=
      nfqueueCallback_ok_inv fuel now st ctid packet packetLength pmark ip r hip hr
    rw [nfqueueResolve_match now st ctid _ s hs heq] at hres
    cases hres
    refine ⟨⟨_, insertSessionEntry_same _ _ _,
      nfqueueWaves_sublist _ _ _ _ _ _ _ hw, rfl⟩, ?_⟩
    intro key hkey
    rw [insertSessionEntry_other _ _ _ _ hkey, insertSessionEntry_other _ _ _ _ hkey]

theorem session_subscriptions_snapshot_witness :
    (twoHandlers.nfqueueList.map Prod.fst).Nodup ∧
    (AttachNfqueueSubscriptions twoHandlers (idleSession 0)).Subs.map Prod.fst =
      ["one", "four"] ∧
    (AttachNfqueueSubscriptions twoHandlers (idleSession 0)).Subs =
      twoHandlers.nfqueueList.reverse ∧
    ∃ r s', nfqueueCallback 2 2 freshState 100 tcpPacket 60 0 = .ok r ∧
      r.state.sessionTable 100 = some s' ∧ s'.Subs.map Prod.fst = ["one"] ∧
      s'.Subs.Sublist freshSession.Subs :=
  ⟨by decide, rfl,
    (session_subscriptions_snapshot.1 twoHandlers (idleSession 0) (by decide)).1,
    _, _, rfl, rfl, rfl,
    by
      obtain ⟨s', h1, h2, -⟩ := (session_subscriptions_snapshot.2.2 2 2 freshState 100
        tcpPacket 60 0 freshSession ⟨6, [10, 0, 0, 1], [1, 2, 3, 4]⟩ _ rfl rfl rfl rfl).1
      cases h1
      exact h2⟩

end Dispatch

namespace Dispatch

/-! ## Packets the dispatcher cannot decode -/

/-- C19 fails on the code of `dispatch.go`: `nfqueueCallback` returns the mark unchanged
without a session or a handler call only when the IPv4 layer is missing. On `icmpPacket`,
which has an IPv4 layer but neither a TCP nor a UDP layer, it makes a session under the
conntrack id, calls both handlers and returns the mark 5 for the initial mark 0, whereas
`go_netfilter_callback` of `kernel.go` returns at its test of the two layers. -/
theorem nfqueueCallback_without_transport :
    icmpPacket.ipv4 = some ⟨1, [10, 0, 0, 1], [1, 2, 3, 4]⟩ ∧
    icmpPacket.tcp = none ∧ icmpPacket.udp = none ∧
    twoHandlers.sessionTable 9 = none ∧
    (∃ r s, nfqueueCallback 2 0 twoHandlers 9 icmpPacket 84 0 = .ok r ∧ r.mark = 5 ∧
      r.calls = [⟨"one", 1, false⟩, ⟨"four", 4, true⟩] ∧
      r.state.sessionTable 9 = some s ∧
      s.ClientSideTuple = ⟨1, [10, 0, 0, 1], 0, [1, 2, 3, 4], 0⟩) ∧
    (∀ (rest : Tuple → Nat → State → Nat × State) (st : State),
      Kernel.go_netfilter_callback rest icmpPacket 0 st = (0, st)) ∧
    (∀ fuel now st ctid tcp udp app packetLength pmark,
      nfqueueCallback fuel now st ctid ⟨none, tcp, udp, app⟩ packetLength pmark =
        .ok ⟨pmark, st, []⟩) :=
  ⟨rfl, rfl, rfl, rfl, ⟨_, _, rfl, rfl, rfl, rfl, rfl⟩, fun _ _ => rfl,
    fun _ _ _ _ _ _ _ _ _ => rfl⟩

end Dispatch

namespace Sni

/-! ## The release decision of the SNI handler -/

theorem extensionLoop_release (buffer : List Nat) :
    ∀ fuel current r, extensionLoop buffer fuel current = .ok r → r.1 = true := by
  intro fuel
  induction fuel with
  | zero =>
    intro current r h
    rw [extensionLoop] at h
    split_ifs at h
    cases h
    rfl
  | succ fuel ih =>
    intro current r h
    rw [extensionLoop] at h
    split_ifs at h with hlt
    · rcases readPair_cases buffer current with ⟨t, ht⟩ | ⟨msg, ht⟩
      · rcases readPair_cases buffer (current + 2) with ⟨l, hl⟩ | ⟨msg, hl⟩
        · simp only [ht, hl, bind_ok] at h
          split_ifs at h with htyp
          · exact ih _ _ h
          · rcases readByte_cases buffer (current + 2 + 2 + 2) with ⟨nt, hnt⟩ | ⟨msg, hnt⟩
            · simp only [hnt, bind_ok] at h
              split_ifs at h with hname
              · rcases readPair_cases buffer (current + 2 + 2 + 2 + 1) with
                  ⟨nl, hnl⟩ | ⟨msg, hnl⟩
                · simp only [hnl, bind_ok] at h
                  rcases slice_cases buffer (current + 2 + 2 + 2 + 1 + 2)
                    (current + 2 + 2 + 2 + 1 + 2 + nl) with ⟨xs, hxs⟩ | ⟨msg, hxs⟩
                  · simp only [hxs, bind_ok] at h
                    cases h
                    rfl
                  · simp only [hxs, bind_panic] at h
                    cases h
                · simp only [hnl, bind_panic] at h
                  cases h
              · exact ih _ _ h
            · simp only [hnt, bind_panic] at h
              cases h
        · simp only [ht, hl, bind_ok, bind_panic] at h
          cases h
      · simp only [ht, bind_panic] at h
        cases h
    · cases h
      rfl

theorem extractBody_release (buffer : List Nat) (r : Bool × List Nat)
    (h : extractBody buffer = .ok r) : r.1 = true := by
  unfold extractBody at h
  rcases readByte_cases buffer 43 with ⟨sl, hsl⟩ | ⟨msg, hsl⟩
  · simp only [hsl, bind_ok] at h
    split_ifs at h
    · cases h; rfl
    · rcases readPair_cases buffer (43 + 1 + sl) with ⟨cl, hcl⟩ | ⟨msg, hcl⟩
      · simp only [hcl, bind_ok] at h
        split_ifs at h
        · cases h; rfl
        · rcases readByte_cases buffer (43 + 1 + sl + 2 + cl) with ⟨ml, hml⟩ | ⟨msg, hml⟩
          · simp only [hml, bind_ok] at h
            split_ifs at h
            · cases h; rfl
            · rcases readPair_cases buffer (43 + 1 + sl + 2 + cl + 1 + ml) with
                ⟨el, hel⟩ | ⟨msg, hel⟩
              · simp only [hel, bind_ok] at h
                split_ifs at h
                · cases h; rfl
                · exact extensionLoop_release buffer _ _ r h
              · simp only [hel, bind_panic] at h
                cases h
          · simp only [hml, bind_panic] at h
            cases h
      · simp only [hcl, bind_panic] at h
        cases h
  · simp only [hsl, bind_panic] at h
    cases h

/-- When `extractSNIhostname` returns, its release flag says whether the header checks
passed. -/
theorem extractSNIhostname_release (buffer : List Nat) (release : Bool)
    (hostname : List Nat) (h : extractSNIhostname buffer = .ok (release, hostname)) :
    release = true ↔ validHeader buffer := by
  by_cases hv : validHeader buffer
  · rw [extractSNIhostname_valid buffer hv] at h
    exact ⟨fun _ => hv, fun _ => extractBody_release buffer _ h⟩
  · rw [extractSNIhostname_invalid buffer hv] at h
    cases h
    exact ⟨fun h => (by cases h), fun h => absurd h hv⟩

end Sni

namespace Sni

theorem handler_no_tcp (mess : NfqueueMessage) (ctid : Nat) (newSession : Bool)
    (h : mess.TCPLayer = none) :
    PluginNfqueueHandler mess ctid newSession = .ok ⟨⟨"", 0, true⟩, [], []⟩ := by
  simp [PluginNfqueueHandler, h]

theorem handler_other_port (mess : NfqueueMessage) (ctid : Nat) (newSession : Bool)
    (h1 : mess.TCPLayer ≠ none)
    (h2 : mess.MsgTuple.ServerPort ≠ 443 ∧ mess.MsgTuple.ClientPort ≠ 443) :
    PluginNfqueueHandler mess ctid newSession = .ok ⟨⟨"", 0, true⟩, [], []⟩ := by
  have h1' : mess.TCPLayer.isNone = false := by
    cases h : mess.TCPLayer with
    | none => exact absurd h h1
    | some _ => rfl
  simp [PluginNfqueueHandler, h1', h2.1, h2.2]

theorem handler_inspects (mess : NfqueueMessage) (ctid : Nat) (newSession : Bool)
    (h1 : mess.TCPLayer ≠ none)
    (h2 : ¬ (mess.MsgTuple.ServerPort ≠ 443 ∧ mess.MsgTuple.ClientPort ≠ 443)) :
    PluginNfqueueHandler mess ctid newSession =
      match extractSNIhostname mess.Payload with
      | .ok r =>
        if r.2 ≠ [] then
          .ok ⟨⟨"", 0, true⟩, [⟨ctid, "ssl_sni", r.2⟩],
            [⟨"session_sni", "sessions", 2, mess.Session.SessionID, r.2⟩]⟩
        else
          .ok ⟨⟨"", 0, if mess.Session.PacketCount ≥ maxPacketCount then true else r.1⟩,
            [], []⟩
      | .panic msg => .panic msg
      | .outOfFuel => .outOfFuel := by
  have h1' : mess.TCPLayer.isNone = false := by
    cases h : mess.TCPLayer with
    | none => exact absurd h h1
    | some _ => rfl
  have h2' : ¬ ((mess.MsgTuple.ServerPort != 443 && mess.MsgTuple.ClientPort != 443) = true) := by
    simpa using h2
  unfold PluginNfqueueHandler
  simp only [h1', Bool.false_eq_true, if_false, h2']
  cases hex : extractSNIhostname mess.Payload with
  | panic msg => rfl
  | outOfFuel => rfl
  | ok r =>
    simp only [bind_ok]
    by_cases hne : r.2 = []
    · simp [hne, pure_eq_ok]
    · simp [hne, pure_eq_ok]

/-- C20: whenever the SNI plugin's `PluginNfqueueHandler` returns a result, the result has
`SessionRelease = true` if and only if the packet has no TCP layer, or neither tuple port is
443, or a non-empty hostname was extracted, or the payload passed the ClientHello header
checks, or the session's packet count is at least 5; and every dictionary entry it writes is
`ssl_sni`, for a TCP packet with a port equal to 443, with a non-empty hostname extracted
from the payload. The handler returns a result unless `extractSNIhostname` panics on the
payload of a TCP packet with a port equal to 443. -/
theorem sni_handler_release_iff (mess : NfqueueMessage) (ctid : Nat) (newSession : Bool) :
    (∀ r, PluginNfqueueHandler mess ctid newSession = .ok r →
      (r.result.SessionRelease = true ↔
        (mess.TCPLayer = none ∨
         (mess.MsgTuple.ServerPort ≠ 443 ∧ mess.MsgTuple.ClientPort ≠ 443) ∨
         (∃ release hostname,
           extractSNIhostname mess.Payload = .ok (release, hostname) ∧ hostname ≠ []) ∨
         validHeader mess.Payload ∨
         mess.Session.PacketCount ≥ 5)) ∧
      (∀ e ∈ r.dict, e.key = "ssl_sni" ∧ e.ctid = ctid ∧ mess.TCPLayer ≠ none ∧
        (mess.MsgTuple.ServerPort = 443 ∨ mess.MsgTuple.ClientPort = 443) ∧
        e.value ≠ [] ∧ ∃ release, extractSNIhostname mess.Payload = .ok (release, e.value))) ∧
    (∀ msg, PluginNfqueueHandler mess ctid newSession = .panic msg ↔
      (mess.TCPLayer ≠ none ∧
       (mess.MsgTuple.ServerPort = 443 ∨ mess.MsgTuple.ClientPort = 443) ∧
       extractSNIhostname mess.Payload = .panic msg)) ∧
    PluginNfqueueHandler mess ctid newSession ≠ .outOfFuel := by
  by_cases h1 : mess.TCPLayer = none
  · rw [handler_no_tcp mess ctid newSession h1]
    refine ⟨?_, ?_, fun h => Outcome.noConfusion h⟩
    · intro r hr
      cases hr
      exact ⟨⟨fun _ => Or.inl h1, fun _ => rfl⟩, fun e he => absurd he (List.not_mem_nil e)⟩
    · intro msg
      exact ⟨fun h => Outcome.noConfusion h, fun h => absurd h1 h.1⟩
  · by_cases h2 : mess.MsgTuple.ServerPort ≠ 443 ∧ mess.MsgTuple.ClientPort ≠ 443
    · rw [handler_other_port mess ctid newSession h1 h2]
      refine ⟨?_, ?_, fun h => Outcome.noConfusion h⟩
      · intro r hr
        cases hr
        exact ⟨⟨fun _ => Or.inr (Or.inl h2), fun _ => rfl⟩,
          fun e he => absurd he (List.not_mem_nil e)⟩
      · intro msg
        refine ⟨fun h => Outcome.noConfusion h, fun h => ?_⟩
        rcases h.2.1 with hp | hp
        · exact absurd hp h2.1
        · exact absurd hp h2.2
    · have hport : mess.MsgTuple.ServerPort = 443 ∨ mess.MsgTuple.ClientPort = 443 := by
        by_contra hc
        exact h2 ⟨fun h => hc (Or.inl h), fun h => hc (Or.inr h)⟩
      rw [handler_inspects mess ctid newSession h1 h2]
      cases hex : extractSNIhostname mess.Payload with
      | outOfFuel => exact absurd hex (extractSNIhostname_ne_outOfFuel mess.Payload)
      | panic m =>
        refine ⟨fun r hr => Outcome.noConfusion hr, ?_, fun h => Outcome.noConfusion h⟩
        intro msg
        constructor
        · intro h
          cases h
          exact ⟨h1, hport, rfl⟩
        · intro h
          rw [h.2.2]
      | ok a =>
        obtain ⟨release, hostname⟩ := a
        have hrel := extractSNIhostname_release mess.Payload release hostname hex
        refine ⟨?_, ?_, ?_⟩
        · intro r hr
          dsimp only at hr
          by_cases hne : hostname = []
          · rw [if_neg (not_not.mpr hne)] at hr
            cases hr
            refine ⟨?_, fun e he => absurd he (List.not_mem_nil e)⟩
            dsimp only
            constructor
            · intro hr
              by_cases hcount : mess.Session.PacketCount ≥ maxPacketCount
              · exact Or.inr (Or.inr (Or.inr (Or.inr hcount)))
              · rw [if_neg hcount] at hr
                exact Or.inr (Or.inr (Or.inr (Or.inl (hrel.mp hr))))
            · rintro (h | h | ⟨rel', host', h, hne'⟩ | h | h)
              · exact absurd h h1
              · exact absurd h h2
              · cases h
                exact absurd hne hne'
              · by_cases hcount : mess.Session.PacketCount ≥ maxPacketCount
                · rw [if_pos hcount]
                · rw [if_neg hcount]
                  exact hrel.mpr h
              · exact if_pos (show mess.Session.PacketCount ≥ maxPacketCount from h)
          · rw [if_pos hne] at hr
            cases hr
            refine ⟨⟨fun _ => Or.inr (Or.inr (Or.inl ⟨release, hostname, rfl, hne⟩)),
              fun _ => rfl⟩, ?_⟩
            intro e he
            rw [List.mem_singleton] at he
            subst he
            exact ⟨rfl, rfl, h1, hport, hne, release, rfl⟩
        · intro msg
          constructor
          · intro h
            dsimp only at h
            split_ifs at h
          · intro h
            cases h.2.2
        · dsimp only
          split_ifs <;> exact fun h => Outcome.noConfusion h

theorem sni_handler_release_iff_witness :
    PluginNfqueueHandler ⟨⟨65536, 1⟩, ⟨6, [10, 0, 0, 1], 5000, [1, 2, 3, 4], 443⟩,
        some ⟨5000, 443⟩, helloAbc⟩ 100 false =
      .ok ⟨⟨"", 0, true⟩, [⟨100, "ssl_sni", [97, 98, 99]⟩],
        [⟨"session_sni", "sessions", 2, 65536, [97, 98, 99]⟩]⟩ ∧
    (∃ release hostname, extractSNIhostname helloAbc = .ok (release, hostname) ∧
      hostname ≠ []) ∧
    PluginNfqueueHandler ⟨⟨65536, 1⟩, ⟨6, [10, 0, 0, 1], 5000, [1, 2, 3, 4], 443⟩,
        some ⟨5000, 443⟩, []⟩ 100 false = .ok ⟨⟨"", 0, false⟩, [], []⟩ ∧
    ¬ (5 ≤ 1 ∨ validHeader []) :=
  ⟨rfl,
   by
    have h := ((sni_handler_release_iff ⟨⟨65536, 1⟩,
      ⟨6, [10, 0, 0, 1], 5000, [1, 2, 3, 4], 443⟩, some ⟨5000, 443⟩, helloAbc⟩ 100 false).1
      _ rfl).2 ⟨100, "ssl_sni", [97, 98, 99]⟩ (List.mem_singleton.mpr rfl)
    exact ⟨_, _, h.2.2.2.2.2.choose_spec, h.2.2.2.2.1⟩,
   rfl,
   by
    have h := ((sni_handler_release_iff ⟨⟨65536, 1⟩,
      ⟨6, [10, 0, 0, 1], 5000, [1, 2, 3, 4], 443⟩, some ⟨5000, 443⟩, []⟩ 100 false).1
      _ rfl).1
    intro hc
    have : (false = true) := h.mpr (by
      rcases hc with hc | hc
      · exact Or.inr (Or.inr (Or.inr (Or.inr hc)))
      · exact Or.inr (Or.inr (Or.inr (Or.inl hc))))
    cases this⟩

end Sni

namespace Classify

/-! ## The release decision of the classifier -/

theorem utf8ByteSize_go_pos (c : Char) (cs : List Char) :
    0 < String.utf8ByteSize.go (c :: cs) := by
  have := c.utf8Size_pos
  show 0 < String.utf8ByteSize.go cs + c.utf8Size
  omega

theorem goLen_eq_zero_iff (s : String) : goLen s = 0 ↔ s = "" := by
  cases s with
  | mk data =>
    cases data with
    | nil => exact ⟨fun _ => rfl, fun _ => rfl⟩
    | cons c cs =>
      constructor
      · intro h
        have := utf8ByteSize_go_pos c cs
        have h' : String.utf8ByteSize.go (c :: cs) = 0 := h
        omega
      · intro h
        exact absurd (congrArg String.data h) (List.cons_ne_nil c cs)

theorem processReply_state (applicationTable : AppTable) (reply : String) (a : Attachments)
    (sessionID ctid : Nat) (p : Processed)
    (h : processReply applicationTable reply a sessionID ctid = .ok p) :
    p.state = (parseReply applicationTable reply).state := by
  rcases processReply_ok_inv applicationTable reply a sessionID ctid p h with
    rfl | ⟨-, -, rfl⟩ <;> rfl

theorem processReply_ne_outOfFuel (applicationTable : AppTable) (reply : String)
    (a : Attachments) (sessionID ctid : Nat) :
    processReply applicationTable reply a sessionID ctid ≠ .outOfFuel := by
  unfold processReply
  intro h
  cases hc : a "application_confidence" with
  | none =>
    rw [hc] at h
    cases hp : a "application_protochain" with
    | none => rw [hp] at h; cases h
    | some v =>
      rw [hp] at h
      cases v <;> dsimp only at h
      · split_ifs at h
      · cases h
      · cases h
  | some v =>
    rw [hc] at h
    cases v with
    | uint c =>
      dsimp only at h
      split_ifs at h
      cases hp : a "application_protochain" with
      | none => rw [hp] at h; cases h
      | some v =>
        rw [hp] at h
        cases v <;> dsimp only at h
        · split_ifs at h
        · cases h
        · cases h
    | str t => cases h
    | other t => cases h

/-- With both typed attachments well-typed `processReply` returns. -/
theorem processReply_returns (applicationTable : AppTable) (reply : String) (a : Attachments)
    (sessionID ctid : Nat) (hconf : confidenceTyped a) (hchain : chainTyped a) :
    ∃ p, processReply applicationTable reply a sessionID ctid = .ok p := by
  rcases hconf with hn | ⟨c, hc⟩
  · unfold processReply
    simp only [hn]
    rcases hchain with hp | ⟨s, hp⟩
    · simp only [hp]
      exact ⟨_, rfl⟩
    · simp only [hp]
      split_ifs <;> exact ⟨_, rfl⟩
  · rcases processReply_typed applicationTable reply a sessionID ctid c hc hchain with h | h
    · exact ⟨_, h⟩
    · exact ⟨_, h.2⟩

/-- The handler on a message that passes its three checks and gets a non-empty reply. -/
theorem handler_classifies (applicationTable : AppTable)
    (daemonClassifyPacket : String → List Nat → String) (mess : NfqueueMessage)
    (ctid : Nat) (newSession : Bool) (session : Session)
    (hs : mess.Session = some session) (hid : session.SessionID ≠ 0)
    (hip : mess.IP4Layer ≠ none ∨ mess.IP6Layer ≠ none)
    (hreply : classifyTraffic daemonClassifyPacket session mess ≠ "") :
    PluginNfqueueHandler applicationTable daemonClassifyPacket mess ctid newSession =
      match processReply applicationTable (classifyTraffic daemonClassifyPacket session mess)
          session.attachments session.SessionID ctid with
      | .panic msg => .panic msg
      | .outOfFuel => .outOfFuel
      | .ok p =>
        if p.state = navlStateClassified ∨ p.state = navlStateTerminated ∨
            session.PacketCount > maxPacketCount ∨ session.ByteCount > maxTrafficSize then
          .ok ⟨⟨"", 0, true⟩, some p.attachments, p.dict, p.events⟩
        else
          .ok ⟨⟨"", 0, false⟩, some p.attachments, p.dict, p.events⟩ := by
  have hlayers : ¬ ((mess.IP4Layer.isNone && mess.IP6Layer.isNone) = true) := by
    intro h
    rw [Bool.and_eq_true, Option.isNone_iff_eq_none, Option.isNone_iff_eq_none] at h
    rcases hip with h4 | h6
    · exact h4 h.1
    · exact h6 h.2
  have hlen : ¬ goLen (classifyTraffic daemonClassifyPacket session mess) = 0 :=
    fun h => hreply ((goLen_eq_zero_iff _).mp h)
  unfold PluginNfqueueHandler
  rw [hs]
  simp only [hid, if_false, hlayers, hlen, Bool.false_eq_true]

/-- C18: for a packet with a valid session (non-zero session id), an IPv4 or IPv6 layer and a
non-empty daemon reply, whenever the classifier's `PluginNfqueueHandler` returns a result,
the result has `SessionRelease = true` if and only if the parsed reply state is 0
(terminated) or 3 (classified), or the session's packet count is greater than 64, or its
byte count is greater than `0x10000`; and it does return a result when the attachments
`application_confidence` and `application_protochain` have the types the plugin gives
them. -/
theorem classify_release_iff (applicationTable : AppTable)
    (daemonClassifyPacket : String → List Nat → String) (mess : NfqueueMessage)
    (ctid : Nat) (newSession : Bool) (session : Session)
    (hs : mess.Session = some session) (hid : session.SessionID ≠ 0)
    (hip : mess.IP4Layer ≠ none ∨ mess.IP6Layer ≠ none)
    (hreply : classifyTraffic daemonClassifyPacket session mess ≠ "") :
    (∀ r, PluginNfqueueHandler applicationTable daemonClassifyPacket mess ctid newSession =
        .ok r →
      (r.result.SessionRelease = true ↔
        ((parseReply applicationTable
            (classifyTraffic daemonClassifyPacket session mess)).state = 0 ∨
         (parseReply applicationTable
            (classifyTraffic daemonClassifyPacket session mess)).state = 3 ∨
         session.PacketCount > 64 ∨ session.ByteCount > 0x10000))) ∧
    (confidenceTyped session.attachments → chainTyped session.attachments →
      ∃ r, PluginNfqueueHandler applicationTable daemonClassifyPacket mess ctid newSession =
        .ok r) ∧
    PluginNfqueueHandler applicationTable daemonClassifyPacket mess ctid newSession ≠
      .outOfFuel := by
  rw [handler_classifies applicationTable daemonClassifyPacket mess ctid newSession session hs
    hid hip hreply]
  refine ⟨?_, ?_, ?_⟩
  · intro r hr
    cases hp : processReply applicationTable
        (classifyTraffic daemonClassifyPacket session mess) session.attachments
        session.SessionID ctid with
    | panic msg => rw [hp] at hr; cases hr
    | outOfFuel => rw [hp] at hr; cases hr
    | ok p =>
      rw [hp] at hr
      dsimp only at hr
      have hst := processReply_state _ _ _ _ _ p hp
      rw [← hst]
      simp only [navlStateClassified, navlStateTerminated, maxPacketCount, maxTrafficSize]
        at hr
      split_ifs at hr with hcond
      · cases hr
        refine ⟨fun _ => ?_, fun _ => rfl⟩
        rcases hcond with h | h | h | h
        · exact Or.inr (Or.inl h)
        · exact Or.inl h
        · exact Or.inr (Or.inr (Or.inl h))
        · exact Or.inr (Or.inr (Or.inr h))
      · cases hr
        refine ⟨fun h => (by cases h), fun h => ?_⟩
        exfalso
        apply hcond
        rcases h with h | h | h | h
        · exact Or.inr (Or.inl h)
        · exact Or.inl h
        · exact Or.inr (Or.inr (Or.inl h))
        · exact Or.inr (Or.inr (Or.inr h))
  · intro hconf hchain
    obtain ⟨p, hp⟩ := processReply_returns applicationTable
      (classifyTraffic daemonClassifyPacket session mess) session.attachments
      session.SessionID ctid hconf hchain
    rw [hp]
    dsimp only
    split_ifs <;> exact ⟨_, rfl⟩
  · cases hp : processReply applicationTable
        (classifyTraffic daemonClassifyPacket session mess) session.attachments
        session.SessionID ctid with
    | panic msg => exact fun h => Outcome.noConfusion h
    | outOfFuel => exact absurd hp (processReply_ne_outOfFuel _ _ _ _ _)
    | ok p =>
      dsimp only
      split_ifs <;> exact fun h => Outcome.noConfusion h

theorem classify_release_iff_witness :
    (∃ r, PluginNfqueueHandler noApplications (fun _ _ => "STATE: 1\r\n") firstMessage 100
        true = .ok r ∧ r.result.SessionRelease = false) ∧
    (parseReply noApplications "STATE: 1\r\n").state = 1 ∧
    (∃ r, PluginNfqueueHandler noApplications (fun _ _ => "STATE: 3\r\n") firstMessage 100
        true = .ok r ∧ r.result.SessionRelease = true) ∧
    (parseReply noApplications "STATE: 3\r\n").state = 3 :=
  ⟨⟨_, rfl, rfl⟩, by decide,
   ⟨_, rfl,
    ((classify_release_iff noApplications (fun _ _ => "STATE: 3\r\n") firstMessage 100 true
      firstPacket rfl (by decide) (Or.inl (by decide)) (by decide)).1 _ rfl).mpr
      (Or.inr (Or.inl (by decide)))⟩,
   by decide⟩

end Classify

namespace Classify

/-! ## The first reply of a session -/

theorem emptyDetail_str (v : String) : emptyDetail (.str v) = true ↔ v = "" := by
  unfold emptyDetail
  rw [← goLen_eq_zero_iff]
  simp

theorem updateClassifyDetail_fresh (a : Attachments) (ctid : Nat) (k : String) (v : Value)
    (he : emptyDetail v = false) (hk : a k = none) :
    updateClassifyDetail a ctid k v = ⟨a.put k v, [⟨ctid, k, v⟩], true⟩ := by
  simp [updateClassifyDetail, he, hk]

theorem put_other (a : Attachments) (k k' : String) (v : Value) (h : k' ≠ k) :
    (a.put k v) k' = a k' := if_neg h

/-- On attachments holding none of the names, the updates write every non-empty value and
list its name as changed, in order. -/
theorem foldl_updateStep_fresh (ctid : Nat) (pairs : List (String × Value))
    (hnd : (pairs.map Prod.fst).Nodup)
    (acc : Attachments × List DictEntry × List String)
    (habs : ∀ p ∈ pairs, acc.1 p.1 = none) :
    (pairs.foldl (updateStep ctid) acc).2.2 =
        acc.2.2 ++ (pairs.filter (fun p => !emptyDetail p.2)).map Prod.fst ∧
    (pairs.foldl (updateStep ctid) acc).2.1 =
        acc.2.1 ++ (pairs.filter (fun p => !emptyDetail p.2)).map
          (fun p => ⟨ctid, p.1, p.2⟩) := by
  induction pairs generalizing acc with
  | nil => simp
  | cons q qs ih =>
    rw [List.map_cons, List.nodup_cons] at hnd
    rw [List.foldl_cons]
    cases he : emptyDetail q.2 with
    | true =>
      rw [updateStep_noop ctid acc q (Or.inl he)]
      have := ih hnd.2 acc fun p hp => habs p (List.mem_cons_of_mem _ hp)
      simpa [List.filter_cons, he] using this
    | false =>
      have hk := habs q (List.mem_cons_self _ _)
      have hstep : updateStep ctid acc q =
          (acc.1.put q.1 q.2, acc.2.1 ++ [⟨ctid, q.1, q.2⟩], acc.2.2 ++ [q.1]) := by
        simp [updateStep, updateClassifyDetail_fresh acc.1 ctid q.1 q.2 he hk]
      rw [hstep]
      have := ih hnd.2 (acc.1.put q.1 q.2, acc.2.1 ++ [⟨ctid, q.1, q.2⟩], acc.2.2 ++ [q.1])
        (fun p hp => by
          have hne : p.1 ≠ q.1 := fun h => hnd.1 (h ▸ List.mem_map_of_mem Prod.fst hp)
          show (acc.1.put q.1 q.2) p.1 = none
          rw [put_other _ _ _ _ hne]
          exact habs p (List.mem_cons_of_mem _ hp))
      simpa [List.filter_cons, he] using this

theorem fooReply_lines :
    (stringsSplit fooReply "\r\n").foldl parseLine ⟨"", "", "", "", 0, "", 0⟩ =
      ⟨"/FOO", "", "/IP/TCP/FOO", "", 80, "", 3⟩ := by
  decide

theorem parseReply_fooReply (applicationTable : AppTable) :
    parseReply applicationTable fooReply =
      ⟨"/FOO", (tableName applicationTable "/FOO").1, "/IP/TCP/FOO", "", 80,
        (tableName applicationTable "/FOO").2, 3⟩ := by
  unfold parseReply tableName
  simp only [fooReply_lines]
  cases applicationTable "/FOO" <;> rfl

/-- C16, as stated, fails: from a session with nothing attached, and with an application
table that knows `/FOO`, the reply of the scenario leaves `application_confidence = 80` and
reports one `session_classify` event, but its modified columns are five, without
`application_detail` (with a table that does not know `/FOO` they are three). -/
theorem first_reply_event_lacks_detail :
    (∃ p, processReply fooApplications fooReply noAttachments 65536 100 = .ok p ∧
      p.attachments "application_confidence" = some (.uint 80) ∧
      p.attachments "application_detail" = none ∧
      p.events = [⟨"session_classify", "sessions", 2, 65536,
        [("application_id", some (.str "/FOO")),
         ("application_name", some (.str "Foo")),
         ("application_protochain", some (.str "/IP/TCP/FOO")),
         ("application_confidence", some (.uint 80)),
         ("application_category", some (.str "Web"))]⟩]) ∧
    (∃ p, processReply noApplications fooReply noAttachments 65536 100 = .ok p ∧
      p.events = [⟨"session_classify", "sessions", 2, 65536,
        [("application_id", some (.str "/FOO")),
         ("application_protochain", some (.str "/IP/TCP/FOO")),
         ("application_confidence", some (.uint 80))]⟩]) :=
  ⟨⟨_, rfl, by decide, by decide, by decide⟩, ⟨_, rfl, by decide⟩⟩

/-- C16, amended: starting from a session with no `application_*` attachments, processing
the reply of the scenario with `processReply` leaves `application_confidence = 80` and
reports exactly one `session_classify` event, whose modified columns are `application_id`,
`application_protochain` and `application_confidence`, with `application_name` and
`application_category` when the application table gives `/FOO` a non-empty name and
category, and never `application_detail`, for which the reply has no value. -/
theorem first_reply_event (applicationTable : AppTable) (a : Attachments)
    (sessionID ctid : Nat) (ha : noApplicationAttachments a) :
    ∃ p cols, processReply applicationTable fooReply a sessionID ctid = .ok p ∧
      p.attachments "application_confidence" = some (.uint 80) ∧
      p.events = [⟨"session_classify", "sessions", 2, sessionID, cols⟩] ∧
      cols.map Prod.fst =
        ["application_id"] ++
        (if (tableName applicationTable "/FOO").1 = "" then [] else ["application_name"]) ++
        ["application_protochain", "application_confidence"] ++
        (if (tableName applicationTable "/FOO").2 = "" then [] else ["application_category"]) ∧
      "application_detail" ∉ cols.map Prod.fst := by
  obtain ⟨a1, a2, a3, a4, a5, a6⟩ := ha
  have hproc : processReply applicationTable fooReply a sessionID ctid =
      .ok (applyReply (parseReply applicationTable fooReply) a sessionID ctid) := by
    unfold processReply
    simp only [a5, a3]
  have hfresh := foldl_updateStep_fresh ctid (replyPairs (parseReply applicationTable fooReply))
    (replyPairs_nodup _) (a, [], []) (by
      intro p hp
      simp only [replyPairs, List.mem_cons, List.mem_singleton, List.not_mem_nil, or_false]
        at hp
      rcases hp with rfl | rfl | rfl | rfl | rfl | rfl <;> assumption)
  have hchanged : ((replyPairs (parseReply applicationTable fooReply)).foldl (updateStep ctid)
      (a, [], [])).2.2 =
        ["application_id"] ++
        (if (tableName applicationTable "/FOO").1 = "" then [] else ["application_name"]) ++
        ["application_protochain", "application_confidence"] ++
        (if (tableName applicationTable "/FOO").2 = "" then [] else ["application_category"]) := by
    rw [hfresh.1, parseReply_fooReply]
    have e1 : emptyDetail (.str "/FOO") = false := by decide
    have e2 : emptyDetail (.str "/IP/TCP/FOO") = false := by decide
    have e3 : emptyDetail (.str "") = true := by decide
    have e4 : emptyDetail (.uint 80) = false := rfl
    simp only [replyPairs, List.filter_cons, e1, e2, e3, e4, List.nil_append]
    by_cases hn : (tableName applicationTable "/FOO").1 = "" <;>
      by_cases hc : (tableName applicationTable "/FOO").2 = ""
    · simp [hn, hc, (emptyDetail_str _).mpr rfl]
    · have hc' : emptyDetail (.str (tableName applicationTable "/FOO").2) = false := by
        rw [Bool.eq_false_iff, Ne, emptyDetail_str]; exact hc
      simp [hn, hc, hc', (emptyDetail_str _).mpr rfl]
    · have hn' : emptyDetail (.str (tableName applicationTable "/FOO").1) = false := by
        rw [Bool.eq_false_iff, Ne, emptyDetail_str]; exact hn
      simp [hn, hc, hn', (emptyDetail_str _).mpr rfl]
    · have hc' : emptyDetail (.str (tableName applicationTable "/FOO").2) = false := by
        rw [Bool.eq_false_iff, Ne, emptyDetail_str]; exact hc
      have hn' : emptyDetail (.str (tableName applicationTable "/FOO").1) = false := by
        rw [Bool.eq_false_iff, Ne, emptyDetail_str]; exact hn
      simp [hn, hc, hn', hc']
  have hpos : ((replyPairs (parseReply applicationTable fooReply)).foldl (updateStep ctid)
      (a, [], [])).2.2.length > 0 := by
    rw [hchanged]
    simp
  refine ⟨_, (((replyPairs (parseReply applicationTable fooReply)).foldl (updateStep ctid)
      (a, [], [])).2.2).map (fun v => (v, ((replyPairs (parseReply applicationTable
        fooReply)).foldl (updateStep ctid) (a, [], [])).1 v)), hproc, ?_, ?_, ?_, ?_⟩
  · rw [applyReply_confidence, parseReply_fooReply]
  · show (if _ then logEvent _ _ _ else []) = _
    rw [if_pos hpos, logEvent, if_neg (by omega)]
  · rw [List.map_map]
    show List.map (fun v => v) _ = _
    rw [List.map_id', hchanged]
  · rw [List.map_map]
    show "application_detail" ∉ List.map (fun v => v) _
    rw [List.map_id', hchanged]
    split_ifs <;> decide

theorem first_reply_event_witness :
    noApplicationAttachments noAttachments ∧
    ∃ p cols, processReply fooApplications fooReply noAttachments 65536 100 = .ok p ∧
      p.attachments "application_confidence" = some (.uint 80) ∧
      p.events = [⟨"session_classify", "sessions", 2, 65536, cols⟩] ∧
      cols.length = 5 :=
  ⟨⟨rfl, rfl, rfl, rfl, rfl, rfl⟩,
    (first_reply_event fooApplications noAttachments 65536 100
      ⟨rfl, rfl, rfl, rfl, rfl, rfl⟩).imp fun _ h => h.imp fun cols h =>
        ⟨h.1, h.2.1, h.2.2.1, by
          have := congrArg List.length h.2.2.2.1
          rw [List.length_map] at this
          rw [this]
          decide⟩⟩

end Classify

namespace Dispatch

/-! ## Releasing a subscription -/

theorem foldl_applyResult_released (results : List NfqueueResult) (acc : SubMap × Nat)
    (c : NfqueueResult) (hc : c ∈ results) (hr : c.SessionRelease = true) :
    c.Owner ∉ (results.foldl applyResult acc).1.map Prod.fst := by
  induction results generalizing acc with
  | nil => cases hc
  | cons r rs ih =>
    rw [List.foldl_cons]
    rcases List.mem_cons.mp hc with rfl | hc
    · intro hmem
      have hsub := (foldl_applyResult_sublist rs (applyResult acc c)).map Prod.fst
      have := hsub.subset hmem
      simp [applyResult, hr, SubMap.delete] at this
    · exact ih _ hc

theorem foldl_applyResult_keep (results : List NfqueueResult) (acc : SubMap × Nat)
    (h : ∀ c ∈ results, c.SessionRelease = false) :
    (results.foldl applyResult acc).1 = acc.1 := by
  induction results generalizing acc with
  | nil => rfl
  | cons r rs ih =>
    rw [List.foldl_cons, ih _ fun c hc => h c (List.mem_cons_of_mem _ hc)]
    simp [applyResult, h r (List.mem_cons_self _ _)]

theorem nfqueueWave_calls (mess : TrafficMessage) (ctid : Nat) (newSession : Bool)
    (w : WaveState) :
    (nfqueueWave mess ctid newSession w).calls =
      w.calls ++ (waveHits w).map (fun e => e.2.NfqueueFunc mess ctid newSession) := rfl

/-- After the wave loop, the owner named by any logged result that set `SessionRelease` has
no subscription left. -/
theorem nfqueueWaves_released (mess : TrafficMessage) (ctid : Nat) (newSession : Bool)
    (subtotal fuel : Nat) (w w' : WaveState)
    (h : nfqueueWaves mess ctid newSession subtotal fuel w = some w')
    (hinv : ∀ c ∈ w.calls, c.SessionRelease = true → c.Owner ∉ w.Subs.map Prod.fst) :
    ∀ c ∈ w'.calls, c.SessionRelease = true → c.Owner ∉ w'.Subs.map Prod.fst := by
  have hstep : ∀ w : WaveState,
      (∀ c ∈ w.calls, c.SessionRelease = true → c.Owner ∉ w.Subs.map Prod.fst) →
      ∀ c ∈ (nfqueueWave mess ctid newSession w).calls, c.SessionRelease = true →
        c.Owner ∉ (nfqueueWave mess ctid newSession w).Subs.map Prod.fst := by
    intro w hw c hc hr
    rw [nfqueueWave_calls] at hc
    rcases List.mem_append.mp hc with hc | hc
    · exact fun hmem => hw c hc hr
        (((nfqueueWave_sublist mess ctid newSession w).map Prod.fst).subset hmem)
    · exact foldl_applyResult_released _ (w.Subs, w.pmark) c hc hr
  induction fuel generalizing w with
  | zero =>
    simp only [nfqueueWaves] at h
    split at h
    · cases h; exact hinv
    · cases h
  | succ n ih =>
    simp only [nfqueueWaves] at h
    split at h
    · cases h; exact hinv
    · exact ih _ h (hstep w hinv)

/-- The wave loop only adds to the log of results, and when no logged result set
`SessionRelease` it leaves the subscription map as it was. -/
theorem nfqueueWaves_keep (mess : TrafficMessage) (ctid : Nat) (newSession : Bool)
    (subtotal fuel : Nat) (w w' : WaveState)
    (h : nfqueueWaves mess ctid newSession subtotal fuel w = some w') :
    (∀ c ∈ w.calls, c ∈ w'.calls) ∧
    ((∀ c ∈ w'.calls, c.SessionRelease = false) → w'.Subs = w.Subs) := by
  induction fuel generalizing w with
  | zero =>
    simp only [nfqueueWaves] at h
    split at h
    · cases h; exact ⟨fun _ hc => hc, fun _ => rfl⟩
    · cases h
  | succ n ih =>
    simp only [nfqueueWaves] at h
    split at h
    · cases h; exact ⟨fun _ hc => hc, fun _ => rfl⟩
    · obtain ⟨h1, h2⟩ := ih _ h
      refine ⟨fun c hc => h1 c ?_, fun hall => ?_⟩
      · rw [nfqueueWave_calls]
        exact List.mem_append_left _ hc
      · rw [h2 hall]
        exact foldl_applyResult_keep _ (w.Subs, w.pmark) fun c hc =>
          hall c (h1 c (by rw [nfqueueWave_calls]; exact List.mem_append_right _ hc))

end Dispatch

namespace Dispatch

/-! ## The order of the handler invocations -/

theorem intInc_iterate_one (n : Nat) (hn : n < 2 ^ 64) :
    intInc^[n] 1 = if (1 + n : Int) < 2 ^ 63 then 1 + (n : Int) else 1 + (n : Int) - 2 ^ 64 := by
  induction n with
  | zero => simp
  | succ n ih =>
    rw [Function.iterate_succ_apply', ih (by omega)]
    unfold intInc
    push_cast
    split_ifs <;> omega

theorem nfqueueWaves_iterate (mess : TrafficMessage) (ctid : Nat) (newSession : Bool)
    (subtotal : Nat) (n fuel : Nat) (w : WaveState)
    (h : ∀ i < n, ((nfqueueWave mess ctid newSession)^[i] w).subcount ≠ subtotal) :
    nfqueueWaves mess ctid newSession subtotal (n + fuel) w =
      nfqueueWaves mess ctid newSession subtotal fuel
        ((nfqueueWave mess ctid newSession)^[n] w) := by
  induction n generalizing w with
  | zero => rw [Nat.zero_add]; rfl
  | succ n ih =>
    have h0 : w.subcount ≠ subtotal := h 0 (Nat.succ_pos n)
    rw [Nat.succ_add, nfqueueWaves, if_neg h0, Function.iterate_succ_apply]
    exact ih _ fun i hi => by
      have := h (i + 1) (Nat.succ_lt_succ hi)
      rwa [Function.iterate_succ_apply] at this

/-- A wave at a priority no subscription has calls nothing and only increments the
priority. -/
theorem nfqueueWave_idle (mess : TrafficMessage) (ctid : Nat) (newSession : Bool)
    (w : WaveState) (h : ∀ e ∈ w.Subs, e.2.Priority ≠ w.priority) :
    nfqueueWave mess ctid newSession w = { w with priority := intInc w.priority } := by
  have hh : waveHits w = [] := by
    unfold waveHits
    rw [List.filter_eq_nil_iff]
    intro e he
    simpa using h e he
  unfold nfqueueWave
  simp only [hh, List.map_nil, List.foldl_nil, List.length_nil, Nat.add_zero, List.append_nil]

theorem nfqueueWave_iterate_idle (mess : TrafficMessage) (ctid : Nat) (newSession : Bool)
    (n : Nat) (w : WaveState)
    (h : ∀ i < n, ∀ e ∈ w.Subs, e.2.Priority ≠ intInc^[i] w.priority) :
    (nfqueueWave mess ctid newSession)^[n] w = { w with priority := intInc^[n] w.priority } := by
  induction n with
  | zero => rfl
  | succ n ih =>
    rw [Function.iterate_succ_apply', ih fun i hi => h i (Nat.lt_succ_of_lt hi),
      nfqueueWave_idle _ _ _ _ (h n (Nat.lt_succ_self n)), Function.iterate_succ_apply']

end Dispatch

namespace Dispatch

theorem invoked_idle (mess : TrafficMessage) (ctid : Nat) (newSession : Bool)
    (n : Nat) (w : WaveState)
    (h : ∀ i < n, ∀ e ∈ w.Subs, e.2.Priority ≠ intInc^[i] w.priority) :
    invoked mess ctid newSession n w = [] := by
  induction n generalizing w with
  | zero => rfl
  | succ n ih =>
    have h0 : ∀ e ∈ w.Subs, e.2.Priority ≠ w.priority := h 0 (Nat.succ_pos n)
    have hh : waveHits w = [] := by
      unfold waveHits
      rw [List.filter_eq_nil_iff]
      intro e he
      simpa using h0 e he
    rw [invoked, hh, List.nil_append, nfqueueWave_idle _ _ _ _ h0]
    exact ih _ fun i hi e he => by
      have := h (i + 1) (Nat.succ_lt_succ hi) e he
      rwa [Function.iterate_succ_apply] at this

theorem invoked_succ (mess : TrafficMessage) (ctid : Nat) (newSession : Bool)
    (n : Nat) (w : WaveState) :
    invoked mess ctid newSession (n + 1) w =
      invoked mess ctid newSession n w ++
        waveHits ((nfqueueWave mess ctid newSession)^[n] w) := by
  induction n generalizing w with
  | zero => simp [invoked]
  | succ n ih =>
    rw [invoked, ih, invoked, Function.iterate_succ_apply, List.append_assoc]

/-- The log of results after `n` waves is the log before them followed by the results of the
subscriptions invoked, in order. -/
theorem nfqueueWave_iterate_calls (mess : TrafficMessage) (ctid : Nat) (newSession : Bool)
    (n : Nat) (w : WaveState) :
    ((nfqueueWave mess ctid newSession)^[n] w).calls =
      w.calls ++ (invoked mess ctid newSession n w).map
        (fun e => e.2.NfqueueFunc mess ctid newSession) := by
  induction n generalizing w with
  | zero => simp [invoked]
  | succ n ih =>
    rw [Function.iterate_succ_apply, ih, nfqueueWave_calls, invoked, List.map_append,
      List.append_assoc]

theorem nfqueueWaves_some_iterate (mess : TrafficMessage) (ctid : Nat) (newSession : Bool)
    (subtotal fuel : Nat) (w w' : WaveState)
    (h : nfqueueWaves mess ctid newSession subtotal fuel w = some w') :
    ∃ n ≤ fuel, w' = (nfqueueWave mess ctid newSession)^[n] w := by
  induction fuel generalizing w with
  | zero =>
    simp only [nfqueueWaves] at h
    split at h
    · cases h; exact ⟨0, le_rfl, rfl⟩
    · cases h
  | succ m ih =>
    simp only [nfqueueWaves] at h
    split at h
    · cases h; exact ⟨0, Nat.zero_le _, rfl⟩
    · obtain ⟨n, hn, rfl⟩ := ih _ h
      exact ⟨n + 1, Nat.succ_le_succ hn, by rw [Function.iterate_succ_apply]⟩

theorem nfqueueWave_iterate_released (mess : TrafficMessage) (ctid : Nat) (newSession : Bool)
    (n : Nat) (w : WaveState)
    (hinv : ∀ c ∈ w.calls, c.SessionRelease = true → c.Owner ∉ w.Subs.map Prod.fst) :
    ∀ c ∈ ((nfqueueWave mess ctid newSession)^[n] w).calls, c.SessionRelease = true →
      c.Owner ∉ ((nfqueueWave mess ctid newSession)^[n] w).Subs.map Prod.fst := by
  induction n with
  | zero => exact hinv
  | succ n ih =>
    rw [Function.iterate_succ_apply']
    intro c hc hr
    rw [nfqueueWave_calls] at hc
    rcases List.mem_append.mp hc with hc | hc
    · exact fun hmem => ih c hc hr
        (((nfqueueWave_sublist mess ctid newSession _).map Prod.fst).subset hmem)
    · exact foldl_applyResult_released _ (_, _) c hc hr

theorem nfqueueWave_iterate_priority (mess : TrafficMessage) (ctid : Nat) (newSession : Bool)
    (n : Nat) (w : WaveState) (hp : w.priority = 0) (hn : n < 2 ^ 63) :
    ((nfqueueWave mess ctid newSession)^[n] w).priority = (n : Int) := by
  induction n with
  | zero => simpa using hp
  | succ n ih =>
    rw [Function.iterate_succ_apply']
    show intInc _ = _
    rw [ih (by omega)]
    unfold intInc
    push_cast
    rw [if_neg (by omega)]

/-- Before the priority counter overflows, the subscriptions the waves invoke come from the
subscription map in order of priority, none twice. -/
theorem invoked_order (mess : TrafficMessage) (ctid : Nat) (newSession : Bool)
    (n k : Nat) (w : WaveState) (hp : w.priority = (k : Int)) (hk : k + n ≤ 2 ^ 63)
    (hnd : (w.Subs.map Prod.fst).Nodup) :
    (∀ e ∈ invoked mess ctid newSession n w, e ∈ w.Subs ∧ (k : Int) ≤ e.2.Priority) ∧
    (invoked mess ctid newSession n w).Pairwise (fun a b => a.2.Priority ≤ b.2.Priority) ∧
    ((invoked mess ctid newSession n w).map Prod.fst).Nodup := by
  induction n generalizing k w with
  | zero => simp [invoked]
  | succ n ih =>
    have hhits : ∀ e ∈ waveHits w, e ∈ w.Subs ∧ e.2.Priority = (k : Int) := by
      intro e he
      unfold waveHits at he
      rw [List.mem_filter] at he
      exact ⟨he.1, by rw [← hp]; simpa using he.2⟩
    have hsub := nfqueueWave_sublist mess ctid newSession w
    have hrest : (∀ e ∈ invoked mess ctid newSession n (nfqueueWave mess ctid newSession w),
          e ∈ w.Subs ∧ (k : Int) + 1 ≤ e.2.Priority) ∧
        (invoked mess ctid newSession n (nfqueueWave mess ctid newSession w)).Pairwise
          (fun a b => a.2.Priority ≤ b.2.Priority) ∧
        ((invoked mess ctid newSession n (nfqueueWave mess ctid newSession w)).map
          Prod.fst).Nodup := by
      rcases Nat.eq_zero_or_pos n with rfl | hpos
      · simp [invoked]
      · have hinc : (nfqueueWave mess ctid newSession w).priority = ((k + 1 : Nat) : Int) := by
          show intInc w.priority = _
          rw [hp]
          unfold intInc
          push_cast
          rw [if_neg (by omega)]
        obtain ⟨h1, h2, h3⟩ := ih (k + 1) _ hinc (by omega) ((hsub.map Prod.fst).nodup hnd)
        refine ⟨fun e he => ⟨hsub.subset (h1 e he).1, ?_⟩, h2, h3⟩
        have := (h1 e he).2
        push_cast at this
        exact this
    rw [invoked]
    refine ⟨?_, ?_, ?_⟩
    · intro e he
      rcases List.mem_append.mp he with he | he
      · exact ⟨(hhits e he).1, le_of_eq (hhits e he).2.symm⟩
      · exact ⟨(hrest.1 e he).1, by have := (hrest.1 e he).2; omega⟩
    · rw [List.pairwise_append]
      refine ⟨?_, hrest.2.1, ?_⟩
      · exact List.pairwise_of_forall_mem_list fun a ha b hb =>
          le_of_eq ((hhits a ha).2.trans (hhits b hb).2.symm)
      · intro a ha b hb
        have := (hhits a ha).2
        have := (hrest.1 b hb).2
        omega
    · rw [List.map_append, List.nodup_append]
      refine ⟨?_, hrest.2.2, ?_⟩
      · unfold waveHits
        exact ((List.filter_sublist _).map Prod.fst).nodup hnd
      · intro key h1 h2
        obtain ⟨a, ha, rfl⟩ := List.mem_map.mp h1
        obtain ⟨b, hb, hab⟩ := List.mem_map.mp h2
        have heq : b = a :=
          List.inj_on_of_nodup_map hnd (hrest.1 b hb).1 (hhits a ha).1 hab
        have := (hhits a ha).2
        have := (hrest.1 b hb).2
        rw [heq] at this
        omega

end Dispatch

namespace Dispatch

theorem nfqueueCallback_of_waves (fuel : Nat) (now : Int) (st : State) (ctid : Nat)
    (packet : Packet) (packetLength : Int) (pmark : Nat) (ip : IPv4Layer) (st1 : State)
    (session : SessionEntry) (newSession : Bool) (w : WaveState)
    (hip : packet.ipv4 = some ip)
    (hres : nfqueueResolve now st ctid (nfqueueTuple ip packet) = .ok (st1, session, newSession))
    (hw : nfqueueWaves (nfqueueMessage session (nfqueueTuple ip packet) packet packetLength)
      ctid newSession session.Subs.length fuel ⟨session.Subs, pmark, 0, 0, []⟩ = some w) :
    nfqueueCallback fuel now st ctid packet packetLength pmark =
      .ok ⟨w.pmark, insertSessionEntry st1 ctid { session with Subs := w.Subs }, w.calls⟩ := by
  unfold nfqueueCallback
  rw [hip]
  simp only [hres, hw]

theorem nfqueueWave_first (mess : TrafficMessage) (ctid : Nat) (newSession : Bool) :
    nfqueueWave mess ctid newSession
      ⟨[("first", ⟨"first", 0, releaseSecond⟩), ("second", ⟨"second", 1, markOne⟩)],
        0, 0, 0, []⟩ =
      ⟨[("first", ⟨"first", 0, releaseSecond⟩)], 2, 1, 1, [⟨"second", 2, true⟩]⟩ := by
  have h : (0 : Nat) ||| 2 = 2 := by decide
  have e : nfqueueWave mess ctid newSession
      ⟨[("first", ⟨"first", 0, releaseSecond⟩), ("second", ⟨"second", 1, markOne⟩)],
        0, 0, 0, []⟩ =
      ⟨[("first", ⟨"first", 0, releaseSecond⟩)], 0 ||| 2, 1, 1, [⟨"second", 2, true⟩]⟩ := rfl
  rw [e, h]

theorem nfqueueWave_again (mess : TrafficMessage) (ctid : Nat) (newSession : Bool) :
    nfqueueWave mess ctid newSession
      ⟨[("first", ⟨"first", 0, releaseSecond⟩)], 2, 1, 0, [⟨"second", 2, true⟩]⟩ =
      ⟨[("first", ⟨"first", 0, releaseSecond⟩)], 2, 2, 1,
        [⟨"second", 2, true⟩, ⟨"second", 2, true⟩]⟩ := by
  have h : (2 : Nat) ||| 2 = 2 := by decide
  have e : nfqueueWave mess ctid newSession
      ⟨[("first", ⟨"first", 0, releaseSecond⟩)], 2, 1, 0, [⟨"second", 2, true⟩]⟩ =
      ⟨[("first", ⟨"first", 0, releaseSecond⟩)], 2 ||| 2, 2, 1,
        [⟨"second", 2, true⟩, ⟨"second", 2, true⟩]⟩ := rfl
  rw [e, h]

/-- The wave loop on the subscriptions `first` (priority 0, releasing `second`) and `second`
(priority 1): `second` is removed before its wave, so the loop runs until the priority
counter has come back to 0, where `first` is invoked again. -/
theorem nfqueueWaves_second_round (mess : TrafficMessage) (ctid : Nat) (newSession : Bool)
    (N : Nat) (hN : ∀ i < N, intInc^[i] 1 ≠ 0) (hlast : intInc^[N] 1 = 0) :
    nfqueueWaves mess ctid newSession 2 (N + 2)
        ⟨[("first", ⟨"first", 0, releaseSecond⟩), ("second", ⟨"second", 1, markOne⟩)],
          0, 0, 0, []⟩ =
      some ⟨[("first", ⟨"first", 0, releaseSecond⟩)], 2, 2, 1,
        [⟨"second", 2, true⟩, ⟨"second", 2, true⟩]⟩ ∧
    (invoked mess ctid newSession (N + 2)
        ⟨[("first", ⟨"first", 0, releaseSecond⟩), ("second", ⟨"second", 1, markOne⟩)],
          0, 0, 0, []⟩).map Prod.fst = ["first", "first"] := by
  have hidle : ∀ j ≤ N, ∀ i < j, ∀ e ∈ (⟨[("first", ⟨"first", 0, releaseSecond⟩)], 2, 1, 1,
      [⟨"second", 2, true⟩]⟩ : WaveState).Subs, e.2.Priority ≠ intInc^[i] 1 := by
    intro j hj i hi e he
    rw [List.mem_singleton.mp he]
    exact fun h => hN i (by omega) h.symm
  have key : ∀ j ≤ N, (nfqueueWave mess ctid newSession)^[j + 1]
      ⟨[("first", ⟨"first", 0, releaseSecond⟩), ("second", ⟨"second", 1, markOne⟩)],
        0, 0, 0, []⟩ =
      ⟨[("first", ⟨"first", 0, releaseSecond⟩)], 2, 1, intInc^[j] 1,
        [⟨"second", 2, true⟩]⟩ := by
    intro j hj
    rw [Function.iterate_succ_apply, nfqueueWave_first]
    exact nfqueueWave_iterate_idle mess ctid newSession j
      ⟨[("first", ⟨"first", 0, releaseSecond⟩)], 2, 1, 1, [⟨"second", 2, true⟩]⟩ (hidle j hj)
  constructor
  · rw [show N + 2 = (N + 2) + 0 from rfl, nfqueueWaves_iterate mess ctid newSession 2 (N + 2) 0]
    · rw [Function.iterate_succ_apply' _ (N + 1) _, key N le_rfl, hlast, nfqueueWave_again]
      rfl
    · intro i hi
      cases i with
      | zero => exact show (0 : Nat) ≠ 2 from by decide
      | succ j =>
        rw [key j (by omega)]
        exact show (1 : Nat) ≠ 2 from by decide
  · rw [invoked_succ, key N le_rfl, hlast, invoked, nfqueueWave_first,
      invoked_idle mess ctid newSession N _ (hidle N le_rfl)]
    rfl

end Dispatch

namespace Dispatch

/-- C12 fails on the code: the wave loop ends only when `subcount` reaches the number of
subscriptions the session had at its start, so when the handler `first` (priority 0)
releases the subscription `second` (priority 1) before its wave, the loop runs on until the
`int` priority counter has wrapped around to 0, and `first` is invoked a second time in the
same event. What holds of every returning `nfqueueCallback` is that its results are those of
the subscriptions invoked wave by wave; when it returns within `2 ^ 63` waves on a session
whose subscription names are distinct, these are subscriptions of the session in order of
non-decreasing priority, none twice; and before each wave the results of all earlier
invocations have been collected, their marks combined by OR into the mark, and the owners
they released are not among the subscriptions the wave invokes, which all have the priority
of the wave. -/
theorem nfqueueCallback_invocation_order :
    (∃ r, nfqueueCallback (2 ^ 64 + 1) 0 firstReleasesSecond 100 tcpPacket 60 0 = .ok r ∧
      r.calls = [⟨"second", 2, true⟩, ⟨"second", 2, true⟩] ∧ r.mark = 2) ∧
    (∀ mess ctid newSession,
      (invoked mess ctid newSession (2 ^ 64 + 1)
        ⟨(nfqueueCreate 0 firstReleasesSecond 100
          (nfqueueTuple ⟨6, [10, 0, 0, 1], [1, 2, 3, 4]⟩ tcpPacket)).2.Subs, 0, 0, 0, []⟩).map
        Prod.fst = ["first", "first"]) ∧
    (∀ fuel now (st : State) ctid packet packetLength pmark r ip st1 session newSession,
      packet.ipv4 = some ip →
      nfqueueResolve now st ctid (nfqueueTuple ip packet) = .ok (st1, session, newSession) →
      nfqueueCallback fuel now st ctid packet packetLength pmark = .ok r →
      ∃ n ≤ fuel,
        r.calls = (invoked (nfqueueMessage session (nfqueueTuple ip packet) packet packetLength)
            ctid newSession n ⟨session.Subs, pmark, 0, 0, []⟩).map
          (fun e => e.2.NfqueueFunc
            (nfqueueMessage session (nfqueueTuple ip packet) packet packetLength)
            ctid newSession) ∧
        (n ≤ 2 ^ 63 → (session.Subs.map Prod.fst).Nodup →
          (invoked (nfqueueMessage session (nfqueueTuple ip packet) packet packetLength)
            ctid newSession n ⟨session.Subs, pmark, 0, 0, []⟩).Pairwise
              (fun a b => a.2.Priority ≤ b.2.Priority) ∧
          ((invoked (nfqueueMessage session (nfqueueTuple ip packet) packet packetLength)
            ctid newSession n ⟨session.Subs, pmark, 0, 0, []⟩).map Prod.fst).Nodup ∧
          ∀ e ∈ invoked (nfqueueMessage session (nfqueueTuple ip packet) packet packetLength)
            ctid newSession n ⟨session.Subs, pmark, 0, 0, []⟩, e ∈ session.Subs) ∧
        ∀ i ≤ n, ∀ w,
          w = (nfqueueWave (nfqueueMessage session (nfqueueTuple ip packet) packet
            packetLength) ctid newSession)^[i] ⟨session.Subs, pmark, 0, 0, []⟩ →
          w.calls = (invoked (nfqueueMessage session (nfqueueTuple ip packet) packet
              packetLength) ctid newSession i ⟨session.Subs, pmark, 0, 0, []⟩).map
            (fun e => e.2.NfqueueFunc
              (nfqueueMessage session (nfqueueTuple ip packet) packet packetLength)
              ctid newSession) ∧
          w.pmark = orMarks pmark w.calls ∧
          (∀ c ∈ w.calls, c.SessionRelease = true → c.Owner ∉ (waveHits w).map Prod.fst) ∧
          (i < 2 ^ 63 → ∀ e ∈ waveHits w, e.2.Priority = (i : Int))) := by
  have hN : ∀ i < 2 ^ 64 - 1, intInc^[i] 1 ≠ 0 := by
    intro i hi
    rw [intInc_iterate_one i (by omega)]
    split_ifs <;> omega
  have hlast : intInc^[2 ^ 64 - 1] 1 = 0 := by
    rw [intInc_iterate_one _ (by norm_num)]
    norm_num
  refine ⟨?_, ?_, ?_⟩
  · have hw := (nfqueueWaves_second_round
      (nfqueueMessage (nfqueueCreate 0 firstReleasesSecond 100
        (nfqueueTuple ⟨6, [10, 0, 0, 1], [1, 2, 3, 4]⟩ tcpPacket)).2
        (nfqueueTuple ⟨6, [10, 0, 0, 1], [1, 2, 3, 4]⟩ tcpPacket) tcpPacket 60)
      100 true (2 ^ 64 - 1) hN hlast).1
    rw [show 2 ^ 64 - 1 + 2 = 2 ^ 64 + 1 from by norm_num] at hw
    exact ⟨_, nfqueueCallback_of_waves (2 ^ 64 + 1) 0 firstReleasesSecond 100 tcpPacket 60 0
      ⟨6, [10, 0, 0, 1], [1, 2, 3, 4]⟩ _ _ true _ rfl
      (nfqueueResolve_absent 0 firstReleasesSecond 100 _ rfl) hw, rfl, rfl⟩
  · intro mess ctid newSession
    have hw := (nfqueueWaves_second_round mess ctid newSession (2 ^ 64 - 1) hN hlast).2
    rw [show 2 ^ 64 - 1 + 2 = 2 ^ 64 + 1 from by norm_num] at hw
    exact hw
  · intro fuel now st ctid packet packetLength pmark r ip st1 session newSession hip hres hr
    obtain ⟨st1', session', newSession', w, hres', hw, rfl⟩ :=
      nfqueueCallback_ok_inv fuel now st ctid packet packetLength pmark ip r hip hr
    rw [hres] at hres'
    cases hres'
    obtain ⟨n, hn, rfl⟩ := nfqueueWaves_some_iterate _ _ _ _ _ _ _ hw
    refine ⟨n, hn, ?_, ?_, ?_⟩
    · exact (nfqueueWave_iterate_calls _ _ _ n _).trans (List.nil_append _)
    · intro hn63 hnd
      obtain ⟨h1, h2, h3⟩ := invoked_order
        (nfqueueMessage session (nfqueueTuple ip packet) packet packetLength) ctid newSession
        n 0 ⟨session.Subs, pmark, 0, 0, []⟩ Nat.cast_zero.symm (by omega) hnd
      exact ⟨h2, h3, fun e he => (h1 e he).1⟩
    · intro i _ w hw
      subst hw
      refine ⟨(nfqueueWave_iterate_calls _ _ _ i _).trans (List.nil_append _),
        nfqueueWave_iterate_mark _ _ _ pmark _ rfl i, ?_, ?_⟩
      · intro c hc hrel hmem
        refine nfqueueWave_iterate_released _ _ _ i ⟨session.Subs, pmark, 0, 0, []⟩
          (fun _ h => absurd h (List.not_mem_nil _)) c hc hrel ?_
        exact ((List.filter_sublist _).map Prod.fst).subset hmem
      · intro hi e he
        have hp := nfqueueWave_iterate_priority
          (nfqueueMessage session (nfqueueTuple ip packet) packet packetLength) ctid newSession
          i ⟨session.Subs, pmark, 0, 0, []⟩ rfl hi
        unfold waveHits at he
        rw [List.mem_filter] at he
        rw [← hp]
        simpa using he.2

theorem nfqueueCallback_invocation_order_witness :
    ∃ r, nfqueueCallback 2 2 freshState 100 tcpPacket 60 0 = .ok r ∧
      r.calls = [⟨"one", 1, false⟩, ⟨"four", 4, true⟩] ∧
      ∃ n ≤ 2, r.calls = (invoked (nfqueueMessage
            { freshSession with LastActivityTime := 2, EventCount := 2 }
            (nfqueueTuple ⟨6, [10, 0, 0, 1], [1, 2, 3, 4]⟩ tcpPacket) tcpPacket 60)
          100 false n ⟨freshSession.Subs, 0, 0, 0, []⟩).map
        (fun e => e.2.NfqueueFunc (nfqueueMessage
            { freshSession with LastActivityTime := 2, EventCount := 2 }
            (nfqueueTuple ⟨6, [10, 0, 0, 1], [1, 2, 3, 4]⟩ tcpPacket) tcpPacket 60)
          100 false) :=
  ⟨_, rfl, rfl,
    (nfqueueCallback_invocation_order.2.2 2 2 freshState 100 tcpPacket 60 0 _
      ⟨6, [10, 0, 0, 1], [1, 2, 3, 4]⟩ _ _ _ rfl rfl rfl).imp fun _ h => ⟨h.1, h.2.1⟩⟩

end Dispatch

namespace Classify

/-! ## The lines of a reply -/

theorem cut_some (a b : Char) (cs pre rest : List Char) (h : cut a b cs = some (pre, rest)) :
    cs = pre ++ a :: b :: rest := by
  induction cs generalizing pre with
  | nil => cases h
  | cons c cs ih =>
    rw [cut] at h
    split_ifs at h with hp
    · cases h
      cases cs with
      | nil => simp [List.isPrefixOf] at hp
      | cons d ds =>
        simp only [List.isPrefixOf, Bool.and_true, Bool.and_eq_true, beq_iff_eq] at hp
        simp [hp.1, hp.2]
    · cases hc : cut a b cs with
      | none => rw [hc] at h; cases h
      | some p =>
        rw [hc] at h
        cases h
        rw [ih p.1 hc]
        rfl

theorem cut_append (a b : Char) (hab : a ≠ b) (pre rest : List Char)
    (h : cut a b pre = none) : cut a b (pre ++ a :: b :: rest) = some (pre, rest) := by
  induction pre with
  | nil => simp [cut, List.isPrefixOf]
  | cons c cs ih =>
    rw [cut] at h
    split_ifs at h with hp
    have hc : cut a b cs = none := by
      cases hcs : cut a b cs with
      | none => rfl
      | some p => rw [hcs] at h; cases h
    have hp' : ([a, b].isPrefixOf (c :: (cs ++ a :: b :: rest))) = false := by
      cases cs with
      | nil =>
        simp only [List.nil_append, List.isPrefixOf, Bool.and_true, Bool.and_eq_false_imp,
          beq_iff_eq, beq_eq_false_iff_ne]
        exact fun _ h => hab h.symm
      | cons d ds => simpa [List.isPrefixOf] using hp
    rw [List.cons_append, cut, hp', ih hc]
    rfl

/-- The worker of `strings.Split` and `strings.SplitAfter` for a separator of two characters
cuts the text at the first occurrence of the separator and goes on with what follows. -/
theorem splitGo_cut (a b : Char) (after : Bool) (cs cur : List Char) :
    splitGo [a, b] after cs 0 cur =
      match cut a b cs with
      | none => [cur.reverse ++ cs]
      | some (pre, rest) =>
        (cur.reverse ++ pre ++ (if after then [a, b] else [])) ::
          splitGo [a, b] after rest 0 [] := by
  induction cs generalizing cur with
  | nil => simp [splitGo, cut]
  | cons c cs ih =>
    rw [splitGo, cut]
    by_cases hp : [a, b].isPrefixOf (c :: cs) = true
    · rw [if_pos hp, if_pos hp]
      cases cs with
      | nil => simp [List.isPrefixOf] at hp
      | cons d ds =>
        cases after <;> simp [splitGo]
    · rw [if_neg hp, if_neg hp, ih]
      cases cut a b cs with
      | none => simp
      | some p => simp

theorem splitGo_ne_nil (sep : List Char) (after : Bool) (cs : List Char) (skip : Nat)
    (cur : List Char) : splitGo sep after cs skip cur ≠ [] := by
  induction cs generalizing skip cur with
  | nil => simp [splitGo]
  | cons c cs ih =>
    cases skip with
    | zero =>
      rw [splitGo]
      by_cases hp : sep.isPrefixOf (c :: cs) = true
      · rw [if_pos hp]
        exact List.cons_ne_nil _ _
      · rw [if_neg hp]
        exact ih _ _
    | succ k =>
      rw [splitGo]
      exact ih _ _

theorem replyOf_data (l : String) (ls : List String) :
    (replyOf (l :: ls)).data = l.data ++ '\r' :: '\n' :: (replyOf ls).data := by
  show (l ++ "\r\n" ++ replyOf ls).data = _
  rw [String.data_append, String.data_append, List.append_assoc]
  rfl

/-- Go `strings.Split` gives back the lines of a reply made of CRLF-terminated lines,
followed by the empty text after the last CRLF. -/
theorem stringsSplit_replyOf (lines : List String) (h : ∀ l ∈ lines, noCRLF l) :
    stringsSplit (replyOf lines) "\r\n" = lines ++ [""] := by
  have key : splitGo ['\r', '\n'] false (replyOf lines).data 0 [] =
      lines.map String.data ++ [[]] := by
    induction lines with
    | nil => rfl
    | cons l ls ih =>
      rw [replyOf_data, splitGo_cut,
        cut_append '\r' '\n' (by decide) l.data _ (h l (List.mem_cons_self _ _))]
      simp [ih fun x hx => h x (List.mem_cons_of_mem _ hx)]
  show (splitGo ['\r', '\n'] false (replyOf lines).data 0 []).map String.mk = _
  rw [key, List.map_append, List.map_map]
  have : (String.mk ∘ String.data) = id := funext fun _ => rfl
  rw [this, List.map_id]
  rfl

end Classify

namespace Classify

theorem utf8ByteSize_go_ge (cs : List Char) : cs.length ≤ String.utf8ByteSize.go cs := by
  induction cs with
  | nil => exact Nat.le_refl _
  | cons c cs ih =>
    have := c.utf8Size_pos
    show cs.length + 1 ≤ String.utf8ByteSize.go cs + c.utf8Size
    omega

theorem goLen_ge_length (s : String) : s.data.length ≤ goLen s := by
  cases s with
  | mk data => exact utf8ByteSize_go_ge data

theorem lineValue_short (key line : String) (hk : 0 < key.data.length)
    (h : goLen line < 3) : lineValue key line = none := by
  unfold lineValue
  cases hc : cut ':' ' ' line.data with
  | none => rfl
  | some p =>
    obtain ⟨pre, rest⟩ := p
    dsimp only
    rw [if_neg]
    rintro ⟨hpre, -⟩
    have h1 := congrArg List.length (cut_some _ _ _ _ _ hc)
    have h2 := goLen_ge_length line
    rw [hpre] at h1
    simp only [List.length_append, List.length_cons] at h1
    omega

theorem key_eq (pre : List Char) (key : String) :
    (String.mk (pre ++ [':', ' ']) = key ++ ": ") = (pre = key.data) := by
  apply propext
  constructor
  · intro h
    have := congrArg String.data h
    rw [String.data_append] at this
    exact List.append_cancel_right this
  · intro h
    rw [h]
    apply String.ext
    rw [String.data_append]

/-- The pieces Go `strings.SplitAfter` makes of a line at colon-space: the line itself when
colon-space does not occur, the text up to the first colon-space and the rest when it occurs
once, and at least three pieces otherwise. -/
theorem stringsSplitAfter_cut (line : String) :
    stringsSplitAfter line ": " =
      match cut ':' ' ' line.data with
      | none => [line]
      | some (pre, rest) =>
        match cut ':' ' ' rest with
        | none => [String.mk (pre ++ [':', ' ']), String.mk rest]
        | some (pre2, rest2) =>
          String.mk (pre ++ [':', ' ']) :: String.mk (pre2 ++ [':', ' ']) ::
            (splitGo [':', ' '] true rest2 0 []).map String.mk := by
  show (splitGo [':', ' '] true line.data 0 []).map String.mk = _
  rw [splitGo_cut]
  cases cut ':' ' ' line.data with
  | none => simp
  | some p =>
    obtain ⟨pre, rest⟩ := p
    dsimp only
    rw [splitGo_cut]
    cases cut ':' ' ' rest with
    | none => simp
    | some q => simp

/-- The body of the loop of `parseReply` sets a field from a line exactly when the line is
its key, a colon-space and a value without colon-space. -/
theorem parseLine_spec (r : Reply) (line : String) :
    parseLine r line =
      { appid := (lineValue "APPLICATION" line).getD r.appid
        name := r.name
        protochain := (lineValue "PROTOCHAIN" line).getD r.protochain
        detail := (lineValue "DETAIL" line).getD r.detail
        confidence :=
          ((lineValue "CONFIDENCE" line).map fun v => (parseUint v).getD 0).getD r.confidence
        category := r.category
        state := ((lineValue "STATE" line).map fun v => (atoi v).getD 0).getD r.state } := by
  unfold parseLine
  by_cases hlen : goLen line < 3
  · rw [if_pos hlen]
    simp only [lineValue_short "APPLICATION" line (by decide) hlen,
      lineValue_short "PROTOCHAIN" line (by decide) hlen,
      lineValue_short "DETAIL" line (by decide) hlen,
      lineValue_short "CONFIDENCE" line (by decide) hlen,
      lineValue_short "STATE" line (by decide) hlen, Option.getD_none, Option.map_none']
  · rw [if_neg hlen, stringsSplitAfter_cut]
    unfold lineValue
    cases hc : cut ':' ' ' line.data with
    | none => simp only [Option.getD_none, Option.map_none']
    | some p =>
      obtain ⟨pre, rest⟩ := p
      dsimp only
      cases hc2 : cut ':' ' ' rest with
      | some q =>
        obtain ⟨pre2, rest2⟩ := q
        dsimp only
        cases h3 : splitGo [':', ' '] true rest2 0 [] with
        | nil => exact absurd h3 (splitGo_ne_nil _ _ _ _ _)
        | cons x xs =>
          simp only [List.map_cons, and_false, reduceCtorEq, if_false, Option.getD_none,
            Option.map_none']
      | none =>
        dsimp only
        have e1 := key_eq pre "APPLICATION"
        have e2 := key_eq pre "PROTOCHAIN"
        have e3 := key_eq pre "DETAIL"
        have e4 := key_eq pre "CONFIDENCE"
        have e5 := key_eq pre "STATE"
        have s1 : "APPLICATION" ++ ": " = "APPLICATION: " := by decide
        have s2 : "PROTOCHAIN" ++ ": " = "PROTOCHAIN: " := by decide
        have s3 : "DETAIL" ++ ": " = "DETAIL: " := by decide
        have s4 : "CONFIDENCE" ++ ": " = "CONFIDENCE: " := by decide
        have s5 : "STATE" ++ ": " = "STATE: " := by decide
        rw [s1] at e1
        rw [s2] at e2
        rw [s3] at e3
        rw [s4] at e4
        rw [s5] at e5
        simp only [e1, e2, e3, e4, e5, and_true]
        by_cases h1 : pre = "APPLICATION".data
        · subst h1
          simp +decide
        by_cases h2 : pre = "PROTOCHAIN".data
        · subst h2
          simp +decide
        by_cases h3 : pre = "DETAIL".data
        · subst h3
          simp +decide
        by_cases h4 : pre = "CONFIDENCE".data
        · subst h4
          simp +decide
        by_cases h5 : pre = "STATE".data
        · subst h5
          simp +decide
        simp [h1, h2, h3, h4, h5]

end Classify

namespace Classify

theorem foldl_getLast {α β γ δ : Type} (step : α → β → α) (f : α → δ) (g : β → Option γ)
    (h : γ → δ) (hstep : ∀ r x, f (step r x) = ((g x).map h).getD (f r)) (r : α)
    (xs : List β) :
    f (xs.foldl step r) = (((xs.filterMap g).getLast?).map h).getD (f r) := by
  induction xs generalizing r with
  | nil => rfl
  | cons x xs ih =>
    rw [List.foldl_cons, ih, hstep]
    cases hg : g x with
    | none => rw [List.filterMap_cons_none hg]; rfl
    | some v =>
      rw [List.filterMap_cons_some hg]
      cases hl : List.filterMap g xs with
      | nil => rfl
      | cons y ys =>
        rw [List.getLast?_cons_cons, List.getLast?_eq_getLast _ (List.cons_ne_nil y ys)]
        rfl

theorem parseLine_unrecognised (r : Reply) (line : String) (h : unrecognised line) :
    parseLine r line = r := by
  obtain ⟨h1, h2, h3, h4, h5⟩ := h
  rw [parseLine_spec, h1, h2, h3, h4, h5]
  rfl

theorem parseReply_fold (applicationTable : AppTable) (lines : List String)
    (h : ∀ l ∈ lines, noCRLF l) :
    parseReply applicationTable (replyOf lines) =
      match applicationTable (lines.foldl parseLine ⟨"", "", "", "", 0, "", 0⟩).appid with
      | some appinfo =>
        { lines.foldl parseLine ⟨"", "", "", "", 0, "", 0⟩ with
          name := appinfo.name, category := appinfo.category }
      | none => lines.foldl parseLine ⟨"", "", "", "", 0, "", 0⟩ := by
  unfold parseReply
  simp only [stringsSplit_replyOf lines h, List.foldl_append, List.foldl_cons, List.foldl_nil]
  have hempty : ∀ r, parseLine r "" = r := fun r => by
    unfold parseLine
    rw [if_pos (by decide)]
  simp only [hempty]

theorem parseReply_fields (applicationTable : AppTable) (lines : List String)
    (h : ∀ l ∈ lines, noCRLF l) :
    (parseReply applicationTable (replyOf lines)).appid =
      (lines.foldl parseLine ⟨"", "", "", "", 0, "", 0⟩).appid ∧
    (parseReply applicationTable (replyOf lines)).protochain =
      (lines.foldl parseLine ⟨"", "", "", "", 0, "", 0⟩).protochain ∧
    (parseReply applicationTable (replyOf lines)).detail =
      (lines.foldl parseLine ⟨"", "", "", "", 0, "", 0⟩).detail ∧
    (parseReply applicationTable (replyOf lines)).confidence =
      (lines.foldl parseLine ⟨"", "", "", "", 0, "", 0⟩).confidence ∧
    (parseReply applicationTable (replyOf lines)).state =
      (lines.foldl parseLine ⟨"", "", "", "", 0, "", 0⟩).state := by
  rw [parseReply_fold applicationTable lines h]
  cases applicationTable (lines.foldl parseLine ⟨"", "", "", "", 0, "", 0⟩).appid <;>
    exact ⟨rfl, rfl, rfl, rfl, rfl⟩

/-- C17, as stated, fails: a line with a recognised key whose value contains a colon-space is
ignored. For the reply `DETAIL: a: b` the text after the colon-space of the line is `a: b`,
and `parseReply` returns the empty detail; after a line `DETAIL: x` it returns `x`. -/
theorem parseReply_ignores_second_separator :
    replyOf ["DETAIL: a: b"] = "DETAIL: a: b\r\n" ∧
    lastValue (claimedValue "DETAIL") ["DETAIL: a: b"] = some "a: b" ∧
    (parseReply noApplications "DETAIL: a: b\r\n").detail = "" ∧
    replyOf ["DETAIL: x", "DETAIL: a: b"] = "DETAIL: x\r\nDETAIL: a: b\r\n" ∧
    lastValue (claimedValue "DETAIL") ["DETAIL: x", "DETAIL: a: b"] = some "a: b" ∧
    (parseReply noApplications "DETAIL: x\r\nDETAIL: a: b\r\n").detail = "x" := by
  decide

/-- C17, amended: for every reply made of CRLF-terminated lines, `parseReply` returns for
APPLICATION, PROTOCHAIN and DETAIL the value of the last line that is that key, a
colon-space and a value in which no colon-space occurs (empty if there is none; a line in
which colon-space occurs twice is ignored), for CONFIDENCE the result of `ParseUint` on the
value of the last such CONFIDENCE line, or 0 when it fails or there is no such line, for
STATE the result of `Atoi` on the value of the last such STATE line, or 0 likewise; and the
result is unchanged by removing (or adding) a line that is not of this form for any of the
five keys. -/
theorem parseReply_lines (applicationTable : AppTable) (lines : List String)
    (h : ∀ l ∈ lines, noCRLF l) :
    (parseReply applicationTable (replyOf lines)).appid =
      (lastValue (lineValue "APPLICATION") lines).getD "" ∧
    (parseReply applicationTable (replyOf lines)).protochain =
      (lastValue (lineValue "PROTOCHAIN") lines).getD "" ∧
    (parseReply applicationTable (replyOf lines)).detail =
      (lastValue (lineValue "DETAIL") lines).getD "" ∧
    (parseReply applicationTable (replyOf lines)).confidence =
      ((lastValue (lineValue "CONFIDENCE") lines).map fun v => (parseUint v).getD 0).getD 0 ∧
    (parseReply applicationTable (replyOf lines)).state =
      ((lastValue (lineValue "STATE") lines).map fun v => (atoi v).getD 0).getD 0 ∧
    ∀ before x after, lines = before ++ x :: after → unrecognised x →
      parseReply applicationTable (replyOf (before ++ after)) =
        parseReply applicationTable (replyOf lines) := by
  obtain ⟨f1, f2, f3, f4, f5⟩ := parseReply_fields applicationTable lines h
  refine ⟨?_, ?_, ?_, ?_, ?_, ?_⟩
  · rw [f1]
    have := foldl_getLast parseLine Reply.appid (lineValue "APPLICATION") (fun v => v)
      (fun r x => by rw [parseLine_spec, Option.map_id']) ⟨"", "", "", "", 0, "", 0⟩ lines
    rw [Option.map_id'] at this
    exact this
  · rw [f2]
    have := foldl_getLast parseLine Reply.protochain (lineValue "PROTOCHAIN") (fun v => v)
      (fun r x => by rw [parseLine_spec, Option.map_id']) ⟨"", "", "", "", 0, "", 0⟩ lines
    rw [Option.map_id'] at this
    exact this
  · rw [f3]
    have := foldl_getLast parseLine Reply.detail (lineValue "DETAIL") (fun v => v)
      (fun r x => by rw [parseLine_spec, Option.map_id']) ⟨"", "", "", "", 0, "", 0⟩ lines
    rw [Option.map_id'] at this
    exact this
  · rw [f4]
    exact foldl_getLast parseLine Reply.confidence (lineValue "CONFIDENCE")
      (fun v => (parseUint v).getD 0) (fun r x => by rw [parseLine_spec])
      ⟨"", "", "", "", 0, "", 0⟩ lines
  · rw [f5]
    exact foldl_getLast parseLine Reply.state (lineValue "STATE")
      (fun v => (atoi v).getD 0) (fun r x => by rw [parseLine_spec])
      ⟨"", "", "", "", 0, "", 0⟩ lines
  · intro before x after hl hx
    subst hl
    rw [parseReply_fold applicationTable _ h, parseReply_fold applicationTable _
      (fun l hl => h l (by
        rcases List.mem_append.mp hl with hl | hl
        · exact List.mem_append_left _ hl
        · exact List.mem_append_right _ (List.mem_cons_of_mem _ hl)))]
    simp only [List.foldl_append, List.foldl_cons, parseLine_unrecognised _ x hx]

theorem parseReply_lines_witness :
    (∀ l ∈ ["APPLICATION: /FOO", "NOTE: n", "DETAIL: a: b", "CONFIDENCE: high", "STATE: 3"],
      noCRLF l) ∧
    unrecognised "NOTE: n" ∧
    (parseReply noApplications (replyOf
      ["APPLICATION: /FOO", "NOTE: n", "DETAIL: a: b", "CONFIDENCE: high", "STATE: 3"])) =
      ⟨"/FOO", "", "", "", 0, "", 3⟩ ∧
    (lastValue (lineValue "APPLICATION")
      ["APPLICATION: /FOO", "NOTE: n", "DETAIL: a: b", "CONFIDENCE: high", "STATE: 3"]).getD ""
      = "/FOO" ∧
    (parseReply noApplications (replyOf
      ["APPLICATION: /FOO", "NOTE: n", "DETAIL: a: b", "CONFIDENCE: high", "STATE: 3"])).appid =
      (lastValue (lineValue "APPLICATION")
        ["APPLICATION: /FOO", "NOTE: n", "DETAIL: a: b", "CONFIDENCE: high", "STATE: 3"]).getD
        "" :=
  ⟨by decide, by decide, by decide, by decide,
    (parseReply_lines noApplications
      ["APPLICATION: /FOO", "NOTE: n", "DETAIL: a: b", "CONFIDENCE: high", "STATE: 3"]
      (by decide)).1⟩

end Classify

namespace Dispatch

/-! ## The conntrack sweep -/

/-- C21: `cleanConntrackTable`, run at time `now`, removes every conntrack entry whose
`PurgeFlag` is set and whose idle time `now - LastActivityTime` is greater than 600 seconds,
and removes no entry whose `PurgeFlag` is clear, however long it has been idle. An entry is
removed exactly when its flag is set and it has been idle for 600 seconds or more; an entry
that stays is unchanged. -/
theorem cleanConntrackTable_purged (now : Int) (st : State) (key : Nat) (val : ConntrackEntry)
    (h : st.conntrackTable key = some val) :
    (val.PurgeFlag = true → now - val.LastActivityTime > 600 →
      (cleanConntrackTable now st).conntrackTable key = none) ∧
    (val.PurgeFlag = false → (cleanConntrackTable now st).conntrackTable key = some val) ∧
    ((cleanConntrackTable now st).conntrackTable key = none ↔
      val.PurgeFlag = true ∧ now - val.LastActivityTime ≥ 600) ∧
    ((cleanConntrackTable now st).conntrackTable key = none ∨
      (cleanConntrackTable now st).conntrackTable key = some val) := by
  have hc : (cleanConntrackTable now st).conntrackTable key =
      if val.PurgeFlag = false then some val
      else if now - val.LastActivityTime < 600 then some val else none := by
    show (match st.conntrackTable key with
      | some val =>
        if val.PurgeFlag = false then some val
        else if now - val.LastActivityTime < 600 then some val else none
      | none => none) = _
    rw [h]
  rw [hc]
  cases hp : val.PurgeFlag with
  | false => simp
  | true =>
    by_cases hi : now - val.LastActivityTime < 600
    · rw [if_neg (by decide : ¬ (true = false)), if_pos hi]
      refine ⟨fun _ h => ?_, fun h => ?_, ⟨fun h => ?_, fun h => ?_⟩, Or.inr rfl⟩
      · omega
      · cases h
      · cases h
      · omega
    · rw [if_neg (by decide : ¬ (true = false)), if_neg hi]
      refine ⟨fun _ _ => rfl, fun h => ?_, ⟨fun _ => ⟨rfl, ?_⟩, fun _ => rfl⟩, Or.inl rfl⟩
      · cases h
      · omega

theorem cleanConntrackTable_purged_witness :
    purgeState.conntrackTable 1 = some (purgedEntry 399 true) ∧
    (cleanConntrackTable 1000 purgeState).conntrackTable 1 = none ∧
    (cleanConntrackTable 1000 purgeState).conntrackTable 2 = some (purgedEntry 0 false) ∧
    (cleanConntrackTable 1000 purgeState).conntrackTable 3 = some (purgedEntry 990 true) :=
  ⟨rfl,
    (cleanConntrackTable_purged 1000 purgeState 1 (purgedEntry 399 true) rfl).1 rfl
      (by decide),
    rfl, rfl⟩

end Dispatch

namespace Dispatch

/-! ## The DELETE step of `conntrackCallback` -/

/-- What a returning `conntrackCallback` returns, in terms of its head and its DELETE
step. -/
theorem conntrackCallback_ok_inv (fuel : Nat) (now : Int) (st : State) (ev : ConntrackEvent)
    (r : ConntrackReturn) (h : conntrackCallback fuel now st ev = .ok r) :
    ∃ st1 e1, conntrackFind now st ev = .ok (st1, e1) ∧
      (ev.eventType ≠ eventUpdate →
        r.state = (conntrackDestroy (insertConntrackEntry st1 ev.ctid
          { e1 with LastActivityTime := now }) ev { e1 with LastActivityTime := now }).1 ∧
        r.entry = (conntrackDestroy (insertConntrackEntry st1 ev.ctid
          { e1 with LastActivityTime := now }) ev { e1 with LastActivityTime := now }).2) ∧
      (ev.eventType = eventUpdate →
        ∃ e3, conntrackBytes ev (conntrackDestroy (insertConntrackEntry st1 ev.ctid
            { e1 with LastActivityTime := now }) ev { e1 with LastActivityTime := now }).2 =
            some e3 ∧
          r.state = insertConntrackEntry (conntrackDestroy (insertConntrackEntry st1 ev.ctid
            { e1 with LastActivityTime := now }) ev { e1 with LastActivityTime := now }).1
            ev.ctid e3 ∧
          r.entry = e3) := by
  unfold conntrackCallback at h
  generalize hres : conntrackFind now st ev = res at h
  cases res with
  | panic msg => cases h
  | outOfFuel => cases h
  | ok a =>
    obtain ⟨st1, e1⟩ := a
    refine ⟨st1, e1, rfl, ?_, ?_⟩
    · intro hu
      simp only [hu, if_false] at h
      split at h
      · cases h
      · cases h
        exact ⟨rfl, rfl⟩
    · intro hu
      simp only [hu, if_true, conntrackBytes_isSome] at h
      split at h
      · cases h
      · cases h
        exact ⟨_, conntrackBytes_isSome _ _, rfl, rfl⟩

theorem conntrackBytes_flag (ev : ConntrackEvent) (e e3 : ConntrackEntry)
    (h : conntrackBytes ev e = some e3) :
    e3.PurgeFlag = e.PurgeFlag ∧ e3.Session = e.Session := by
  rw [conntrackBytes_isSome] at h
  cases h
  exact ⟨rfl, rfl⟩

/-- C22: for every conntrack DESTROY event, a returning `conntrackCallback` leaves the entry
of the event with `PurgeFlag = true`, the session table without an entry for the conntrack
id when the entry is linked to a session, and the conntrack table without the entry; for
every event of another kind it leaves the entry with `PurgeFlag = false`, stored under the
conntrack id, and the session table as the head of the callback made it, so the DELETE step
removes no session. -/
theorem conntrackCallback_destroy_flag (fuel : Nat) (now : Int) (st : State)
    (ev : ConntrackEvent) (r : ConntrackReturn)
    (h : conntrackCallback fuel now st ev = .ok r) :
    (ev.eventType = eventDestroy →
      r.entry.PurgeFlag = true ∧
      (r.entry.Session.isSome = true → r.state.sessionTable ev.ctid = none) ∧
      r.state.conntrackTable ev.ctid = none) ∧
    (ev.eventType ≠ eventDestroy →
      r.entry.PurgeFlag = false ∧
      r.state.conntrackTable ev.ctid = some r.entry ∧
      ∃ st1 e1, conntrackFind now st ev = .ok (st1, e1) ∧
        r.state.sessionTable = st1.sessionTable) := by
  obtain ⟨st1, e1, hfind, hother, hupdate⟩ := conntrackCallback_ok_inv fuel now st ev r h
  constructor
  · intro hd
    have hu : ev.eventType ≠ eventUpdate := by rw [hd]; decide
    obtain ⟨hs, he⟩ := hother hu
    rw [hs, he]
    unfold conntrackDestroy
    rw [if_pos hd]
    dsimp only
    refine ⟨rfl, ?_, ?_⟩
    · intro hlink
      rw [if_pos hlink]
      simp [removeConntrackEntry, removeSessionEntry]
    · simp [removeConntrackEntry]
  · intro hd
    have hdes : ∀ (s : State) (e : ConntrackEntry),
        conntrackDestroy s ev e =
          (insertConntrackEntry s ev.ctid { e with PurgeFlag := false },
            { e with PurgeFlag := false }) := by
      intro s e
      unfold conntrackDestroy
      rw [if_neg hd]
    by_cases hu : ev.eventType = eventUpdate
    · obtain ⟨e3, hb, hs, he⟩ := hupdate hu
      rw [hdes] at hb hs
      obtain ⟨hflag, -⟩ := conntrackBytes_flag ev _ e3 hb
      refine ⟨by rw [he, hflag], ?_, st1, e1, hfind, ?_⟩
      · rw [hs, he]
        simp [insertConntrackEntry]
      · rw [hs]
        rfl
    · obtain ⟨hs, he⟩ := hother hu
      rw [hdes] at hs he
      refine ⟨by rw [he], ?_, st1, e1, hfind, ?_⟩
      · rw [hs, he]
        simp [insertConntrackEntry]
      · rw [hs]
        rfl

theorem conntrackCallback_destroy_flag_witness :
    destroyEvent.eventType = eventDestroy ∧
    freshState.sessionTable 100 = some freshSession ∧
    ∃ r, conntrackCallback 0 5 freshState destroyEvent = .ok r ∧
      r.entry.Session = some freshSession.SessionID ∧
      r.entry.PurgeFlag = true ∧
      (r.entry.Session.isSome = true → r.state.sessionTable destroyEvent.ctid = none) ∧
      r.state.conntrackTable destroyEvent.ctid = none :=
  ⟨rfl, rfl, _, rfl, rfl,
    (conntrackCallback_destroy_flag 0 5 freshState destroyEvent _ rfl).1 rfl⟩

end Dispatch

namespace Dispatch

/-! ## Equality of tuples -/

theorem ipEqual_iff (a b : List Nat) : ipEqual a b = true ↔ ipCanon a = ipCanon b := by
  have hhead : v4InV6Head.length = 12 := rfl
  unfold ipEqual ipCanon
  by_cases hl : a.length = b.length
  · rw [if_pos hl]
    by_cases h4 : a.length = 4
    · rw [if_pos h4, if_pos (hl ▸ h4)]
      simp
    · rw [if_neg h4, if_neg (hl ▸ h4)]
      simp
  · rw [if_neg hl]
    by_cases h1 : a.length = 4 ∧ b.length = 16
    · rw [if_pos h1, if_pos h1.1, if_neg (by omega)]
      simp only [Bool.and_eq_true, beq_iff_eq]
      constructor
      · rintro ⟨ht, hd⟩
        rw [← ht, hd, List.take_append_drop]
      · intro h
        rw [← h]
        exact ⟨List.take_left' hhead, (List.drop_left' hhead).symm⟩
    · rw [if_neg h1]
      by_cases h2 : a.length = 16 ∧ b.length = 4
      · rw [if_pos h2, if_neg (by omega), if_pos h2.2]
        simp only [Bool.and_eq_true, beq_iff_eq]
        constructor
        · rintro ⟨ht, hd⟩
          rw [← ht, ← hd, List.take_append_drop]
        · intro h
          rw [h]
          exact ⟨List.take_left' hhead, List.drop_left' hhead⟩
      · rw [if_neg h2]
        constructor
        · intro h
          cases h
        · intro h
          have hlen := congrArg List.length h
          split_ifs at hlen <;> (try simp only [List.length_append, hhead] at hlen) <;> omega

theorem ipEqual_refl (a : List Nat) : ipEqual a a = true :=
  (ipEqual_iff a a).mpr rfl

theorem Tuple.Equal_iff (t o : Tuple) :
    t.Equal o = true ↔
      t.Protocol = o.Protocol ∧ t.ClientPort = o.ClientPort ∧ t.ServerPort = o.ServerPort ∧
      ipCanon t.ClientAddr = ipCanon o.ClientAddr ∧
      ipCanon t.ServerAddr = ipCanon o.ServerAddr := by
  rw [← ipEqual_iff, ← ipEqual_iff]
  unfold Tuple.Equal
  cases ipEqual t.ClientAddr o.ClientAddr <;> cases ipEqual t.ServerAddr o.ServerAddr <;>
    simp
  tauto

theorem Tuple.Equal_refl (t : Tuple) : t.Equal t = true :=
  (Tuple.Equal_iff t t).mpr ⟨rfl, rfl, rfl, rfl, rfl⟩

/-- C25, as stated, fails: `Tuple.Equal` compares the addresses with `net.IP.Equal`, which
holds between a four-byte IPv4 address and its sixteen-byte form; `shortTuple` and
`longTuple` are `Equal` although their client addresses are different byte sequences. -/
theorem Tuple_Equal_not_bytewise :
    shortTuple.Equal longTuple = true ∧ longTuple.Equal shortTuple = true ∧
    shortTuple.ClientAddr ≠ longTuple.ClientAddr ∧ shortTuple ≠ longTuple := by
  decide

/-- C25, amended: for all tuples `t` and `o`, `t.Equal o` is true if and only if their
`Protocol`, `ClientPort` and `ServerPort` are equal and their `ClientAddr` and `ServerAddr`
are equal as IP addresses, that is, have the same sixteen-byte form (a four-byte address
equals its sixteen-byte form; byte sequences of the same length are equal only when they are
the same); `Equal` is reflexive, symmetric and transitive; and between tuples whose
addresses have the same lengths it is equality of all five fields. -/
theorem Tuple_Equal_fieldwise :
    (∀ t o : Tuple, t.Equal o = true ↔
      t.Protocol = o.Protocol ∧ t.ClientPort = o.ClientPort ∧ t.ServerPort = o.ServerPort ∧
      ipCanon t.ClientAddr = ipCanon o.ClientAddr ∧
      ipCanon t.ServerAddr = ipCanon o.ServerAddr) ∧
    (∀ t : Tuple, t.Equal t = true) ∧
    (∀ t o : Tuple, t.Equal o = true → o.Equal t = true) ∧
    (∀ t o u : Tuple, t.Equal o = true → o.Equal u = true → t.Equal u = true) ∧
    (∀ t o : Tuple, t.ClientAddr.length = o.ClientAddr.length →
      t.ServerAddr.length = o.ServerAddr.length → (t.Equal o = true ↔ t = o)) := by
  refine ⟨Tuple.Equal_iff, Tuple.Equal_refl, ?_, ?_, ?_⟩
  · intro t o h
    rw [Tuple.Equal_iff] at h ⊢
    exact ⟨h.1.symm, h.2.1.symm, h.2.2.1.symm, h.2.2.2.1.symm, h.2.2.2.2.symm⟩
  · intro t o u h1 h2
    rw [Tuple.Equal_iff] at h1 h2 ⊢
    exact ⟨h1.1.trans h2.1, h1.2.1.trans h2.2.1, h1.2.2.1.trans h2.2.2.1,
      h1.2.2.2.1.trans h2.2.2.2.1, h1.2.2.2.2.trans h2.2.2.2.2⟩
  · intro t o hc hs
    have hsame : ∀ a b : List Nat, a.length = b.length → (ipCanon a = ipCanon b ↔ a = b) := by
      intro a b hl
      unfold ipCanon
      by_cases h4 : a.length = 4
      · rw [if_pos h4, if_pos (hl ▸ h4)]
        exact List.append_right_inj _
      · rw [if_neg h4, if_neg (hl ▸ h4)]
    rw [Tuple.Equal_iff, hsame _ _ hc, hsame _ _ hs]
    constructor
    · rintro ⟨h1, h2, h3, h4, h5⟩
      cases t
      cases o
      simp only [Tuple.mk.injEq]
      exact ⟨h1, h4, h2, h5, h3⟩
    · rintro rfl
      exact ⟨rfl, rfl, rfl, rfl, rfl⟩

theorem Tuple_Equal_fieldwise_witness :
    shortTuple.Equal longTuple = true ∧ longTuple.Equal shortTuple = true ∧
    shortTuple.Equal shortTuple = true :=
  ⟨by decide, by decide,
    Tuple_Equal_fieldwise.2.2.2.1 shortTuple longTuple shortTuple (by decide) (by decide)⟩

end Dispatch

namespace Dispatch

/-! ## The session of an nfqueue event -/

theorem nfqueueCreate_other (now : Int) (st : State) (ctid key : Nat) (tuple : Tuple)
    (h : key ≠ ctid) :
    (nfqueueCreate now st ctid tuple).1.sessionTable key = st.sessionTable key := by
  simp [nfqueueCreate, insertSessionEntry, h, nextSessionID]

/-- The session resolution of `nfqueueCallback` gives a session whose client-side tuple is
`Equal` to the tuple of the packet, and touches no key of the session table but `ctid`. -/
theorem nfqueueResolve_ok (now : Int) (st : State) (ctid : Nat) (tuple : Tuple) (st1 : State)
    (session : SessionEntry) (newSession : Bool)
    (h : nfqueueResolve now st ctid tuple = .ok (st1, session, newSession)) :
    session.ClientSideTuple.Equal tuple = true ∧
    ∀ key, key ≠ ctid → st1.sessionTable key = st.sessionTable key := by
  cases hs : st.sessionTable ctid with
  | none =>
    rw [nfqueueResolve_absent now st ctid tuple hs] at h
    cases h
    exact ⟨Tuple.Equal_refl tuple, fun key hk => nfqueueCreate_other now st ctid key tuple hk⟩
  | some s =>
    cases heq : s.ClientSideTuple.Equal tuple with
    | true =>
      rw [nfqueueResolve_match now st ctid tuple s hs heq] at h
      cases h
      exact ⟨heq, fun key hk => insertSessionEntry_other _ _ _ _ hk⟩
    | false =>
      cases hc : s.ConntrackConfirmed with
      | true =>
        rw [nfqueueResolve_confirmed_mismatch now st ctid tuple s hs heq hc] at h
        cases h
      | false =>
        rw [nfqueueResolve_stale now st ctid tuple s hs heq hc] at h
        cases h
        refine ⟨Tuple.Equal_refl tuple, fun key hk => ?_⟩
        rw [nfqueueCreate_other _ _ _ _ _ hk]
        simp [removeSessionEntry, insertSessionEntry, hk]

/-- C23: when `nfqueueCallback` returns on a packet with an IPv4 layer, the session table
maps `ctid` to a session whose `ClientSideTuple` is `Equal` to the tuple of the packet, and
every other key of the session table is bound as it was before the event. -/
theorem nfqueueCallback_session_keyed (fuel : Nat) (now : Int) (st : State) (ctid : Nat)
    (packet : Packet) (packetLength : Int) (pmark : Nat) (ip : IPv4Layer) (r : NfqueueReturn)
    (hip : packet.ipv4 = some ip)
    (h : nfqueueCallback fuel now st ctid packet packetLength pmark = .ok r) :
    (∃ s, r.state.sessionTable ctid = some s ∧
      s.ClientSideTuple.Equal (nfqueueTuple ip packet) = true) ∧
    ∀ key, key ≠ ctid → r.state.sessionTable key = st.sessionTable key := by
  obtain ⟨st1, session, newSession, w, hres, -, rfl⟩ :=
    nfqueueCallback_ok_inv fuel now st ctid packet packetLength pmark ip r hip h
  obtain ⟨heq, hother⟩ := nfqueueResolve_ok now st ctid _ st1 session newSession hres
  refine ⟨⟨_, insertSessionEntry_same _ _ _, heq⟩, fun key hk => ?_⟩
  rw [insertSessionEntry_other _ _ _ _ hk]
  exact hother key hk

theorem nfqueueCallback_session_keyed_witness :
    (staleState false).sessionTable 7 = some (staleSession false) ∧
    (staleSession false).ClientSideTuple.Equal
      (nfqueueTuple ⟨6, [10, 0, 0, 1], [1, 2, 3, 4]⟩ tcpPacket) = false ∧
    ∃ r, nfqueueCallback 2 9 (staleState false) 7 tcpPacket 60 0 = .ok r ∧
      (∃ s, r.state.sessionTable 7 = some s ∧
        s.ClientSideTuple.Equal (nfqueueTuple ⟨6, [10, 0, 0, 1], [1, 2, 3, 4]⟩ tcpPacket) =
          true) ∧
      ∀ key, key ≠ 7 → r.state.sessionTable key = (staleState false).sessionTable key :=
  ⟨rfl, by decide, _, rfl,
    nfqueueCallback_session_keyed 2 9 (staleState false) 7 tcpPacket 60 0
      ⟨6, [10, 0, 0, 1], [1, 2, 3, 4]⟩ _ rfl rfl⟩

end Dispatch

namespace Dispatch

/-! ## Zero as a session id -/

theorem Startup_sessionIndex (now : Int) :
    (Startup now).sessionIndex = (now % 2 ^ 32).toNat * 2 ^ 16 := by
  unfold Startup u64
  dsimp only
  omega

theorem Startup_eq (now : Int) :
    Startup now = emptyState ((now % 2 ^ 32).toNat * 2 ^ 16) := by
  show State.mk [] [] [] _ _ _ = State.mk [] [] [] _ _ _
  congr 1
  exact Startup_sessionIndex now

theorem Startup_zero : Startup 0 = emptyState 0 := by
  have h : ((0 : Int) % 2 ^ 32).toNat * 2 ^ 16 = 0 := by norm_num
  rw [Startup_eq, h]

theorem Startup_wrapped : Startup (2 ^ 32) = emptyState 0 := by
  have h : (((2 : Int) ^ 32) % 2 ^ 32).toNat * 2 ^ 16 = 0 := by norm_num
  rw [Startup_eq, h]

theorem Startup_example : Startup 1700000000 = emptyState 111411200000000 := by
  have h : ((1700000000 : Int) % 2 ^ 32).toNat * 2 ^ 16 = 111411200000000 := by omega
  rw [Startup_eq, h]

theorem nextSessionID_index_ne_zero (st : State) : (nextSessionID st).2.sessionIndex ≠ 0 := by
  show (if (st.sessionIndex + 1) % u64 = 0 then ((st.sessionIndex + 1) % u64 + 1) % u64
    else (st.sessionIndex + 1) % u64) ≠ 0
  unfold u64
  split_ifs with h
  · rw [h]
    decide
  · exact h

theorem sessionIDs_ne_zero (n : Nat) (st : State) (h : st.sessionIndex ≠ 0) :
    ∀ id ∈ sessionIDs n st, id ≠ 0 := by
  induction n generalizing st with
  | zero => exact fun id hid => absurd hid (List.not_mem_nil id)
  | succ n ih =>
    intro id hid
    rcases List.mem_cons.mp hid with rfl | hid
    · exact h
    · exact ih _ (nextSessionID_index_ne_zero st) id hid

/-- C24 fails on the code: `Startup` at a time that is a multiple of `2 ^ 32` seconds (Unix
time 0, or `2 ^ 32`) sets the counter to 0, and the first `nextSessionID` hands out 0. For
every startup time the counter is `(now mod 2 ^ 32) * 2 ^ 16`, with the high 16 and the low
16 bits zero; after any allocation the counter is not zero, across the 64-bit wraparound
too, so only the first identifier after `Startup` can be zero, and it is zero exactly when
the startup time is a multiple of `2 ^ 32`. -/
theorem nextSessionID_zero_at_epoch :
    ((Startup 0).sessionIndex = 0 ∧ (nextSessionID (Startup 0)).1 = 0 ∧
      (nextSessionID (Startup (2 ^ 32))).1 = 0 ∧ sessionIDs 3 (Startup 0) = [0, 1, 2]) ∧
    (∀ now : Int, (Startup now).sessionIndex = (now % 2 ^ 32).toNat * 2 ^ 16 ∧
      (Startup now).sessionIndex < 2 ^ 48 ∧ (Startup now).sessionIndex % 2 ^ 16 = 0) ∧
    (∀ st : State, (nextSessionID st).2.sessionIndex ≠ 0) ∧
    (nextSessionID (emptyState (2 ^ 64 - 1))).2.sessionIndex = 1 ∧
    (∀ (now : Int) (n : Nat), now % 2 ^ 32 ≠ 0 → ∀ id ∈ sessionIDs n (Startup now), id ≠ 0) ∧
    (∀ (now : Int) (n : Nat), ∀ id ∈ (sessionIDs n (Startup now)).tail, id ≠ 0) ∧
    (∀ now : Int, (nextSessionID (Startup now)).1 = 0 ↔ now % 2 ^ 32 = 0) := by
  refine ⟨⟨?_, ?_, ?_, ?_⟩, ?_, nextSessionID_index_ne_zero, by decide, ?_, ?_, ?_⟩
  · rw [Startup_zero]; rfl
  · rw [Startup_zero]; rfl
  · rw [Startup_wrapped]; rfl
  · rw [Startup_zero]; decide
  · intro now
    rw [Startup_sessionIndex]
    refine ⟨rfl, ?_, ?_⟩ <;> omega
  · intro now n hnow
    apply sessionIDs_ne_zero
    rw [Startup_sessionIndex]
    omega
  · intro now n id hid
    cases n with
    | zero => exact absurd hid (List.not_mem_nil id)
    | succ n => exact sessionIDs_ne_zero n _ (nextSessionID_index_ne_zero _) id hid
  · intro now
    show (Startup now).sessionIndex = 0 ↔ _
    rw [Startup_sessionIndex]
    omega

theorem nextSessionID_zero_at_epoch_witness :
    (1700000000 : Int) % 2 ^ 32 ≠ 0 ∧
    sessionIDs 2 (Startup 1700000000) = [111411200000000, 111411200000001] ∧
    ∀ id ∈ sessionIDs 2 (Startup 1700000000), id ≠ 0 :=
  ⟨by norm_num, by rw [Startup_example]; decide,
    nextSessionID_zero_at_epoch.2.2.2.2.1 1700000000 2 (by norm_num)⟩

end Dispatch

namespace SessionTable

/-! ## What the sweep removes -/

/-- The sweep of `session.go` over the entries `l` removes from the table the entries under
the key of an entry of `l` that is not fresh, and nothing else. -/
theorem sweep_table (now : Int) (l : List (String × SessionEntry)) (acc : Store) :
    (l.foldl (fun acc e =>
        if now - e.2.LastActivityTime < 600 then acc else removeSessionEntry acc e.1)
        acc).sessionTable =
      acc.sessionTable.filter (fun e =>
        !(l.any (fun x => !decide (now - x.2.LastActivityTime < 600) && x.1 == e.1))) := by
  induction l generalizing acc with
  | nil => simp
  | cons y ys ih =>
    rw [List.foldl_cons]
    by_cases hy : now - y.2.LastActivityTime < 600
    · rw [if_pos hy, ih]
      apply List.filter_congr
      intro e _
      simp [hy]
    · rw [if_neg hy, ih, removeSessionEntry_table, List.filter_filter]
      apply List.filter_congr
      intro e _
      by_cases hk : y.1 = e.1
      · simp [hy, hk]
      · have hk' : ¬ e.1 = y.1 := fun h => hk h.symm
        have h1 : (y.1 == e.1) = false := beq_eq_false_iff_ne.mpr hk
        have h2 : (e.1 != y.1) = true := bne_iff_ne.mpr hk'
        simp only [List.any_cons, hy, decide_False, Bool.not_false, Bool.true_and, h1,
          Bool.false_or, h2, Bool.and_true, Bool.not_false]

/-- On a table with distinct keys the sweep of `session.go` keeps exactly the fresh
entries. -/
theorem cleanSessionTable_filter (now : Int) (st : Store)
    (hnd : (st.sessionTable.map Prod.fst).Nodup) :
    (cleanSessionTable now st).sessionTable =
      st.sessionTable.filter (fun e => decide (now - e.2.LastActivityTime < 600)) := by
  unfold cleanSessionTable
  rw [sweep_table]
  apply List.filter_congr
  intro e he
  by_cases hf : now - e.2.LastActivityTime < 600
  · have hany : (st.sessionTable.any
        (fun x => !decide (now - x.2.LastActivityTime < 600) && x.1 == e.1)) = false := by
      rw [List.any_eq_false]
      intro x hx hc
      simp only [Bool.and_eq_true, Bool.not_eq_true', decide_eq_false_iff_not,
        beq_iff_eq] at hc
      have hxe : x = e := List.inj_on_of_nodup_map hnd hx he hc.2
      rw [hxe] at hc
      exact hc.1 hf
    rw [hany]
    simp [hf]
  · have hany : (st.sessionTable.any
        (fun x => !decide (now - x.2.LastActivityTime < 600) && x.1 == e.1)) = true := by
      rw [List.any_eq_true]
      exact ⟨e, he, by simp [hf]⟩
    rw [hany]
    simp [hf]

end SessionTable

namespace Dispatch

/-- C28: `cleanSessionTable`, run at time `now`, removes exactly the sessions whose idle time
`now - LastActivityTime` is at least 600 seconds, a session idle for exactly 600 seconds
included, and leaves every session idle for less than 600 seconds in the table as it was;
it adds nothing. This holds for the sweep of `dispatch.go` and, on a table with distinct
keys, for the sweep of `session.go`, which keeps exactly the entries idle for less than 600
seconds. -/
theorem cleanSessionTable_exact (now : Int) :
    (∀ (st : State) key s, st.sessionTable key = some s →
      ((cleanSessionTable now st).sessionTable key = none ↔ now - s.LastActivityTime ≥ 600) ∧
      (now - s.LastActivityTime < 600 →
        (cleanSessionTable now st).sessionTable key = some s)) ∧
    (∀ (st : State) key, st.sessionTable key = none →
      (cleanSessionTable now st).sessionTable key = none) ∧
    (∀ (st : SessionTable.Store), (st.sessionTable.map Prod.fst).Nodup →
      (SessionTable.cleanSessionTable now st).sessionTable =
        st.sessionTable.filter (fun e => decide (now - e.2.LastActivityTime < 600))) := by
  refine ⟨?_, ?_, SessionTable.cleanSessionTable_filter now⟩
  · intro st key s hs
    have hc : (cleanSessionTable now st).sessionTable key =
        if now - s.LastActivityTime < 600 then some s else none := by
      show (match st.sessionTable key with
        | some val => if now - val.LastActivityTime < 600 then some val else none
        | none => none) = _
      rw [hs]
    rw [hc]
    by_cases hf : now - s.LastActivityTime < 600
    · rw [if_pos hf]
      refine ⟨⟨fun h => ?_, fun h => ?_⟩, fun _ => rfl⟩
      · cases h
      · omega
    · rw [if_neg hf]
      refine ⟨⟨fun _ => ?_, fun _ => rfl⟩, fun h => ?_⟩
      · omega
      · omega
  · intro st key hs
    show (match st.sessionTable key with
      | some val => if now - val.LastActivityTime < 600 then some val else none
      | none => none) = _
    rw [hs]

theorem cleanSessionTable_exact_witness :
    (insertSessionEntry sweepState 3 (idleSession 400)).sessionTable 3 =
      some (idleSession 400) ∧
    (1000 : Int) - (idleSession 400).LastActivityTime = 600 ∧
    (cleanSessionTable 1000 (insertSessionEntry sweepState 3 (idleSession 400))).sessionTable 3
      = none ∧
    (cleanSessionTable 1000 (insertSessionEntry sweepState 3 (idleSession 400))).sessionTable 2
      = some (idleSession 990) ∧
    ((SessionTable.cleanSessionTable 1000 SessionTable.sweepStore).sessionTable.map Prod.fst =
      ["2"]) :=
  ⟨rfl, by decide,
    ((cleanSessionTable_exact 1000).1 (insertSessionEntry sweepState 3 (idleSession 400)) 3
      (idleSession 400) rfl).1.mpr (by decide),
    ((cleanSessionTable_exact 1000).1 (insertSessionEntry sweepState 3 (idleSession 400)) 2
      (idleSession 990) rfl).2 (by decide),
    rfl⟩

end Dispatch

namespace Classify

/-! ## Replies without a state -/

theorem lineValue_claimed (key line v : String) (h : lineValue key line = some v) :
    claimedValue key line = some v := by
  unfold lineValue at h
  unfold claimedValue
  cases hc : cut ':' ' ' line.data with
  | none => rw [hc] at h; cases h
  | some p =>
    obtain ⟨pre, rest⟩ := p
    rw [hc] at h
    dsimp only at h ⊢
    split_ifs at h with hp
    cases h
    rw [if_pos hp.1]

theorem claimedValue_line (key line v : String) (h : claimedValue key line = some v) :
    line = key ++ ": " ++ v := by
  unfold claimedValue at h
  cases hc : cut ':' ' ' line.data with
  | none => rw [hc] at h; cases h
  | some p =>
    obtain ⟨pre, rest⟩ := p
    rw [hc] at h
    dsimp only at h
    split_ifs at h with hp
    cases h
    apply String.ext
    rw [String.data_append, String.data_append, cut_some _ _ _ _ _ hc, hp, List.append_assoc]
    rfl

theorem parseLine_state_zero (r : Reply) (line : String) (hr : r.state = 0)
    (h : (claimedValue "STATE" line).bind atoi = none) : (parseLine r line).state = 0 := by
  rw [parseLine_spec]
  show ((lineValue "STATE" line).map fun v => (atoi v).getD 0).getD r.state = 0
  cases hv : lineValue "STATE" line with
  | none => exact hr
  | some v =>
    rw [lineValue_claimed _ _ _ hv] at h
    have ha : atoi v = none := h
    show (atoi v).getD 0 = 0
    rw [ha]
    rfl

theorem foldl_parseLine_state_zero (lines : List String) (r : Reply) (hr : r.state = 0)
    (h : ∀ line ∈ lines, (claimedValue "STATE" line).bind atoi = none) :
    (lines.foldl parseLine r).state = 0 := by
  induction lines generalizing r with
  | nil => exact hr
  | cons l ls ih =>
    rw [List.foldl_cons]
    exact ih _ (parseLine_state_zero r l hr (h l (List.mem_cons_self _ _)))
      fun x hx => h x (List.mem_cons_of_mem _ hx)

theorem parseReply_state_zero (applicationTable : AppTable) (reply : String)
    (h : noStateLine reply) : (parseReply applicationTable reply).state = 0 := by
  have hfold := foldl_parseLine_state_zero (stringsSplit reply "\r\n")
    ⟨"", "", "", "", 0, "", 0⟩ rfl h
  unfold parseReply
  dsimp only
  cases applicationTable (List.foldl parseLine ⟨"", "", "", "", 0, "", 0⟩
    (stringsSplit reply "\r\n")).appid <;> exact hfold

/-- C29: when the reply of the daemon contains no line `STATE: ` followed by an integer,
`parseReply` returns the state 0, which is `navlStateTerminated`, and every result the
classifier's `PluginNfqueueHandler` returns for the packet has `SessionRelease = true`,
whatever the packet and byte counts of the session are. The handler returns a result
when the attachments `application_confidence` and `application_protochain` have the types
the plugin gives them, and never runs out of fuel. -/
theorem classify_release_without_state (applicationTable : AppTable)
    (daemonClassifyPacket : String → List Nat → String) (mess : NfqueueMessage)
    (ctid : Nat) (newSession : Bool)
    (h : ∀ session, mess.Session = some session →
      noStateLine (classifyTraffic daemonClassifyPacket session mess)) :
    (∀ session, mess.Session = some session →
      (parseReply applicationTable
        (classifyTraffic daemonClassifyPacket session mess)).state = navlStateTerminated) ∧
    (∀ r, PluginNfqueueHandler applicationTable daemonClassifyPacket mess ctid newSession =
      .ok r → r.result.SessionRelease = true) ∧
    (∀ session, mess.Session = some session → confidenceTyped session.attachments →
      chainTyped session.attachments →
      ∃ r, PluginNfqueueHandler applicationTable daemonClassifyPacket mess ctid newSession =
        .ok r) ∧
    PluginNfqueueHandler applicationTable daemonClassifyPacket mess ctid newSession ≠
      .outOfFuel := by
  have hmain : ∀ session, mess.Session = some session →
      (∀ r, PluginNfqueueHandler applicationTable daemonClassifyPacket mess ctid newSession =
        .ok r → r.result.SessionRelease = true) ∧
      (confidenceTyped session.attachments → chainTyped session.attachments →
        ∃ r, PluginNfqueueHandler applicationTable daemonClassifyPacket mess ctid newSession =
          .ok r) ∧
      PluginNfqueueHandler applicationTable daemonClassifyPacket mess ctid newSession ≠
        .outOfFuel := by
    intro session hs
    have hstate := parseReply_state_zero applicationTable _ (h session hs)
    unfold PluginNfqueueHandler
    rw [hs]
    dsimp only
    by_cases h1 : session.SessionID = 0
    · rw [if_pos h1]
      exact ⟨fun r hr => by cases hr; rfl, fun _ _ => ⟨_, rfl⟩, fun hc => Outcome.noConfusion hc⟩
    rw [if_neg h1]
    by_cases h2 : (mess.IP4Layer.isNone && mess.IP6Layer.isNone) = true
    · rw [if_pos h2]
      exact ⟨fun r hr => by cases hr; rfl, fun _ _ => ⟨_, rfl⟩, fun hc => Outcome.noConfusion hc⟩
    rw [if_neg h2]
    by_cases h3 : goLen (classifyTraffic daemonClassifyPacket session mess) = 0
    · rw [if_pos h3]
      exact ⟨fun r hr => by cases hr; rfl, fun _ _ => ⟨_, rfl⟩, fun hc => Outcome.noConfusion hc⟩
    rw [if_neg h3]
    cases hp : processReply applicationTable
        (classifyTraffic daemonClassifyPacket session mess) session.attachments
        session.SessionID ctid with
    | panic msg =>
      refine ⟨fun r hr => (by cases hr), fun hconf hchain => ?_,
        fun hc => Outcome.noConfusion hc⟩
      obtain ⟨p, hp'⟩ := processReply_returns applicationTable
        (classifyTraffic daemonClassifyPacket session mess) session.attachments
        session.SessionID ctid hconf hchain
      rw [hp] at hp'
      cases hp'
    | outOfFuel => exact absurd hp (processReply_ne_outOfFuel _ _ _ _ _)
    | ok p =>
      have hp0 : p.state = navlStateTerminated :=
        (processReply_state _ _ _ _ _ p hp).trans hstate
      dsimp only
      rw [if_pos (Or.inr (Or.inl hp0))]
      exact ⟨fun r hr => by cases hr; rfl, fun _ _ => ⟨_, rfl⟩, fun hc => Outcome.noConfusion hc⟩
  refine ⟨fun session hs => parseReply_state_zero applicationTable _ (h session hs), ?_, ?_, ?_⟩
  · cases hs : mess.Session with
    | none =>
      intro r hr
      unfold PluginNfqueueHandler at hr
      rw [hs] at hr
      cases hr
      rfl
    | some session => exact (hmain session hs).1
  · intro session hs
    exact (hmain session hs).2.1
  · cases hs : mess.Session with
    | none =>
      unfold PluginNfqueueHandler
      rw [hs]
      exact fun hc => Outcome.noConfusion hc
    | some session => exact (hmain session hs).2.2

theorem classify_release_without_state_witness :
    noStateLine "APPLICATION: /FOO\r\nSTATE: soon\r\n" ∧
    (parseReply noApplications "APPLICATION: /FOO\r\nSTATE: soon\r\n").state = 0 ∧
    ∃ r, PluginNfqueueHandler noApplications (fun _ _ => "APPLICATION: /FOO\r\nSTATE: soon\r\n")
        firstMessage 100 true = .ok r ∧ r.result.SessionRelease = true :=
  ⟨by decide, by decide, _, rfl,
    (classify_release_without_state noApplications
      (fun _ _ => "APPLICATION: /FOO\r\nSTATE: soon\r\n") firstMessage 100 true
      (fun _ _ => show noStateLine "APPLICATION: /FOO\r\nSTATE: soon\r\n" from by decide)).2.1
      _ rfl⟩

end Classify

namespace Sni

/-! ## Termination of the extension loop -/

/-- One round of the extension loop from an offset inside the buffer either ends the loop,
with a result or a panic that does not depend on the fuel left, or goes on from an offset at
least 4 higher. -/
theorem extensionLoop_round (buffer : List Nat) (current : Nat)
    (h : current < buffer.length) :
    (∃ r, r ≠ .outOfFuel ∧ ∀ fuel, extensionLoop buffer (fuel + 1) current = r) ∨
    (∃ next, current + 4 ≤ next ∧
      ∀ fuel, extensionLoop buffer (fuel + 1) current = extensionLoop buffer fuel next) := by
  rcases readPair_cases buffer current with ⟨t, ht⟩ | ⟨msg, ht⟩
  · rcases readPair_cases buffer (current + 2) with ⟨l, hl⟩ | ⟨msg, hl⟩
    · by_cases htyp : (t != 0) = true
      · refine Or.inr ⟨current + 2 + 2 + l, by omega, fun fuel => ?_⟩
        rw [extensionLoop, if_pos h]
        simp only [ht, hl, bind_ok, htyp, if_true]
      · rcases readByte_cases buffer (current + 2 + 2 + 2) with ⟨nt, hnt⟩ | ⟨msg, hnt⟩
        · by_cases hname : (nt == 0) = true
          · rcases readPair_cases buffer (current + 2 + 2 + 2 + 1) with ⟨nl, hnl⟩ | ⟨msg, hnl⟩
            · rcases slice_cases buffer (current + 2 + 2 + 2 + 1 + 2)
                (current + 2 + 2 + 2 + 1 + 2 + nl) with ⟨xs, hxs⟩ | ⟨msg, hxs⟩
              · refine Or.inl ⟨.ok (true, xs), fun hc => Outcome.noConfusion hc, fun fuel => ?_⟩
                rw [extensionLoop, if_pos h]
                simp only [ht, hl, bind_ok, htyp, hnt, hname, hnl, hxs, if_true, pure_eq_ok]
                rfl
              · refine Or.inl ⟨.panic msg, fun hc => Outcome.noConfusion hc, fun fuel => ?_⟩
                rw [extensionLoop, if_pos h]
                simp only [ht, hl, bind_ok, htyp, hnt, hname, hnl, hxs, if_true, bind_panic]
                rfl
            · refine Or.inl ⟨.panic msg, fun hc => Outcome.noConfusion hc, fun fuel => ?_⟩
              rw [extensionLoop, if_pos h]
              simp only [ht, hl, bind_ok, htyp, hnt, hname, hnl, if_true, bind_panic]
              rfl
          · refine Or.inr ⟨current + 2 + 2 + l, by omega, fun fuel => ?_⟩
            rw [extensionLoop, if_pos h]
            simp only [ht, hl, bind_ok, htyp, hnt, hname]
            rfl
        · refine Or.inl ⟨.panic msg, fun hc => Outcome.noConfusion hc, fun fuel => ?_⟩
          rw [extensionLoop, if_pos h]
          simp only [ht, hl, bind_ok, htyp, hnt, bind_panic]
          rfl
    · refine Or.inl ⟨.panic msg, fun hc => Outcome.noConfusion hc, fun fuel => ?_⟩
      rw [extensionLoop, if_pos h]
      simp only [ht, hl, bind_ok, bind_panic]
  · refine Or.inl ⟨.panic msg, fun hc => Outcome.noConfusion hc, fun fuel => ?_⟩
    rw [extensionLoop, if_pos h]
    simp only [ht, bind_panic]

/-- Fuel beyond a quarter of the bytes still ahead does not change what the loop returns. -/
theorem extensionLoop_fuel (buffer : List Nat) :
    ∀ fuel fuel' current, buffer.length ≤ current + 4 * fuel → fuel ≤ fuel' →
      extensionLoop buffer fuel' current = extensionLoop buffer fuel current := by
  have hdone : ∀ fuel current, ¬ current < buffer.length →
      extensionLoop buffer fuel current = .ok (true, []) := by
    intro fuel current h
    cases fuel <;> rw [extensionLoop, if_neg h]
  intro fuel
  induction fuel with
  | zero =>
    intro fuel' current h _
    rw [hdone fuel' current (by omega), hdone 0 current (by omega)]
  | succ fuel ih =>
    intro fuel' current h hle
    obtain ⟨k, rfl⟩ : ∃ k, fuel' = k + 1 := ⟨fuel' - 1, by omega⟩
    by_cases hlt : current < buffer.length
    · rcases extensionLoop_round buffer current hlt with ⟨r, -, hr⟩ | ⟨next, hnext, hr⟩
      · rw [hr k, hr fuel]
      · rw [hr k, hr fuel]
        exact ih k next (by omega) (by omega)
    · rw [hdone _ current hlt, hdone _ current hlt]

/-- C30: for every byte buffer the extension loop of `extractSNIhostname` terminates. A round
that does not end the loop advances the offset `current` by at least 4, whatever the length
fields of the extensions hold; so from any offset the loop ends within
`ceil(len(buffer) / 4)` rounds, more rounds of fuel change nothing, and `extractSNIhostname`
never runs out of fuel. -/
theorem extensionLoop_terminates (buffer : List Nat) :
    (∀ current, current < buffer.length →
      (∃ r, r ≠ .outOfFuel ∧ ∀ fuel, extensionLoop buffer (fuel + 1) current = r) ∨
      (∃ next, current + 4 ≤ next ∧
        ∀ fuel, extensionLoop buffer (fuel + 1) current = extensionLoop buffer fuel next)) ∧
    (∀ current, extensionLoop buffer ((buffer.length + 3) / 4) current ≠ .outOfFuel) ∧
    (∀ fuel current, (buffer.length + 3) / 4 ≤ fuel →
      extensionLoop buffer fuel current =
        extensionLoop buffer ((buffer.length + 3) / 4) current) ∧
    extractSNIhostname buffer ≠ .outOfFuel :=
  ⟨extensionLoop_round buffer,
    fun current => extensionLoop_ne_outOfFuel buffer _ current (by omega),
    fun fuel current hle => extensionLoop_fuel buffer _ fuel current (by omega) hle,
    extractSNIhostname_ne_outOfFuel buffer⟩

theorem extensionLoop_terminates_witness :
    helloAbc.length = 69 ∧ (helloAbc.length + 3) / 4 = 18 ∧
    extensionLoop helloAbc 18 52 = .ok (true, [97, 98, 99]) ∧
    extensionLoop helloAbc helloAbc.length 52 =
      extensionLoop helloAbc ((helloAbc.length + 3) / 4) 52 :=
  ⟨by decide, by decide, rfl,
    (extensionLoop_terminates helloAbc).2.2.1 helloAbc.length 52 (by decide)⟩

end Sni

namespace Dispatch

/-! ## The purge flag in the conntrack table -/

theorem conntrackFind_table_other (now : Int) (st : State) (ev : ConntrackEvent)
    (st1 : State) (e1 : ConntrackEntry) (h : conntrackFind now st ev = .ok (st1, e1))
    (key : Nat) (hk : key ≠ ev.ctid) : st1.conntrackTable key = st.conntrackTable key := by
  unfold conntrackFind at h
  cases hf : findConntrackEntry st ev.ctid with
  | some e =>
    rw [hf] at h
    cases h
    exact if_neg hk
  | none =>
    rw [hf] at h
    dsimp only at h
    cases hs : findSessionEntry (nextSessionID st).2 ev.ctid with
    | none =>
      rw [hs] at h
      cases h
      exact if_neg hk
    | some s =>
      rw [hs] at h
      dsimp only at h
      split_ifs at h
      · cases h; exact if_neg hk
      · cases h; exact if_neg hk

theorem conntrackDestroy_table (st : State) (ev : ConntrackEvent) (e : ConntrackEntry)
    (key : Nat) :
    (conntrackDestroy st ev e).1.conntrackTable key =
      if key = ev.ctid then
        (if ev.eventType = eventDestroy then none else some { e with PurgeFlag := false })
      else st.conntrackTable key := by
  unfold conntrackDestroy
  by_cases hd : ev.eventType = eventDestroy
  · rw [if_pos hd, if_pos hd]
    dsimp only
    by_cases hk : key = ev.ctid
    · cases e.Session <;>
        simp [removeConntrackEntry, removeSessionEntry, insertConntrackEntry, hk]
    · cases e.Session <;>
        simp [removeConntrackEntry, removeSessionEntry, insertConntrackEntry, hk]
  · rw [if_neg hd, if_neg hd]
    rfl

/-- A returning `conntrackCallback` touches the conntrack table under the id of the event
only, and leaves there nothing, after a DESTROY, or an entry with `PurgeFlag = false`. -/
theorem conntrackCallback_table (fuel : Nat) (now : Int) (st : State) (ev : ConntrackEvent)
    (r : ConntrackReturn) (h : conntrackCallback fuel now st ev = .ok r) :
    (∀ key, key ≠ ev.ctid → r.state.conntrackTable key = st.conntrackTable key) ∧
    (ev.eventType = eventDestroy → r.state.conntrackTable ev.ctid = none) ∧
    (ev.eventType ≠ eventDestroy →
      ∃ e, r.state.conntrackTable ev.ctid = some e ∧ e.PurgeFlag = false) := by
  obtain ⟨st1, e1, hfind, hother, hupdate⟩ := conntrackCallback_ok_inv fuel now st ev r h
  have hkeep := conntrackFind_table_other now st ev st1 e1 hfind
  by_cases hu : ev.eventType = eventUpdate
  · obtain ⟨e3, hb, hs, -⟩ := hupdate hu
    have hflag := (conntrackBytes_flag ev _ e3 hb).1
    have hd : ev.eventType ≠ eventDestroy := by rw [hu]; decide
    refine ⟨fun key hk => ?_, fun h => absurd h hd, fun _ => ⟨e3, ?_, ?_⟩⟩
    · rw [hs]
      show (if key = ev.ctid then some e3 else _) = _
      rw [if_neg hk, conntrackDestroy_table, if_neg hk]
      show (if key = ev.ctid then _ else st1.conntrackTable key) = _
      rw [if_neg hk, hkeep key hk]
    · rw [hs]
      exact if_pos rfl
    · rw [hflag]
      unfold conntrackDestroy
      rw [if_neg hd]
  · obtain ⟨hs, -⟩ := hother hu
    refine ⟨fun key hk => ?_, fun hd => ?_, fun hd =>
      ⟨{ ({ e1 with LastActivityTime := now } : ConntrackEntry) with PurgeFlag := false },
        ?_, rfl⟩⟩
    · rw [hs, conntrackDestroy_table, if_neg hk]
      show (if key = ev.ctid then _ else st1.conntrackTable key) = _
      rw [if_neg hk, hkeep key hk]
    · rw [hs, conntrackDestroy_table, if_pos rfl, if_pos hd]
    · rw [hs, conntrackDestroy_table, if_pos rfl, if_neg hd]

theorem conntrackCallback_noPurgeFlag (fuel : Nat) (now : Int) (st : State)
    (ev : ConntrackEvent) (r : ConntrackReturn)
    (h : conntrackCallback fuel now st ev = .ok r) (hinv : noPurgeFlag st) :
    noPurgeFlag r.state := by
  obtain ⟨hkeep, hdes, hset⟩ := conntrackCallback_table fuel now st ev r h
  intro key e he
  by_cases hk : key = ev.ctid
  · subst hk
    by_cases hd : ev.eventType = eventDestroy
    · rw [hdes hd] at he
      cases he
    · obtain ⟨e', he', hflag⟩ := hset hd
      rw [he'] at he
      cases he
      exact hflag
  · rw [hkeep key hk] at he
    exact hinv key e he

/-- C27: in every state reached from an empty conntrack table by a sequence of returning
`conntrackCallback` calls, every entry of the conntrack table has `PurgeFlag = false`: a
DESTROY event leaves no entry under its id, every other event leaves one with the flag
cleared, and no other key is touched. So `cleanConntrackTable`, run at any time on such a
state, removes nothing. -/
theorem conntrackTable_never_flagged (fuel : Nat) (st0 : State)
    (calls : List (Int × ConntrackEvent)) (st : State)
    (hempty : ∀ key, st0.conntrackTable key = none)
    (hrun : conntrackRun fuel st0 calls = .ok st) :
    (∀ key e, st.conntrackTable key = some e → e.PurgeFlag = false) ∧
    ∀ now key, (cleanConntrackTable now st).conntrackTable key = st.conntrackTable key := by
  have hinv : noPurgeFlag st := by
    have h0 : noPurgeFlag st0 := fun key e he => by rw [hempty key] at he; cases he
    clear hempty
    induction calls generalizing st0 with
    | nil =>
      cases hrun
      exact h0
    | cons call rest ih =>
      rw [conntrackRun] at hrun
      cases hc : conntrackCallback fuel call.1 st0 call.2 with
      | panic msg => rw [hc] at hrun; cases hrun
      | outOfFuel => rw [hc] at hrun; cases hrun
      | ok r =>
        rw [hc] at hrun
        exact ih r.state hrun (conntrackCallback_noPurgeFlag fuel call.1 st0 call.2 r hc h0)
  refine ⟨hinv, fun now key => ?_⟩
  show (match st.conntrackTable key with
    | some val =>
      if val.PurgeFlag = false then some val
      else if now - val.LastActivityTime < 600 then some val else none
    | none => none) = _
  cases he : st.conntrackTable key with
  | none => rfl
  | some val =>
    dsimp only
    rw [if_pos (hinv key val he)]

theorem conntrackTable_never_flagged_witness :
    ∃ st, conntrackRun 0 (emptyState 65536)
        [(0, newEvent), (30, secondEvent), (700, destroyEvent)] = .ok st ∧
      st.conntrackTable 100 = none ∧
      (∃ e, st.conntrackTable 200 = some e ∧ e.LastActivityTime = 30 ∧
        e.PurgeFlag = false) ∧
      (cleanConntrackTable 5000 st).conntrackTable 200 = st.conntrackTable 200 :=
  ⟨_, rfl, rfl, ⟨_, rfl, rfl, rfl⟩,
    (conntrackTable_never_flagged 0 (emptyState 65536)
      [(0, newEvent), (30, secondEvent), (700, destroyEvent)] _ (fun _ => rfl) rfl).2 5000 200⟩

end Dispatch

namespace Dispatch

/-! ## The number of waves -/

theorem waveCount_gt (subs : SubMap) : ∀ e ∈ subs, e.2.Priority.toNat < waveCount subs := by
  induction subs with
  | nil => exact fun e he => absurd he (List.not_mem_nil e)
  | cons x xs ih =>
    intro e he
    rw [waveCount]
    rcases List.mem_cons.mp he with rfl | he
    · omega
    · have := ih e he
      omega

theorem waveCount_attained (subs : SubMap) (h : subs ≠ []) :
    ∃ e ∈ subs, e.2.Priority.toNat + 1 = waveCount subs := by
  induction subs with
  | nil => exact absurd rfl h
  | cons x xs ih =>
    rw [waveCount]
    by_cases hx : waveCount xs ≤ x.2.Priority.toNat + 1
    · exact ⟨x, List.mem_cons_self _ _, by omega⟩
    · have hne : xs ≠ [] := by
        rintro rfl
        simp [waveCount] at hx
      obtain ⟨e, he, heq⟩ := ih hne
      exact ⟨e, List.mem_cons_of_mem _ he, by omega⟩

theorem waveCount_nil_iff (subs : SubMap) : waveCount subs = 0 ↔ subs = [] := by
  cases subs with
  | nil => exact ⟨fun _ => rfl, fun _ => rfl⟩
  | cons x xs =>
    rw [waveCount]
    constructor
    · intro h; omega
    · intro h; cases h

theorem waveCount_le (subs : SubMap) (hprio : priorityBelow subs (2 ^ 63)) :
    waveCount subs ≤ 2 ^ 63 := by
  by_cases h : subs = []
  · rw [h]
    exact Nat.zero_le _
  · obtain ⟨e, he, heq⟩ := waveCount_attained subs h
    have := (hprio e he).2
    have h0 := (hprio e he).1
    push_cast at this
    omega

/-- Before the wave of priority `k` the subscriptions of lower priority are all of them
exactly when `k` is the number of waves. -/
theorem filter_below_length (subs : SubMap) (hprio : ∀ e ∈ subs, 0 ≤ e.2.Priority) (k : Nat)
    (hk : k ≤ waveCount subs) :
    (subs.filter (fun e => decide (e.2.Priority < (k : Int)))).length = subs.length ↔
      k = waveCount subs := by
  constructor
  · intro h
    by_contra hne
    have hlt : k < waveCount subs := by omega
    have hnil : subs ≠ [] := fun h0 => by rw [h0] at hlt; exact absurd hlt (Nat.not_lt_zero k)
    obtain ⟨e, he, heq⟩ := waveCount_attained subs hnil
    have hall := List.filter_length_eq_length.mp h e he
    have h0 := hprio e he
    simp only [decide_eq_true_eq] at hall
    omega
  · rintro rfl
    rw [List.filter_length_eq_length]
    intro e he
    have := waveCount_gt subs e he
    have h0 := hprio e he
    simp only [decide_eq_true_eq]
    omega

theorem conntrackWaves_done (sublist : SubMap) (subtotal fuel : Nat) (priority : Int)
    (calls : List String) :
    conntrackWaves sublist subtotal fuel subtotal priority calls = some calls := by
  cases fuel <;> rw [conntrackWaves, if_pos rfl]

theorem byPriority_zero (subs : SubMap) (k : Nat) : byPriority subs k 0 = [] := by
  rw [byPriority]

/-- The fan-out loop of `conntrackCallback` on a set of non-negative priorities: started
before the wave of priority `k`, it ends when it has fuel for the waves up to the highest
priority, having called the subscriptions of the remaining priorities in order, and runs out
of fuel otherwise. -/
theorem conntrackWaves_exact (sublist : SubMap) (hprio : priorityBelow sublist (2 ^ 63)) :
    ∀ fuel k calls, k ≤ waveCount sublist →
      conntrackWaves sublist sublist.length fuel
          (sublist.filter (fun e => decide (e.2.Priority < (k : Int)))).length (k : Int) calls =
        if waveCount sublist ≤ k + fuel then
          some (calls ++ (byPriority sublist k (waveCount sublist - k)).map Prod.fst)
        else none := by
  have hnn : ∀ e ∈ sublist, 0 ≤ e.2.Priority := fun e he => (hprio e he).1
  have hW := waveCount_le sublist hprio
  intro fuel
  induction fuel with
  | zero =>
    intro k calls hk
    rw [conntrackWaves]
    by_cases hkw : k = waveCount sublist
    · rw [if_pos ((filter_below_length sublist hnn k hk).mpr hkw), if_pos (by omega), hkw,
        Nat.sub_self, byPriority_zero, List.map_nil, List.append_nil]
    · rw [if_neg (fun h => hkw ((filter_below_length sublist hnn k hk).mp h)),
        if_neg (by omega)]
  | succ fuel ih =>
    intro k calls hk
    by_cases hkw : k = waveCount sublist
    · rw [(filter_below_length sublist hnn k hk).mpr hkw, conntrackWaves_done,
        if_pos (by omega), hkw, Nat.sub_self, byPriority_zero, List.map_nil, List.append_nil]
    · have hlt : k < waveCount sublist := by omega
      rw [conntrackWaves, if_neg (fun h => hkw ((filter_below_length sublist hnn k hk).mp h))]
      dsimp only
      rw [← filter_priority_split]
      have hsplit : waveCount sublist - k = (waveCount sublist - (k + 1)) + 1 := by omega
      by_cases hlast : k + 1 = waveCount sublist
      · have hfull : (sublist.filter (fun e => decide (e.2.Priority < (k : Int) + 1))).length =
            sublist.length := by
          have := (filter_below_length sublist hnn (k + 1) (by omega)).mpr hlast
          push_cast at this
          exact this
        rw [hfull, conntrackWaves_done, if_pos (by omega), hsplit, byPriority, ← hlast,
          Nat.sub_self, byPriority_zero, List.append_nil]
      · have hinc : intInc (k : Int) = ((k + 1 : Nat) : Int) := by
          unfold intInc
          push_cast
          rw [if_neg (by omega)]
        have h := ih (k + 1) (calls ++ (sublist.filter
          (fun e => e.2.Priority == (k : Int))).map (fun e => e.1)) (by omega)
        push_cast at h hinc
        rw [hinc, h, hsplit, byPriority]
        by_cases hf : waveCount sublist ≤ k + 1 + fuel
        · rw [if_pos hf, if_pos (by omega), List.map_append, List.append_assoc]
        · rw [if_neg hf, if_neg (by omega)]

theorem netloggerWaves_eq (sublist : SubMap) (subtotal : Nat) :
    ∀ fuel subcount priority calls,
      netloggerWaves sublist subtotal fuel subcount priority calls =
        conntrackWaves sublist subtotal fuel subcount priority calls := by
  intro fuel
  induction fuel with
  | zero =>
    intro subcount priority calls
    rw [netloggerWaves, conntrackWaves]
  | succ fuel ih =>
    intro subcount priority calls
    rw [netloggerWaves, conntrackWaves]
    split_ifs
    · rfl
    · exact ih _ _ _

end Dispatch

namespace Dispatch

theorem filter_length_split (l : SubMap) (p q r : String × SubscriptionHolder → Bool)
    (h : ∀ e ∈ l, (if p e = true then 1 else 0) =
      (if q e = true then 1 else 0) + (if r e = true then 1 else 0)) :
    (l.filter p).length = (l.filter q).length + (l.filter r).length := by
  induction l with
  | nil => rfl
  | cons e es ih =>
    have key : ∀ s : String × SubscriptionHolder → Bool,
        ((e :: es).filter s).length = (if s e = true then 1 else 0) + (es.filter s).length := by
      intro s
      rw [List.filter_cons]
      split_ifs
      · rw [List.length_cons]; omega
      · omega
    rw [key, key, key, ih fun x hx => h x (List.mem_cons_of_mem _ hx),
      h e (List.mem_cons_self _ _)]
    omega

theorem filter_nonneg_split (l : SubMap) (k : Nat) :
    (l.filter (fun e => decide (0 ≤ e.2.Priority ∧ e.2.Priority < (k : Int) + 1))).length =
      (l.filter (fun e => decide (0 ≤ e.2.Priority ∧ e.2.Priority < (k : Int)))).length +
      (l.filter (fun e => e.2.Priority == (k : Int))).length := by
  apply filter_length_split
  intro e _
  simp only [decide_eq_true_eq, beq_iff_eq]
  split_ifs <;> omega

theorem filter_nonneg_lt (l : SubMap) (h : ∃ e ∈ l, e.2.Priority < 0) (k : Nat) :
    (l.filter (fun e => decide (0 ≤ e.2.Priority ∧ e.2.Priority < (k : Int)))).length <
      l.length := by
  rw [List.length_filter_lt_length_iff_exists]
  obtain ⟨e, he, hneg⟩ := h
  refine ⟨e, he, ?_⟩
  simp only [decide_eq_true_eq, not_and, not_lt]
  intro h0
  omega

/-- The fan-out loop of `conntrackCallback` on a set with a subscription of negative
priority does not reach its exit while the priority counts upward from 0. -/
theorem conntrackWaves_negative (sublist : SubMap) (h : ∃ e ∈ sublist, e.2.Priority < 0) :
    ∀ (fuel k subcount : Nat) (calls : List String), k + fuel ≤ 2 ^ 63 →
      subcount ≤
        (sublist.filter (fun e => decide (0 ≤ e.2.Priority ∧ e.2.Priority < (k : Int)))).length →
      conntrackWaves sublist sublist.length fuel subcount (k : Int) calls = none := by
  intro fuel
  induction fuel with
  | zero =>
    intro k subcount calls _ hcnt
    have := filter_nonneg_lt sublist h k
    rw [conntrackWaves, if_neg (by omega)]
  | succ fuel ih =>
    intro k subcount calls hk hcnt
    have hlt := filter_nonneg_lt sublist h k
    rw [conntrackWaves, if_neg (by omega)]
    dsimp only
    have hcnt' : subcount + (sublist.filter (fun e => e.2.Priority == (k : Int))).length ≤
        (sublist.filter (fun e => decide (0 ≤ e.2.Priority ∧
          e.2.Priority < ((k + 1 : Nat) : Int)))).length := by
      push_cast
      rw [filter_nonneg_split]
      omega
    rcases Nat.eq_zero_or_pos fuel with rfl | hpos
    · have := filter_nonneg_lt sublist h (k + 1)
      rw [conntrackWaves, if_neg (by omega)]
    · have hinc : intInc (k : Int) = ((k + 1 : Nat) : Int) := by
        unfold intInc
        push_cast
        rw [if_neg (by omega)]
      rw [hinc]
      exact ih (k + 1) _ _ (by omega) hcnt'

theorem byPriority_mem (subs : SubMap) :
    ∀ n k, ∀ e ∈ byPriority subs k n, e ∈ subs ∧ (k : Int) ≤ e.2.Priority := by
  intro n
  induction n with
  | zero => intro k e he; rw [byPriority] at he; exact absurd he (List.not_mem_nil e)
  | succ n ih =>
    intro k e he
    rw [byPriority] at he
    rcases List.mem_append.mp he with he | he
    · rw [List.mem_filter] at he
      have := he.2
      simp only [beq_iff_eq] at this
      exact ⟨he.1, by omega⟩
    · have := ih (k + 1) e he
      push_cast at this
      exact ⟨this.1, by omega⟩

theorem byPriority_succ (subs : SubMap) (n k : Nat) :
    byPriority subs k (n + 1) =
      byPriority subs k n ++ subs.filter (fun e => e.2.Priority == ((k + n : Nat) : Int)) := by
  induction n generalizing k with
  | zero => simp [byPriority]
  | succ n ih =>
    rw [byPriority, ih (k + 1), byPriority, List.append_assoc]
    have : k + 1 + n = k + (n + 1) := by omega
    rw [this]

/-- The subscriptions of the priorities `k` up to `k + n`, taken wave by wave, are the
subscriptions of the set with a priority in that range, each once. -/
theorem byPriority_perm (subs : SubMap) (n k : Nat) :
    (byPriority subs k n).Perm
      (subs.filter (fun e => decide ((k : Int) ≤ e.2.Priority ∧
        e.2.Priority < ((k + n : Nat) : Int)))) := by
  induction n generalizing k with
  | zero =>
    rw [byPriority]
    have : subs.filter (fun e => decide ((k : Int) ≤ e.2.Priority ∧
        e.2.Priority < ((k + 0 : Nat) : Int))) = [] := by
      rw [List.filter_eq_nil_iff]
      intro e _
      simp only [decide_eq_true_eq, Nat.add_zero]
      omega
    rw [this]
  | succ n ih =>
    rw [byPriority]
    have hsplit := List.filter_append_perm (fun e => e.2.Priority == (k : Int))
      (subs.filter (fun e => decide ((k : Int) ≤ e.2.Priority ∧
        e.2.Priority < ((k + (n + 1) : Nat) : Int))))
    rw [List.filter_filter, List.filter_filter] at hsplit
    have h1 : subs.filter (fun a => (a.2.Priority == (k : Int)) &&
          decide ((k : Int) ≤ a.2.Priority ∧ a.2.Priority < ((k + (n + 1) : Nat) : Int))) =
        subs.filter (fun e => e.2.Priority == (k : Int)) := by
      apply List.filter_congr
      intro e _
      rw [Bool.eq_iff_iff]
      simp only [Bool.and_eq_true, beq_iff_eq, decide_eq_true_eq]
      push_cast
      constructor
      · intro h; omega
      · intro h; omega
    have h2 : subs.filter (fun a => (!(a.2.Priority == (k : Int))) &&
          decide ((k : Int) ≤ a.2.Priority ∧ a.2.Priority < ((k + (n + 1) : Nat) : Int))) =
        subs.filter (fun e => decide (((k + 1 : Nat) : Int) ≤ e.2.Priority ∧
          e.2.Priority < ((k + 1 + n : Nat) : Int))) := by
      apply List.filter_congr
      intro e _
      rw [Bool.eq_iff_iff]
      simp only [Bool.and_eq_true, Bool.not_eq_true', beq_eq_false_iff_ne, ne_eq,
        decide_eq_true_eq]
      push_cast
      constructor
      · intro h; omega
      · intro h; omega
    rw [h1, h2] at hsplit
    exact (List.Perm.append_left _ (ih (k + 1))).trans hsplit

theorem byPriority_all (subs : SubMap) (hprio : ∀ e ∈ subs, 0 ≤ e.2.Priority) :
    (byPriority subs 0 (waveCount subs)).Perm subs := by
  have h := byPriority_perm subs (waveCount subs) 0
  have hall : subs.filter (fun e => decide (((0 : Nat) : Int) ≤ e.2.Priority ∧
      e.2.Priority < ((0 + waveCount subs : Nat) : Int))) = subs := by
    rw [List.filter_eq_self]
    intro e he
    have h0 := hprio e he
    have h1 := waveCount_gt subs e he
    simp only [decide_eq_true_eq, Nat.zero_add, Nat.cast_zero]
    omega
  rw [hall] at h
  exact h

end Dispatch

namespace Dispatch

theorem waveInv_hits (subs0 : SubMap) (k : Nat) (w : WaveState) (h : waveInv subs0 k w) :
    waveHits w = subs0.filter (fun e => e.2.Priority == (k : Int)) := by
  obtain ⟨hp, -, hfil, -⟩ := h
  unfold waveHits
  rw [hp, filter_priority_eq w.Subs, hfil, ← filter_priority_eq subs0]

theorem nfqueueWave_iterate_inv (mess : TrafficMessage) (ctid : Nat) (newSession : Bool)
    (subs0 : SubMap) (pmark : Nat) (hprio : priorityBelow subs0 (2 ^ 63))
    (hlater : releasesNoLater mess ctid newSession subs0) :
    ∀ k, k < waveCount subs0 →
      waveInv subs0 k ((nfqueueWave mess ctid newSession)^[k] ⟨subs0, pmark, 0, 0, []⟩) := by
  have hW := waveCount_le subs0 hprio
  intro k
  induction k with
  | zero => exact fun _ => waveInv_init subs0 pmark fun e he => (hprio e he).1
  | succ k ih =>
    intro hk
    rw [Function.iterate_succ_apply']
    exact nfqueueWave_inv mess ctid newSession subs0 hlater k (by omega) _ (ih (by omega))

theorem nfqueueWave_iterate_subcount (mess : TrafficMessage) (ctid : Nat) (newSession : Bool)
    (subs0 : SubMap) (pmark : Nat) (hprio : priorityBelow subs0 (2 ^ 63))
    (hlater : releasesNoLater mess ctid newSession subs0) :
    ∀ k, k ≤ waveCount subs0 →
      ((nfqueueWave mess ctid newSession)^[k] ⟨subs0, pmark, 0, 0, []⟩).subcount =
        (subs0.filter (fun e => decide (e.2.Priority < (k : Int)))).length := by
  intro k
  induction k with
  | zero => exact fun _ => (waveInv_init subs0 pmark fun e he => (hprio e he).1).2.2.2
  | succ k ih =>
    intro hk
    have hinv := nfqueueWave_iterate_inv mess ctid newSession subs0 pmark hprio hlater k
      (by omega)
    rw [Function.iterate_succ_apply']
    show _ + (waveHits _).length = _
    rw [ih (by omega), waveInv_hits subs0 k _ hinv]
    push_cast
    rw [filter_priority_split]

theorem invoked_eq_byPriority (mess : TrafficMessage) (ctid : Nat) (newSession : Bool)
    (subs0 : SubMap) (pmark : Nat) (hprio : priorityBelow subs0 (2 ^ 63))
    (hlater : releasesNoLater mess ctid newSession subs0) :
    ∀ n, n ≤ waveCount subs0 →
      invoked mess ctid newSession n ⟨subs0, pmark, 0, 0, []⟩ = byPriority subs0 0 n := by
  intro n
  induction n with
  | zero => intro _; rw [invoked, byPriority]
  | succ n ih =>
    intro hn
    rw [invoked_succ, byPriority_succ, ih (by omega),
      waveInv_hits subs0 n _ (nfqueueWave_iterate_inv mess ctid newSession subs0 pmark hprio
        hlater n (by omega)), Nat.zero_add]

theorem nfqueueWaves_done (mess : TrafficMessage) (ctid : Nat) (newSession : Bool)
    (subtotal fuel : Nat) (w : WaveState) (h : w.subcount = subtotal) :
    nfqueueWaves mess ctid newSession subtotal fuel w = some w := by
  cases fuel <;> rw [nfqueueWaves, if_pos h]

/-- The wave loop of `nfqueueCallback` on a set of non-negative priorities whose handlers
release nothing of a later priority: it ends after exactly `waveCount` waves. -/
theorem nfqueueWaves_exact (mess : TrafficMessage) (ctid : Nat) (newSession : Bool)
    (subs0 : SubMap) (pmark : Nat) (hprio : priorityBelow subs0 (2 ^ 63))
    (hlater : releasesNoLater mess ctid newSession subs0) (fuel : Nat) :
    nfqueueWaves mess ctid newSession subs0.length fuel ⟨subs0, pmark, 0, 0, []⟩ =
      if waveCount subs0 ≤ fuel then
        some ((nfqueueWave mess ctid newSession)^[waveCount subs0] ⟨subs0, pmark, 0, 0, []⟩)
      else none := by
  have hnn : ∀ e ∈ subs0, 0 ≤ e.2.Priority := fun e he => (hprio e he).1
  have hcnt := nfqueueWave_iterate_subcount mess ctid newSession subs0 pmark hprio hlater
  have hne : ∀ i, i < waveCount subs0 →
      ((nfqueueWave mess ctid newSession)^[i] ⟨subs0, pmark, 0, 0, []⟩).subcount ≠
        subs0.length := by
    intro i hi h
    rw [hcnt i (by omega)] at h
    have := (filter_below_length subs0 hnn i (by omega)).mp h
    omega
  by_cases hf : waveCount subs0 ≤ fuel
  · rw [if_pos hf]
    obtain ⟨f, rfl⟩ : ∃ f, fuel = waveCount subs0 + f := ⟨fuel - waveCount subs0, by omega⟩
    rw [nfqueueWaves_iterate mess ctid newSession subs0.length (waveCount subs0) f _
      (fun i hi => hne i hi)]
    apply nfqueueWaves_done
    rw [hcnt _ (Nat.le_refl _)]
    exact (filter_below_length subs0 hnn _ (Nat.le_refl _)).mpr rfl
  · rw [if_neg hf]
    have h := nfqueueWaves_iterate mess ctid newSession subs0.length fuel 0
      ⟨subs0, pmark, 0, 0, []⟩ (fun i hi => hne i (by omega))
    rw [Nat.add_zero] at h
    rw [h, nfqueueWaves, if_neg (hne fuel (by omega))]

theorem nfqueueWave_iterate_bound (mess : TrafficMessage) (ctid : Nat) (newSession : Bool)
    (subs0 : SubMap) (pmark : Nat) :
    ∀ k, k ≤ 2 ^ 63 →
      ((nfqueueWave mess ctid newSession)^[k] ⟨subs0, pmark, 0, 0, []⟩).subcount ≤
        (subs0.filter
          (fun e => decide (0 ≤ e.2.Priority ∧ e.2.Priority < (k : Int)))).length := by
  intro k
  induction k with
  | zero => intro _; exact Nat.zero_le _
  | succ k ih =>
    intro hk
    have hp := nfqueueWave_iterate_priority mess ctid newSession k
      ⟨subs0, pmark, 0, 0, []⟩ rfl (by omega)
    have hsub := nfqueueWave_iterate_sublist mess ctid newSession
      ⟨subs0, pmark, 0, 0, []⟩ k
    rw [Function.iterate_succ_apply']
    show _ + (waveHits _).length ≤ _
    have hhits : (waveHits ((nfqueueWave mess ctid newSession)^[k]
        ⟨subs0, pmark, 0, 0, []⟩)).length ≤
        (subs0.filter (fun e => e.2.Priority == (k : Int))).length := by
      unfold waveHits
      rw [hp]
      exact (hsub.filter _).length_le
    have := ih (by omega)
    push_cast
    rw [filter_nonneg_split]
    omega

/-- The wave loop of `nfqueueCallback` on a set with a subscription of negative priority
does not reach its exit while the priority counts upward from 0. -/
theorem nfqueueWaves_negative (mess : TrafficMessage) (ctid : Nat) (newSession : Bool)
    (subs0 : SubMap) (pmark : Nat) (h : ∃ e ∈ subs0, e.2.Priority < 0) (fuel : Nat)
    (hfuel : fuel ≤ 2 ^ 63) :
    nfqueueWaves mess ctid newSession subs0.length fuel ⟨subs0, pmark, 0, 0, []⟩ = none := by
  have hne : ∀ i, i ≤ 2 ^ 63 →
      ((nfqueueWave mess ctid newSession)^[i] ⟨subs0, pmark, 0, 0, []⟩).subcount ≠
        subs0.length := by
    intro i hi heq
    have h1 := nfqueueWave_iterate_bound mess ctid newSession subs0 pmark i hi
    have h2 := filter_nonneg_lt subs0 h i
    omega
  have hit := nfqueueWaves_iterate mess ctid newSession subs0.length fuel 0
    ⟨subs0, pmark, 0, 0, []⟩ (fun i hi => hne i (by omega))
  rw [Nat.add_zero] at hit
  rw [hit, nfqueueWaves, if_neg (hne fuel hfuel)]

theorem invoked_nonneg (mess : TrafficMessage) (ctid : Nat) (newSession : Bool) :
    ∀ (n k : Nat) (w : WaveState), w.priority = (k : Int) → k + n ≤ 2 ^ 63 →
      ∀ e ∈ invoked mess ctid newSession n w, (k : Int) ≤ e.2.Priority := by
  intro n
  induction n with
  | zero => intro k w _ _ e he; rw [invoked] at he; exact absurd he (List.not_mem_nil e)
  | succ n ih =>
    intro k w hp hk e he
    rw [invoked] at he
    rcases List.mem_append.mp he with he | he
    · unfold waveHits at he
      rw [List.mem_filter, hp] at he
      have := he.2
      simp only [beq_iff_eq] at this
      omega
    · rcases Nat.eq_zero_or_pos n with rfl | hpos
      · rw [invoked] at he
        exact absurd he (List.not_mem_nil e)
      · have hinc : (nfqueueWave mess ctid newSession w).priority = ((k + 1 : Nat) : Int) := by
          show intInc w.priority = _
          rw [hp]
          unfold intInc
          push_cast
          rw [if_neg (by omega)]
        have := ih (k + 1) _ hinc (by omega) e he
        push_cast at this
        omega

end Dispatch

namespace Dispatch

theorem conntrackWaves_start (sublist : SubMap) (hprio : priorityBelow sublist (2 ^ 63))
    (fuel : Nat) :
    conntrackWaves sublist sublist.length fuel 0 0 [] =
      if waveCount sublist ≤ fuel then
        some ((byPriority sublist 0 (waveCount sublist)).map Prod.fst)
      else none := by
  have h := conntrackWaves_exact sublist hprio fuel 0 [] (Nat.zero_le _)
  have hzero : (sublist.filter (fun e => decide (e.2.Priority < ((0 : Nat) : Int)))).length
      = 0 := by
    rw [List.length_eq_zero, List.filter_eq_nil_iff]
    intro e he
    have := (hprio e he).1
    simp only [Nat.cast_zero, decide_eq_true_eq, not_lt]
    exact this
  rw [hzero] at h
  simp only [Nat.cast_zero, Nat.zero_add, Nat.sub_zero, List.nil_append] at h
  exact h

/-- C26: the wave loops of the three dispatchers count the priority upward from 0. For a
subscription set whose priorities are non-negative `int` values (and, for the nfqueue loop,
whose distinctly named handlers release only themselves) the loop ends after exactly
`waveCount` waves, the highest priority plus one and 0 for the empty set: it returns with
that much fuel and with no less, and it has then invoked the subscriptions priority by
priority, every one of them once. If a subscription has a negative priority, the loop does
not reach its exit within the `2 ^ 63` waves that count upward from 0, and no such wave
invokes a subscription of negative priority. -/
theorem wave_loops_count_upward :
    (∀ (mess : TrafficMessage) (ctid : Nat) (newSession : Bool) (subs : SubMap) (pmark : Nat),
      priorityBelow subs (2 ^ 63) → (subs.map Prod.fst).Nodup →
      releasesOnlySelf mess ctid newSession subs →
      (∀ fuel, nfqueueWaves mess ctid newSession subs.length fuel ⟨subs, pmark, 0, 0, []⟩ =
        if waveCount subs ≤ fuel then
          some ((nfqueueWave mess ctid newSession)^[waveCount subs] ⟨subs, pmark, 0, 0, []⟩)
        else none) ∧
      invoked mess ctid newSession (waveCount subs) ⟨subs, pmark, 0, 0, []⟩ =
        byPriority subs 0 (waveCount subs) ∧
      ((nfqueueWave mess ctid newSession)^[waveCount subs] ⟨subs, pmark, 0, 0, []⟩).calls =
        (byPriority subs 0 (waveCount subs)).map
          (fun e => e.2.NfqueueFunc mess ctid newSession) ∧
      (byPriority subs 0 (waveCount subs)).Perm subs) ∧
    (∀ sublist : SubMap, priorityBelow sublist (2 ^ 63) →
      (∀ fuel, conntrackWaves sublist sublist.length fuel 0 0 [] =
        if waveCount sublist ≤ fuel then
          some ((byPriority sublist 0 (waveCount sublist)).map Prod.fst)
        else none) ∧
      (∀ fuel, netloggerWaves sublist sublist.length fuel 0 0 [] =
        if waveCount sublist ≤ fuel then
          some ((byPriority sublist 0 (waveCount sublist)).map Prod.fst)
        else none) ∧
      (byPriority sublist 0 (waveCount sublist)).Perm sublist) ∧
    (∀ sublist : SubMap, (∃ e ∈ sublist, e.2.Priority < 0) → ∀ fuel, fuel ≤ 2 ^ 63 →
      conntrackWaves sublist sublist.length fuel 0 0 [] = none ∧
      netloggerWaves sublist sublist.length fuel 0 0 [] = none) ∧
    (∀ (mess : TrafficMessage) (ctid : Nat) (newSession : Bool) (subs : SubMap) (pmark : Nat),
      (∃ e ∈ subs, e.2.Priority < 0) → ∀ fuel, fuel ≤ 2 ^ 63 →
      nfqueueWaves mess ctid newSession subs.length fuel ⟨subs, pmark, 0, 0, []⟩ = none ∧
      ∀ e ∈ invoked mess ctid newSession fuel ⟨subs, pmark, 0, 0, []⟩, 0 ≤ e.2.Priority) ∧
    (∀ (subs : SubMap) (k n : Nat), ∀ e ∈ byPriority subs k n, 0 ≤ e.2.Priority) ∧
    (waveCount [] = 0 ∧
      ∀ subs : SubMap, subs ≠ [] →
        (∃ e ∈ subs, e.2.Priority.toNat + 1 = waveCount subs) ∧
        ∀ e ∈ subs, e.2.Priority.toNat < waveCount subs) := by
  refine ⟨?_, ?_, ?_, ?_, ?_, rfl, fun subs h => ⟨waveCount_attained subs h, waveCount_gt subs⟩⟩
  · intro mess ctid newSession subs pmark hprio hnd hself
    have hlater := releasesNoLater_of_onlySelf mess ctid newSession subs hnd hself
    have hinv := invoked_eq_byPriority mess ctid newSession subs pmark hprio hlater
      (waveCount subs) (Nat.le_refl _)
    refine ⟨nfqueueWaves_exact mess ctid newSession subs pmark hprio hlater, hinv, ?_,
      byPriority_all subs fun e he => (hprio e he).1⟩
    rw [nfqueueWave_iterate_calls, hinv]
    rfl
  · intro sublist hprio
    refine ⟨conntrackWaves_start sublist hprio, fun fuel => ?_,
      byPriority_all sublist fun e he => (hprio e he).1⟩
    rw [netloggerWaves_eq]
    exact conntrackWaves_start sublist hprio fuel
  · intro sublist hneg fuel hfuel
    have h := conntrackWaves_negative sublist hneg fuel 0 0 [] (by omega) (Nat.zero_le _)
    rw [Nat.cast_zero] at h
    exact ⟨h, by rw [netloggerWaves_eq]; exact h⟩
  · intro mess ctid newSession subs pmark hneg fuel hfuel
    refine ⟨nfqueueWaves_negative mess ctid newSession subs pmark hneg fuel hfuel, ?_⟩
    intro e he
    have := invoked_nonneg mess ctid newSession fuel 0 ⟨subs, pmark, 0, 0, []⟩ rfl (by omega)
      e he
    rw [Nat.cast_zero] at this
    exact this
  · intro subs k n e he
    have := (byPriority_mem subs n k e he).2
    omega

theorem wave_loops_count_upward_witness :
    priorityBelow fanOutState.conntrackList (2 ^ 63) ∧
    waveCount fanOutState.conntrackList = 3 ∧
    (byPriority fanOutState.conntrackList 0 3).map Prod.fst = ["b", "a"] ∧
    conntrackWaves fanOutState.conntrackList fanOutState.conntrackList.length 3 0 0 [] =
      (if waveCount fanOutState.conntrackList ≤ 3 then
        some ((byPriority fanOutState.conntrackList 0
          (waveCount fanOutState.conntrackList)).map Prod.fst)
      else none) ∧
    conntrackWaves fanOutState.conntrackList fanOutState.conntrackList.length 3 0 0 [] =
      some ["b", "a"] ∧
    conntrackWaves fanOutState.conntrackList fanOutState.conntrackList.length 2 0 0 [] =
      none :=
  have hprio : priorityBelow fanOutState.conntrackList (2 ^ 63) := by
    intro e he
    have he' : e ∈ [(("a", ⟨"a", 2, markOne⟩) : String × SubscriptionHolder),
        ("b", ⟨"b", 0, markOne⟩)] := he
    simp only [List.mem_cons, List.mem_singleton, List.not_mem_nil, or_false] at he'
    rcases he' with rfl | rfl <;> decide
  ⟨hprio, rfl, rfl,
    (wave_loops_count_upward.2.1 fanOutState.conntrackList hprio).1 3, rfl, rfl⟩

end Dispatch

namespace Dispatch

/-! ## Releasing a subscription by its owner name -/

theorem invoked_mem (mess : TrafficMessage) (ctid : Nat) (newSession : Bool) :
    ∀ (n : Nat) (w : WaveState), ∀ e ∈ invoked mess ctid newSession n w, e ∈ w.Subs := by
  intro n
  induction n with
  | zero => intro w e he; rw [invoked] at he; exact absurd he (List.not_mem_nil e)
  | succ n ih =>
    intro w e he
    rw [invoked] at he
    rcases List.mem_append.mp he with he | he
    · unfold waveHits at he
      exact (List.mem_filter.mp he).1
    · exact (nfqueueWave_sublist mess ctid newSession w).subset (ih _ e he)

/-- C11, as stated, fails: `nfqueueCallback` deletes the subscription named by the `Owner`
field of a releasing result, whatever the name the handler is registered with. The handler
`markFour`, registered under the name `one`, returns `SessionRelease = true` with the owner
`four`; it is invoked once and the subscription `one` is still in the session when
`nfqueueCallback` returns. -/
theorem nfqueueCallback_release_keeps_other_name :
    misnamedRelease.nfqueueList.map Prod.fst = ["one"] ∧
    ∃ r s', nfqueueCallback 1 0 misnamedRelease 100 tcpPacket 60 0 = .ok r ∧
      r.calls = [⟨"four", 4, true⟩] ∧ r.state.sessionTable 100 = some s' ∧
      s'.Subs.map Prod.fst = ["one"] :=
  ⟨rfl, _, _, rfl, rfl, rfl, rfl⟩

/-- C11, amended: when `nfqueueCallback` returns, the owner named by every result of the
event that has `SessionRelease = true` has no subscription in the session; so a handler
invoked during the event whose releasing result names the handler's own subscription as
`Owner` is no longer subscribed; and if every result of the event has
`SessionRelease = false`, the session is stored with the subscription set it entered the
wave loop with. -/
theorem nfqueueCallback_release_by_owner (fuel : Nat) (now : Int) (st : State) (ctid : Nat)
    (packet : Packet) (packetLength : Int) (pmark : Nat) (r : NfqueueReturn) (ip : IPv4Layer)
    (st1 : State) (session : SessionEntry) (newSession : Bool)
    (hip : packet.ipv4 = some ip)
    (hres : nfqueueResolve now st ctid (nfqueueTuple ip packet) = .ok (st1, session, newSession))
    (hr : nfqueueCallback fuel now st ctid packet packetLength pmark = .ok r) :
    (∀ c ∈ r.calls, c.SessionRelease = true →
      ∃ s', r.state.sessionTable ctid = some s' ∧ c.Owner ∉ s'.Subs.map Prod.fst) ∧
    (∃ n ≤ fuel,
      r.calls = (invoked (nfqueueMessage session (nfqueueTuple ip packet) packet packetLength)
          ctid newSession n ⟨session.Subs, pmark, 0, 0, []⟩).map
        (fun e => e.2.NfqueueFunc
          (nfqueueMessage session (nfqueueTuple ip packet) packet packetLength)
          ctid newSession) ∧
      ∀ e ∈ invoked (nfqueueMessage session (nfqueueTuple ip packet) packet packetLength)
          ctid newSession n ⟨session.Subs, pmark, 0, 0, []⟩,
        e ∈ session.Subs ∧
        ((e.2.NfqueueFunc (nfqueueMessage session (nfqueueTuple ip packet) packet packetLength)
            ctid newSession).SessionRelease = true →
          (e.2.NfqueueFunc (nfqueueMessage session (nfqueueTuple ip packet) packet
            packetLength) ctid newSession).Owner = e.1 →
          ∃ s', r.state.sessionTable ctid = some s' ∧ e.1 ∉ s'.Subs.map Prod.fst)) ∧
    ((∀ c ∈ r.calls, c.SessionRelease = false) →
      r.state.sessionTable ctid = some session) := by
  obtain ⟨st1', session', newSession', w, hres', hw, rfl⟩ :=
    nfqueueCallback_ok_inv fuel now st ctid packet packetLength pmark ip r hip hr
  rw [hres] at hres'
  cases hres'
  have hrel : ∀ c ∈ w.calls, c.SessionRelease = true →
      ∃ s', (insertSessionEntry st1 ctid { session with Subs := w.Subs }).sessionTable ctid =
        some s' ∧ c.Owner ∉ s'.Subs.map Prod.fst := fun c hc hrel =>
    ⟨_, insertSessionEntry_same _ _ _,
      nfqueueWaves_released _ _ _ _ _ _ _ hw (fun _ h => absurd h (List.not_mem_nil _)) c hc hrel⟩
  refine ⟨hrel, ?_, ?_⟩
  · obtain ⟨n, hn, hwn⟩ := nfqueueWaves_some_iterate _ _ _ _ _ _ _ hw
    have hcalls : w.calls = (invoked (nfqueueMessage session (nfqueueTuple ip packet) packet
          packetLength) ctid newSession n ⟨session.Subs, pmark, 0, 0, []⟩).map
        (fun e => e.2.NfqueueFunc
          (nfqueueMessage session (nfqueueTuple ip packet) packet packetLength)
          ctid newSession) := by
      rw [hwn]
      exact (nfqueueWave_iterate_calls _ _ _ n _).trans (List.nil_append _)
    refine ⟨n, hn, hcalls, fun e he => ⟨invoked_mem _ _ _ n _ e he, fun hrelease hown => ?_⟩⟩
    obtain ⟨s', hs', hnot⟩ := hrel _ (by
      rw [hcalls]
      exact List.mem_map_of_mem _ he) hrelease
    rw [hown] at hnot
    exact ⟨s', hs', hnot⟩
  · intro hall
    rw [insertSessionEntry_same, (nfqueueWaves_keep _ _ _ _ _ _ _ hw).2 hall]

theorem nfqueueCallback_release_by_owner_witness :
    ∃ r, nfqueueCallback 2 2 freshState 100 tcpPacket 60 0 = .ok r ∧
      r.calls = [⟨"one", 1, false⟩, ⟨"four", 4, true⟩] ∧
      ∃ s', r.state.sessionTable 100 = some s' ∧ "four" ∉ s'.Subs.map Prod.fst :=
  ⟨_, rfl, rfl,
    (nfqueueCallback_release_by_owner 2 2 freshState 100 tcpPacket 60 0 _
      ⟨6, [10, 0, 0, 1], [1, 2, 3, 4]⟩ _ _ _ rfl rfl rfl).1 ⟨"four", 4, true⟩
      (List.mem_cons_of_mem _ (List.mem_cons_self _ _)) rfl⟩

end Dispatch

end Packetd
